import Mathlib

/-! War-room simulation (`script.js`): shallow embedding and verified properties.

Embedding.

JavaScript numbers are embedded as exact rationals (`ℚ`); integer-valued
counters (`hp`, `damage`, `ammo`, `hangar`, `defcon`) are `ℤ`.  The two
library calls that are not rational functions are parameters of the
embedding, collected in `Env`:

* `Math.sqrt`   is `Env.sqrt`,
* `Math.random` is the stream `Env.random`; the world records how many
  draws have been made (`World.rnd`), so every call site consumes the next
  element in program order.

The viewport (`width`, `height`), the world geometry (`mapData`), the
per-faction territory lists (`FACTIONS[k].targets`), the global list `targets`
(`Env.allTargets`) and the origin (`userLon`, `userLat`) are never written by
the simulation core and are therefore fields of `Env` as well.

Objects with identity (`Unit`, `Missile`) live in heaps indexed by allocation
order; the arrays `units` and `missiles` hold references (heap indices), and
so do `combatTarget` and a `target` that aliases the `pos` object of a silo.
Rendering calls (`ctx.*`, `draw`, the footer text) have no effect on the
simulation state and are omitted.  A thrown `TypeError` is the result `none`.

`World.trace` is ghost state: the calls of `update()`, the explosions
created, the calls of `checkImpact` and `spawnFactionUnits`, and the
executions of the victory branch, in program order.  No operation reads it.

Proof method.

Every assignment of the core is a primitive state change (`Effect`), and
every operation is shown to be a sequence of guarded primitive changes of a
stated kind (`Evolves`).  Invariants and frame properties are then proved
once per primitive change.
-/

namespace WarSim

/-! ## Geometry oracle and projector -/

/-- A GeoJSON position `[lon, lat]`. -/
abbrev Coord := ℚ × ℚ

/-- A linear ring: an array of positions. -/
abbrev Ring := List Coord

/-- The `geometry` member of a map feature; `other` stands for every
geometry type that is neither `'Polygon'` nor `'MultiPolygon'`. -/
inductive Geometry where
  | polygon (coordinates : List Ring)
  | multiPolygon (coordinates : List (List Ring))
  | other

/-- A map feature of `mapData`. -/
structure Feature where
  geometry : Geometry

/-- A plane point `{ x, y }`. -/
structure Pt where
  x : ℚ
  y : ℚ
deriving DecidableEq

/-- The object `{ lon, lat }` returned by `unproject`. -/
structure LonLat where
  lon : ℚ
  lat : ℚ
deriving DecidableEq

/-- The seven entries of `FACTIONS`. -/
inductive FactionId where
  | NA | SA | EU | AF | RU | AS | ROGUE
deriving DecidableEq, Repr

/-- The parameters of the embedding: library functions, viewport and the
read-only world data. -/
structure Env where
  sqrt : ℚ → ℚ
  random : ℕ → ℚ
  width : ℚ
  height : ℚ
  mapData : List Feature
  targets : FactionId → List Coord
  allTargets : List Coord
  userLon : ℚ
  userLat : ℚ

/-- The local `scale` of `project` and `unproject`. -/
def scale (env : Env) : ℚ :=
  min (env.width / 360) (env.height / 180) * (9 / 10)

/-- The local `xOffset` of `project` and `unproject`. -/
def xOffset (env : Env) : ℚ := (env.width - 360 * scale env) / 2

/-- The local `yOffset` of `project` and `unproject`. -/
def yOffset (env : Env) : ℚ := (env.height - 180 * scale env) / 2

/-- The function `project(lon, lat)`. -/
def project (env : Env) (lon lat : ℚ) : Pt :=
  { x := (lon + 180) * scale env + xOffset env
    y := (90 - lat) * scale env + yOffset env }

/-- The function `unproject(x, y)`. -/
def unproject (env : Env) (x y : ℚ) : LonLat :=
  { lon := (x - xOffset env) / scale env - 180
    lat := 90 - (y - yOffset env) / scale env }

/-- The function `dist(p1, p2)`. -/
def dist (env : Env) (p1 p2 : Pt) : ℚ :=
  env.sqrt ((p1.x - p2.x) ^ 2 + (p1.y - p2.y) ^ 2)

/-- The test `intersect` of one iteration of `isPointInPoly`, for the
vertices `vs[i] = pi` and `vs[j] = pj`. -/
def intersect (x y : ℚ) (pi pj : Coord) : Bool :=
  (decide (pi.2 > y) != decide (pj.2 > y)) &&
    decide (x < (pj.1 - pi.1) * (y - pi.2) / (pj.2 - pi.2) + pi.1)

/-- One iteration of the `for` loop of `isPointInPoly`; the loop state is
`(inside, j)` and the iteration ends with `j = i++`. -/
def isPointInPolyStep (x y : ℚ) (vs : Ring) (st : Bool × ℕ) (i : ℕ) : Bool × ℕ :=
  (if intersect x y (vs.getD i (0, 0)) (vs.getD st.2 (0, 0)) then !st.1 else st.1, i)

/-- The function `isPointInPoly(point, vs)`: the loop runs `i` over
`0 .. vs.length - 1`, starting with `inside = false` and `j = vs.length - 1`. -/
def isPointInPoly (point : Coord) (vs : Ring) : Bool :=
  ((List.range vs.length).foldl (isPointInPolyStep point.1 point.2 vs)
    (false, vs.length - 1)).1

/-- The function `isOnLand(lon, lat)` over the features of `mapData`. -/
def isOnLandIn : List Feature → ℚ → ℚ → Bool
  | [], _, _ => false
  | feature :: rest, lon, lat =>
    match feature.geometry with
    | .polygon coordinates =>
      if coordinates.any (fun ring => isPointInPoly (lon, lat) ring) then true
      else isOnLandIn rest lon lat
    | .multiPolygon coordinates =>
      if coordinates.any (fun poly => poly.any (fun ring => isPointInPoly (lon, lat) ring))
      then true
      else isOnLandIn rest lon lat
    | .other => isOnLandIn rest lon lat

/-- The function `isOnLand(lon, lat)`. -/
def isOnLand (env : Env) (lon lat : ℚ) : Bool := isOnLandIn env.mapData lon lat

/-! ## Data model -/

/-- The keys of `UNIT_STATS`: the unit archetypes. -/
inductive UnitType where
  | CARRIER | SUB | BOMBER | FIGHTER | SILO
deriving DecidableEq, Repr

/-- An entry of a `targets` list of `UNIT_STATS`: an archetype name or the
string `'CITY'`, which is no unit type. -/
inductive TargetTag where
  | unit (t : UnitType)
  | CITY
deriving DecidableEq

/-- The field `spawnRegion` of a faction: `{ lon: [a, b], lat: [c, d] }`. -/
structure SpawnRegion where
  lon : ℚ × ℚ
  lat : ℚ × ℚ

/-- The field `spawnRegion` of each entry of `FACTIONS`; `ROGUE` has none. -/
def spawnRegion : FactionId → Option SpawnRegion
  | .NA => some { lon := (-130, -70), lat := (25, 50) }
  | .SA => some { lon := (-80, -40), lat := (-50, 10) }
  | .EU => some { lon := (-10, 30), lat := (35, 60) }
  | .AF => some { lon := (-20, 50), lat := (-35, 30) }
  | .RU => some { lon := (40, 180), lat := (50, 70) }
  | .AS => some { lon := (60, 150), lat := (10, 45) }
  | .ROGUE => none

/-- The initial value of `isAlerted` of each entry of `FACTIONS`. -/
def initialAlert : FactionId → Bool
  | .ROGUE => true
  | _ => false

/-- The entries of `FACTIONS` in key order (`Object.values(FACTIONS)`,
`for (const key in FACTIONS)`). -/
def FACTIONS : List FactionId := [.NA, .SA, .EU, .AF, .RU, .AS, .ROGUE]

/-- An entry of `UNIT_STATS`; `ammo` and `hangar` are absent from some
entries, and `air` says that the entry has `type: 'AIR'`. -/
structure Stats where
  hp : ℤ
  range : ℚ
  damage : ℤ
  speed : ℚ
  limit : ℕ
  targets : List TargetTag
  ammo : Option ℤ
  hangar : Option ℤ
  air : Bool

/-- The table `UNIT_STATS`. -/
def UNIT_STATS : UnitType → Stats
  | .CARRIER => { hp := 1000, range := 150, damage := 2, speed := 2 / 100, limit := 2,
                  targets := [.unit .FIGHTER, .unit .BOMBER, .unit .SUB],
                  ammo := none, hangar := some 10, air := false }
  | .SUB => { hp := 300, range := 200, damage := 50, speed := 5 / 100, limit := 4,
              targets := [.unit .CARRIER, .unit .SUB],
              ammo := some 5, hangar := none, air := false }
  | .BOMBER => { hp := 100, range := 20, damage := 200, speed := 4 / 10, limit := 0,
                 targets := [.CITY, .unit .SUB, .unit .SILO],
                 ammo := none, hangar := none, air := true }
  | .FIGHTER => { hp := 50, range := 50, damage := 10, speed := 8 / 10, limit := 0,
                  targets := [.unit .BOMBER, .unit .FIGHTER, .unit .CARRIER],
                  ammo := none, hangar := none, air := true }
  | .SILO => { hp := 500, range := 9999, damage := 0, speed := 0, limit := 5,
               targets := [.CITY, .unit .SILO],
               ammo := some 10, hangar := none, air := false }

/-- The value of a unit's `target` field: a fresh object `{ x, y }`, or the
`pos` object of another unit (`silos[k].pos` in `findCityTarget`). -/
inductive Target where
  | point (p : Pt)
  | posOf (id : ℕ)
deriving DecidableEq

/-- An object of class `Unit`; `combatTarget` is a reference to a unit. -/
structure Unit where
  type : UnitType
  faction : FactionId
  pos : Pt
  lon : ℚ
  lat : ℚ
  dead : Bool
  target : Option Target
  combatTarget : Option ℕ
  hp : ℤ
  maxHp : ℤ
  range : ℚ
  damage : ℤ
  speed : ℚ
  validTargets : List TargetTag
  ammo : ℤ
  hangar : ℤ
  isAir : Bool
  isNaval : Bool
  cooldown : ℚ

/-- An object of class `Missile`; the field `end` is named `finish` here. -/
structure Missile where
  start : Pt
  finish : Pt
  faction : FactionId
  progress : ℚ
  speed : ℚ
  maxHeight : ℚ
  dead : Bool

/-- An object of class `Explosion`. -/
structure Explosion where
  x : ℚ
  y : ℚ
  radius : ℚ
  maxRadius : ℚ
  alpha : ℚ
  dead : Bool
  faction : FactionId

/-- The object whose method is running when an event is recorded. -/
inductive Source where
  | unit (id : ℕ)
  | missile (id : ℕ)
deriving DecidableEq

/-- The observable events of a run, recorded in `World.trace` (ghost state:
no operation reads the trace). -/
inductive Event where
  /-- A call of `u.update()` on the unit. -/
  | unitUpdate (id : ℕ)
  /-- A call of `m.update()` on the missile. -/
  | missileUpdate (id : ℕ)
  /-- An evaluation of `new Explosion(x, y, faction)` in a method of `src`. -/
  | explosion (src : Source) (x y : ℚ) (faction : FactionId)
  /-- A call of `checkImpact(x, y, aggressor)` from a method of `src`. -/
  | impact (src : Source) (x y : ℚ) (aggressor : FactionId)
  /-- A call of `spawnFactionUnits(faction)`. -/
  | mobilize (faction : FactionId)
  /-- The victory branch of `checkVictory` ran with this `winner`. -/
  | victory (winner : FactionId)
deriving DecidableEq

/-- The mutable globals of the script.  `heap` and `mheap` hold every `Unit`
and `Missile` object allocated so far (`nextUnit`, `nextMissile` of them);
`units` and `missiles` are the arrays of references. -/
structure World where
  heap : ℕ → Unit
  nextUnit : ℕ
  units : List ℕ
  mheap : ℕ → Missile
  nextMissile : ℕ
  missiles : List ℕ
  explosions : List Explosion
  isAlerted : FactionId → Bool
  defcon : ℤ
  victorySecured : Bool
  rnd : ℕ
  trace : List Event

/-- Overwrite the fields of the unit object `id`. -/
def World.setUnit (w : World) (id : ℕ) (u : Unit) : World :=
  { w with heap := Function.update w.heap id u }

/-- Overwrite the fields of the missile object `id`. -/
def World.setMissile (w : World) (id : ℕ) (m : Missile) : World :=
  { w with mheap := Function.update w.mheap id m }

/-- Record an event. -/
def World.log (w : World) (e : Event) : World :=
  { w with trace := w.trace ++ [e] }

/-- The value returned by the next call of `Math.random()`. -/
def World.draw (env : Env) (w : World) : ℚ := env.random w.rnd

/-- Set the number of draws made so far. -/
def World.setRnd (w : World) (n : ℕ) : World := { w with rnd := n }

/-- The world after one call of `Math.random()`. -/
def World.advance (w : World) : World := w.setRnd (w.rnd + 1)

/-- The assignment `this.cooldown = c` in a method of unit `id`. -/
def World.setCooldown (w : World) (id : ℕ) (c : ℚ) : World :=
  w.setUnit id { w.heap id with cooldown := c }

/-- The assignment `this.target = t` in a method of unit `id`. -/
def World.setTarget (w : World) (id : ℕ) (t : Option Target) : World :=
  w.setUnit id { w.heap id with target := t }

/-- The assignment `this.combatTarget = t` in a method of unit `id`. -/
def World.setCombatTarget (w : World) (id : ℕ) (t : Option ℕ) : World :=
  w.setUnit id { w.heap id with combatTarget := t }

/-- The assignments `this.pos.x = p.x; this.pos.y = p.y` in a method of unit
`id`. -/
def World.setPos (w : World) (id : ℕ) (p : Pt) : World :=
  w.setUnit id { w.heap id with pos := p }

/-- The assignment `this.hp -= amount` in a method of unit `id`. -/
def World.subHp (w : World) (id : ℕ) (amount : ℤ) : World :=
  w.setUnit id { w.heap id with hp := (w.heap id).hp - amount }

/-- The assignment `this.dead = true` in a method of unit `id`. -/
def World.setDead (w : World) (id : ℕ) : World :=
  w.setUnit id { w.heap id with dead := true }

/-- The statement `this.ammo--` in a method of unit `id`. -/
def World.decAmmo (w : World) (id : ℕ) : World :=
  w.setUnit id { w.heap id with ammo := (w.heap id).ammo - 1 }

/-- The statement `this.hangar--` in a method of unit `id`. -/
def World.decHangar (w : World) (id : ℕ) : World :=
  w.setUnit id { w.heap id with hangar := (w.heap id).hangar - 1 }

/-- The assignment `f.isAlerted = true`. -/
def World.setAlerted (w : World) (f : FactionId) : World :=
  { w with isAlerted := Function.update w.isAlerted f true }

/-- The assignment `this.progress = p` in a method of missile `id`. -/
def World.setProgress (w : World) (id : ℕ) (p : ℚ) : World :=
  w.setMissile id { w.mheap id with progress := p }

/-- The assignment `this.dead = true` in a method of missile `id`. -/
def World.setMissileDead (w : World) (id : ℕ) : World :=
  w.setMissile id { w.mheap id with dead := true }

/-- The point a `target` value denotes in the current world. -/
def Target.get (w : World) : Target → Pt
  | .point p => p
  | .posOf id => (w.heap id).pos

/-- The element `xs[i]` for a JavaScript number `i` that is an integer;
`none` is `undefined`. -/
def jsIndex {α : Type} (xs : List α) (i : ℤ) : Option α :=
  if i < 0 then none else xs[i.toNat]?

/-- The expression `xs[Math.floor(r * xs.length)]`. -/
def pick {α : Type} (xs : List α) (r : ℚ) : Option α :=
  jsIndex xs ⌊r * (xs.length : ℚ)⌋

/-- The statement `explosions.push(new Explosion(x, y, faction))`, run in a
method of `src`; the constructor draws `maxRadius`. -/
def pushExplosion (env : Env) (src : Source) (x y : ℚ) (faction : FactionId)
    (w : World) : World :=
  { w with
    explosions := w.explosions ++
      [{ x := x, y := y, radius := 1, maxRadius := w.draw env * 20 + 10, alpha := 1,
         dead := false, faction := faction }]
    rnd := w.rnd + 1
    trace := w.trace ++ [.explosion src x y faction] }

/-- The constructor of `Unit`; `r` is the value drawn for `cooldown`. -/
def Unit.new (env : Env) (type : UnitType) (faction : FactionId) (lon lat r : ℚ) : Unit :=
  { type := type
    faction := faction
    pos := project env lon lat
    lon := lon
    lat := lat
    dead := false
    target := none
    combatTarget := none
    hp := (UNIT_STATS type).hp
    maxHp := (UNIT_STATS type).hp
    range := (UNIT_STATS type).range
    damage := (UNIT_STATS type).damage
    speed := (UNIT_STATS type).speed
    validTargets := (UNIT_STATS type).targets
    ammo := ((UNIT_STATS type).ammo).getD 0
    hangar := ((UNIT_STATS type).hangar).getD 0
    isAir := (UNIT_STATS type).air
    isNaval := decide (type = .SUB ∨ type = .CARRIER)
    cooldown := r * 100 + 50 }

/-- The statement `units.push(new Unit(type, faction, lon, lat))`. -/
def pushUnit (env : Env) (type : UnitType) (faction : FactionId) (lon lat : ℚ)
    (w : World) : World :=
  { w with
    heap := Function.update w.heap w.nextUnit (Unit.new env type faction lon lat (w.draw env))
    nextUnit := w.nextUnit + 1
    units := w.units ++ [w.nextUnit]
    rnd := w.rnd + 1 }

/-- The constructor of `Missile`; `r` is the value drawn for `speed`. -/
def Missile.new (env : Env) (startLon startLat endLon endLat : ℚ) (faction : FactionId)
    (r : ℚ) : Missile :=
  { start := project env startLon startLat
    finish := project env endLon endLat
    faction := faction
    progress := 0
    speed := r * (5 / 1000) + 2 / 1000
    maxHeight := dist env (project env startLon startLat) (project env endLon endLat) * (1 / 2)
    dead := false }

/-- The statement `missiles.push(new Missile(...))`. -/
def pushMissile (env : Env) (startLon startLat endLon endLat : ℚ) (faction : FactionId)
    (w : World) : World :=
  { w with
    mheap := Function.update w.mheap w.nextMissile
      (Missile.new env startLon startLat endLon endLat faction (w.draw env))
    nextMissile := w.nextMissile + 1
    missiles := w.missiles ++ [w.nextMissile]
    rnd := w.rnd + 1 }

/-! ## Unit methods -/

/-- The method `takeDamage(amount)` of unit `id`. -/
def Unit.takeDamage (env : Env) (id : ℕ) (amount : ℤ) (w : World) : World :=
  let w1 := w.subHp id amount
  if (w1.heap id).hp ≤ 0 then
    let w2 := w1.setDead id
    pushExplosion env (.unit id) (w2.heap id).pos.x (w2.heap id).pos.y (w2.heap id).faction w2
  else w1

/-- The method `moveTo(targetPos)` of unit `id`. -/
def Unit.moveTo (env : Env) (id : ℕ) (targetPos : Pt) (w : World) : World :=
  let u := w.heap id
  let dx := targetPos.x - u.pos.x
  let dy := targetPos.y - u.pos.y
  let d := env.sqrt (dx * dx + dy * dy)
  if d > 1 then
    let nextX := u.pos.x + (dx / d) * u.speed
    let nextY := u.pos.y + (dy / d) * u.speed
    if u.isNaval = true ∧
        isOnLand env (unproject env nextX nextY).lon (unproject env nextX nextY).lat = true then
      w.setTarget id none
    else
      w.setPos id { x := nextX, y := nextY }
  else w

/-- The first statement of `patrol()`: with no target and a draw above
`0.99`, pick a random point (two more draws) and keep it unless the unit is
naval and the point is on land.  The first draw is made only when the unit
has no target. -/
def Unit.patrolPick (env : Env) (id : ℕ) (w : World) : World :=
  if (w.heap id).target.isSome then w
  else if w.draw env > 99 / 100 then
    let w1 := w.advance
    let randX := (w1.heap id).pos.x + (w1.draw env - 1 / 2) * 100
    let w2 := w1.advance
    let randY := (w2.heap id).pos.y + (w2.draw env - 1 / 2) * 100
    let w3 := w2.advance
    if (w3.heap id).isNaval = true then
      if isOnLand env (unproject env randX randY).lon (unproject env randX randY).lat = true
      then w3
      else w3.setTarget id (some (.point { x := randX, y := randY }))
    else w3.setTarget id (some (.point { x := randX, y := randY }))
  else w.advance

/-- The second statement of `patrol()`: move to the target and clear it
when the unit is within 2 plane units of it. -/
def Unit.patrolMove (env : Env) (id : ℕ) (w : World) : World :=
  match (w.heap id).target with
  | none => w
  | some tg =>
    let w1 := Unit.moveTo env id (tg.get w) w
    match (w1.heap id).target with
    | none => w1
    | some tg1 =>
      if dist env (w1.heap id).pos (tg1.get w1) < 2 then w1.setTarget id none else w1

/-- The method `patrol()` of unit `id`. -/
def Unit.patrol (env : Env) (id : ℕ) (w : World) : World :=
  Unit.patrolMove env id (Unit.patrolPick env id w)

/-- The first statement of `findTarget()`: drop a combat target that is dead
or, for a unit that is no fighter, farther than twice the weapon range. -/
def Unit.dropStaleTarget (env : Env) (id : ℕ) (w : World) : World :=
  match (w.heap id).combatTarget with
  | none => w
  | some t =>
    if (w.heap t).dead = true ∨
        ((w.heap id).type ≠ .FIGHTER ∧
          dist env (w.heap id).pos (w.heap t).pos > (w.heap id).range * 2) then
      w.setCombatTarget id none
    else w

/-- The array `enemies` of `findTarget()` before it is sorted. -/
def Unit.enemies (env : Env) (id : ℕ) (w : World) : List ℕ :=
  let u := w.heap id
  let scanRange : ℚ := if u.isAir = true then 1000 else u.range
  w.units.filter (fun e =>
    decide ((w.heap e).faction ≠ u.faction) &&
    !(w.heap e).dead &&
    decide (TargetTag.unit (w.heap e).type ∈ u.validTargets) &&
    decide (dist env u.pos (w.heap e).pos ≤ scanRange))

/-- The array `enemies` after `enemies.sort(...)`: a stable sort by the
distance to the unit. -/
def Unit.sortedEnemies (env : Env) (id : ℕ) (w : World) : List ℕ :=
  List.insertionSort
    (fun a b => dist env (w.heap id).pos (w.heap a).pos ≤ dist env (w.heap id).pos (w.heap b).pos)
    (Unit.enemies env id w)

/-- The method `findTarget()` of unit `id`. -/
def Unit.findTarget (env : Env) (id : ℕ) (w : World) : World :=
  let w1 := Unit.dropStaleTarget env id w
  match (w1.heap id).combatTarget with
  | some _ => w1
  | none =>
    match Unit.sortedEnemies env id w1 with
    | [] => w1
    | e :: _ => w1.setCombatTarget id (some e)

/-- The array `enemyFactions` of `findCityTarget()` and `launchMissile()`. -/
def enemyFactions (env : Env) (own : FactionId) : List FactionId :=
  FACTIONS.filter (fun f =>
    decide (f ≠ own) && decide (f ≠ .ROGUE) && decide ((env.targets f).length > 0))

/-- The array `silos` of `findCityTarget()` for the enemy faction `ef`. -/
def liveSilos (w : World) (ef : FactionId) : List ℕ :=
  w.units.filter (fun s =>
    decide ((w.heap s).faction = ef) && decide ((w.heap s).type = .SILO) && !(w.heap s).dead)

/-- The method `findCityTarget()` of unit `id`. -/
def Unit.findCityTarget (env : Env) (id : ℕ) (w : World) : Option World :=
  if (w.heap id).target.isSome then some w
  else if (enemyFactions env (w.heap id).faction).length > 0 then
    match pick (enemyFactions env (w.heap id).faction) (w.draw env) with
    | none => none
    | some ef =>
      let w1 := w.advance
      if (liveSilos w1 ef).length > 0 then
        match pick (liveSilos w1 ef) (w1.draw env) with
        | none => none
        | some s => some (w1.advance.setTarget id (some (.posOf s)))
      else
        match pick (env.targets ef) (w1.draw env) with
        | none => none
        | some t => some (w1.advance.setTarget id (some (.point (project env t.1 t.2))))
  else some w

/-- The method `fireLaser()` of unit `id`. -/
def Unit.fireLaser (env : Env) (id : ℕ) (w : World) : World :=
  match (w.heap id).combatTarget with
  | none => w
  | some t => Unit.takeDamage env t (w.heap id).damage w

/-- The variables of the while loop of `spawn`. -/
structure SpawnSearch where
  lon : ℚ
  lat : ℚ
  valid : Bool
  attempts : ℕ
  rnd : ℕ

/-- The loop `while (!valid && attempts < 50)` of `spawn`, for at most `fuel`
iterations; the loop makes at most 50. -/
def spawnSearch (env : Env) (region : SpawnRegion) (isNaval isLand : Bool) :
    ℕ → SpawnSearch → SpawnSearch
  | 0, s => s
  | fuel + 1, s =>
    if s.valid = false ∧ s.attempts < 50 then
      let lon := region.lon.1 + env.random s.rnd * (region.lon.2 - region.lon.1)
      let lat := region.lat.1 + env.random (s.rnd + 1) * (region.lat.2 - region.lat.1)
      let onLand := isOnLand env lon lat
      let valid : Bool :=
        if isNaval = true then (if onLand = false then true else s.valid)
        else if isLand = true then (if onLand = true then true else s.valid)
        else true
      spawnSearch env region isNaval isLand fuel
        { lon := lon, lat := lat, valid := valid, attempts := s.attempts + 1, rnd := s.rnd + 2 }
    else s

/-- The variables of the while loop of `spawn` after the loop; `lon` and
`lat` are `undefined` before the first iteration and are read only when
`valid` is true. -/
def spawnFind (env : Env) (region : SpawnRegion) (type : UnitType) (rnd : ℕ) : SpawnSearch :=
  spawnSearch env region (decide (type = .CARRIER ∨ type = .SUB)) (decide (type = .SILO)) 50
    { lon := 0, lat := 0, valid := false, attempts := 0, rnd := rnd }

/-- One iteration of the `for` loop of `spawn(type, count)`. -/
def spawnOne (env : Env) (region : SpawnRegion) (type : UnitType) (faction : FactionId)
    (w : World) : World :=
  let s := spawnFind env region type w.rnd
  let w1 := w.setRnd s.rnd
  if s.valid = true then pushUnit env type faction s.lon s.lat w1 else w1

/-- The local function `spawn(type, count)` of `spawnFactionUnits`. -/
def spawn (env : Env) (region : SpawnRegion) (faction : FactionId) (type : UnitType) :
    ℕ → World → World
  | 0, w => w
  | count + 1, w => spawn env region faction type count (spawnOne env region type faction w)

/-- The function `spawnFactionUnits(faction)`; reading `region.lon` of a
faction without `spawnRegion` throws. -/
def spawnFactionUnits (env : Env) (faction : FactionId) (w : World) : Option World :=
  match spawnRegion faction with
  | none => none
  | some region =>
    let w0 := w.log (.mobilize faction)
    let w1 := spawn env region faction .CARRIER (UNIT_STATS .CARRIER).limit w0
    let w2 := spawn env region faction .SUB (UNIT_STATS .SUB).limit w1
    some (spawn env region faction .SILO (UNIT_STATS .SILO).limit w2)

/-- The body of the first loop of `checkImpact` for the unit `id`. -/
def impactHit (env : Env) (p : Pt) (aggressor : FactionId) (w : World) (id : ℕ) : World :=
  if (w.heap id).faction ≠ aggressor ∧ (w.heap id).dead = false ∧
      dist env (w.heap id).pos p < 10 then
    Unit.takeDamage env id 1000 w
  else w

/-- The first loop of `checkImpact`: `units.forEach(u => ...)`. -/
def impactDamage (env : Env) (p : Pt) (aggressor : FactionId) (w : World) : World :=
  w.units.foldl (impactHit env p aggressor) w

/-- The loop `for (const key in FACTIONS)` of `checkImpact` over the
remaining keys: the first faction other than `ROGUE` with a territory point
within 5 degrees of `(lon, lat)`. -/
def territoryOwner (env : Env) (lon lat : ℚ) : List FactionId → Option FactionId
  | [] => none
  | f :: rest =>
    if f = .ROGUE then territoryOwner env lon lat rest
    else if (env.targets f).any (fun t => decide (|t.1 - lon| < 5) && decide (|t.2 - lat| < 5))
    then some f
    else territoryOwner env lon lat rest

/-- The chain `if (lat > 15 && lon < -30) ... else if (lon > 60)` of
`checkImpact`. -/
def quadrantOwner (lon lat : ℚ) : Option FactionId :=
  if lat > 15 ∧ lon < -30 then some .NA
  else if lat ≤ 15 ∧ lon < -30 then some .SA
  else if lat > 30 ∧ lon > -30 ∧ lon < 40 then some .EU
  else if lat ≤ 30 ∧ lon > -30 ∧ lon < 60 then some .AF
  else if lat > 45 ∧ lon > 40 then some .RU
  else if lon > 60 then some .AS
  else none

/-- The value of `victim` before the last statement of `checkImpact`. -/
def victimOf (env : Env) (lon lat : ℚ) : Option FactionId :=
  match territoryOwner env lon lat FACTIONS with
  | some f => some f
  | none => quadrantOwner lon lat

/-- The last statement of `checkImpact`: alert and mobilize the victim. -/
def escalate (env : Env) (victim : Option FactionId) (aggressor : FactionId)
    (w : World) : Option World :=
  match victim with
  | none => some w
  | some v =>
    if w.isAlerted v = false ∧ v ≠ aggressor then spawnFactionUnits env v (w.setAlerted v)
    else some w

/-- The function `checkImpact(x, y, aggressor)`, called from a method of
`src`. -/
def checkImpact (env : Env) (src : Source) (x y : ℚ) (aggressor : FactionId)
    (w : World) : Option World :=
  escalate env (victimOf env (unproject env x y).lon (unproject env x y).lat) aggressor
    (impactDamage env { x := x, y := y } aggressor (w.log (.impact src x y aggressor)))

/-- The body of the loop of `dropBomb` for the unit `e`. -/
def bombHit (env : Env) (id : ℕ) (targetPos : Pt) (w : World) (e : ℕ) : World :=
  if (w.heap e).faction ≠ (w.heap id).faction ∧ dist env (w.heap e).pos targetPos < 10
  then Unit.takeDamage env e (w.heap id).damage w
  else w

/-- The loop `units.forEach(u => ...)` of `dropBomb`. -/
def bombDamage (env : Env) (id : ℕ) (targetPos : Pt) (w : World) : World :=
  w.units.foldl (bombHit env id targetPos) w

/-- The method `dropBomb(targetPos)` of unit `id`. -/
def Unit.dropBomb (env : Env) (id : ℕ) (targetPos : Pt) (w : World) : Option World :=
  let w1 := pushExplosion env (.unit id) targetPos.x targetPos.y (w.heap id).faction w
  let w2 := bombDamage env id targetPos w1
  checkImpact env (.unit id) targetPos.x targetPos.y (w2.heap id).faction w2

/-- The array `targets` of `launchMissile()` for the enemy faction `ef`. -/
def liveLaunchTargets (w : World) (ef : FactionId) : List ℕ :=
  w.units.filter (fun t =>
    decide ((w.heap t).faction = ef) &&
      (decide ((w.heap t).type = .SILO) || decide ((w.heap t).type = .CARRIER)) &&
      !(w.heap t).dead)

/-- The last statement of `launchMissile()` for a defined `targetPos`. -/
def Unit.fire (env : Env) (id : ℕ) (targetPos : Coord) (w : World) : World :=
  let g := unproject env (w.heap id).pos.x (w.heap id).pos.y
  ((pushMissile env g.lon g.lat targetPos.1 targetPos.2 (w.heap id).faction w).decAmmo
    id).setCooldown id 400

/-- The method `launchMissile()` of unit `id`. -/
def Unit.launchMissile (env : Env) (id : ℕ) (w : World) : Option World :=
  if (enemyFactions env (w.heap id).faction).length = 0 then some w
  else
    match pick (enemyFactions env (w.heap id).faction) (w.draw env) with
    | none => none
    | some ef =>
      let w1 := w.advance
      if (liveLaunchTargets w1 ef).length > 0 then
        match pick (liveLaunchTargets w1 ef) (w1.draw env) with
        | none => none
        | some t =>
          let g := unproject env (w1.heap t).pos.x (w1.heap t).pos.y
          some (Unit.fire env id (g.lon, g.lat) w1.advance)
      else
        match pick (env.targets ef) (w1.draw env) with
        | none => some w1.advance
        | some targetPos => some (Unit.fire env id targetPos w1.advance)

/-- Part 1 of `update()`, "CARRIER LOGIC": the draw for the aircraft type
comes before the draw of the constructor. -/
def Unit.carrierLogic (env : Env) (id : ℕ) (w : World) : World :=
  if (w.heap id).type = .CARRIER ∧ w.defcon = 1 ∧ (w.heap id).hangar > 0 ∧
      (w.heap id).cooldown ≤ 0 then
    let type : UnitType := if w.draw env > 4 / 10 then .FIGHTER else .BOMBER
    let g := unproject env (w.heap id).pos.x (w.heap id).pos.y
    ((pushUnit env type (w.heap id).faction g.lon g.lat w.advance).decHangar id).setCooldown
      id 200
  else w

/-- The statements `this.findTarget(); if (this.combatTarget)
this.moveTo(this.combatTarget.pos); else this.patrol();` of the hunter
branch of a submarine. -/
def Unit.hunt (env : Env) (id : ℕ) (w : World) : World :=
  let w1 := Unit.findTarget env id w
  match (w1.heap id).combatTarget with
  | some t => Unit.moveTo env id (w1.heap t).pos w1
  | none => Unit.patrol env id w1

/-- The statements `this.findCityTarget(); if (this.target)
this.moveTo(this.target);` of a bomber without combat target. -/
def Unit.seekCity (env : Env) (id : ℕ) (w : World) : Option World :=
  match Unit.findCityTarget env id w with
  | none => none
  | some w1 =>
    match (w1.heap id).target with
    | some tg => some (Unit.moveTo env id (tg.get w1) w1)
    | none => some w1

/-- The branch `if (this.isAir)` of "MOVEMENT LOGIC". -/
def Unit.airMove (env : Env) (id : ℕ) (w : World) : Option World :=
  let w1 := Unit.findTarget env id w
  match (w1.heap id).combatTarget with
  | some t => some (Unit.moveTo env id (w1.heap t).pos w1)
  | none =>
    if (w1.heap id).type = .BOMBER then Unit.seekCity env id w1
    else some (Unit.patrol env id w1)

/-- Part 2 of `update()`, "MOVEMENT LOGIC". -/
def Unit.movementLogic (env : Env) (id : ℕ) (w : World) : Option World :=
  if (w.heap id).isAir = true then Unit.airMove env id w
  else if (w.heap id).type = .SUB then
    if (w.heap id).ammo ≤ 0 then some (Unit.hunt env id w)
    else some (Unit.patrol env id w)
  else if (w.heap id).type = .SILO then some w
  else some (Unit.patrol env id w)

/-- The statement "SILO LAUNCH" of `update()`. -/
def Unit.siloLaunch (env : Env) (id : ℕ) (w : World) : Option World :=
  if (w.heap id).type = .SILO ∧ (w.heap id).ammo > 0 ∧ (w.heap id).cooldown ≤ 0 then
    Unit.launchMissile env id w
  else some w

/-- The statement "SUB LAUNCH" of `update()`. -/
def Unit.subLaunch (env : Env) (id : ℕ) (w : World) : Option World :=
  if (w.heap id).type = .SUB ∧ (w.heap id).ammo > 0 ∧ (w.heap id).cooldown ≤ 0 then
    Unit.launchMissile env id w
  else some w

/-- The statements `this.findTarget(); if (this.combatTarget && dist(...) <=
this.range) { this.fireLaser(); this.cooldown = 30; }`. -/
def Unit.laserShot (env : Env) (id : ℕ) (w : World) : World :=
  let w1 := Unit.findTarget env id w
  match (w1.heap id).combatTarget with
  | none => w1
  | some t =>
    if dist env (w1.heap id).pos (w1.heap t).pos ≤ (w1.heap id).range then
      (Unit.fireLaser env id w1).setCooldown id 30
    else w1

/-- The statement "SUB/FIGHTER/CARRIER ATTACK" of `update()`. -/
def Unit.laserAttack (env : Env) (id : ℕ) (w : World) : World :=
  if ((w.heap id).type = .FIGHTER ∨ (w.heap id).type = .CARRIER ∨
      ((w.heap id).type = .SUB ∧ (w.heap id).ammo ≤ 0)) ∧ (w.heap id).cooldown ≤ 0 then
    Unit.laserShot env id w
  else w

/-- The statements `this.dropBomb(p); this.cooldown = 100;`. -/
def Unit.bombAt (env : Env) (id : ℕ) (p : Pt) (w : World) : Option World :=
  match Unit.dropBomb env id p w with
  | none => none
  | some w1 => some (w1.setCooldown id 100)

/-- The second alternative of "BOMBER ATTACK": the combat target. -/
def Unit.bombCombatTarget (env : Env) (id : ℕ) (w : World) : Option World :=
  match (w.heap id).combatTarget with
  | none => some w
  | some t =>
    if dist env (w.heap id).pos (w.heap t).pos < 5 then
      Unit.bombAt env id (w.heap t).pos w
    else some w

/-- The statement "BOMBER ATTACK" of `update()`. -/
def Unit.bomberAttack (env : Env) (id : ℕ) (w : World) : Option World :=
  if (w.heap id).type = .BOMBER ∧ (w.heap id).cooldown ≤ 0 then
    match (w.heap id).target with
    | some tg =>
      if dist env (w.heap id).pos (tg.get w) < 5 then Unit.bombAt env id (tg.get w) w
      else Unit.bombCombatTarget env id w
    | none => Unit.bombCombatTarget env id w
  else some w

/-- Part 3 of `update()`, "COMBAT LOGIC". -/
def Unit.combatLogic (env : Env) (id : ℕ) (w : World) : Option World :=
  if w.defcon = 1 ∧ w.isAlerted (w.heap id).faction = true then
    match Unit.siloLaunch env id w with
    | none => none
    | some w1 =>
      match Unit.subLaunch env id w1 with
      | none => none
      | some w2 => Unit.bomberAttack env id (Unit.laserAttack env id w2)
  else some w

/-- The method `update()` of unit `id`. -/
def Unit.update (env : Env) (id : ℕ) (w : World) : Option World :=
  let w0 := w.log (.unitUpdate id)
  if (w0.heap id).dead = true then some w0
  else
    let w1 := w0.setCooldown id ((w0.heap id).cooldown - 1)
    match Unit.movementLogic env id (Unit.carrierLogic env id w1) with
    | none => none
    | some w2 => Unit.combatLogic env id w2

/-! ## Missiles, explosions and the tick driver -/

/-- The branch `if (this.progress >= 1)` of the method `update()` of
missile `id`. -/
def Missile.arrive (env : Env) (id : ℕ) (w : World) : Option World :=
  let w1 := (w.setProgress id 1).setMissileDead id
  let m := w1.mheap id
  checkImpact env (.missile id) m.finish.x m.finish.y m.faction
    (pushExplosion env (.missile id) m.finish.x m.finish.y m.faction w1)

/-- The method `update()` of missile `id`. -/
def Missile.update (env : Env) (id : ℕ) (w : World) : Option World :=
  let w0 := w.log (.missileUpdate id)
  let w1 := w0.setProgress id ((w0.mheap id).progress + (w0.mheap id).speed)
  if (w1.mheap id).progress ≥ 1 then Missile.arrive env id w1 else some w1

/-- The method `update()` of an explosion. -/
def Explosion.update (e : Explosion) : Explosion :=
  let e1 := { e with radius := e.radius + 1 / 2, alpha := e.alpha - 2 / 100 }
  if e1.alpha ≤ 0 then { e1 with dead := true } else e1

/-- The loop `units.forEach(u => u.update())` over the references that the
array holds when the loop starts: `forEach` reads the length once, and the
loop body only appends to the array. -/
def updateUnits (env : Env) : List ℕ → World → Option World
  | [], w => some w
  | id :: rest, w =>
    match Unit.update env id w with
    | none => none
    | some w1 => updateUnits env rest w1

/-- The loop `missiles.forEach(m => m.update())`, likewise. -/
def updateMissiles (env : Env) : List ℕ → World → Option World
  | [], w => some w
  | id :: rest, w =>
    match Missile.update env id w with
    | none => none
    | some w1 => updateMissiles env rest w1

/-- The set `activeFactions` of `checkVictory`, in insertion order. -/
def activeFactions (w : World) : List FactionId :=
  w.units.foldl (fun acc id =>
    if (w.heap id).faction ≠ .ROGUE ∧ (w.heap id).dead = false then
      (if (w.heap id).faction ∈ acc then acc else acc ++ [(w.heap id).faction])
    else acc) []

/-- The counter `alertedCount` of `checkVictory`. -/
def alertedCount (w : World) : ℕ :=
  (FACTIONS.filter (fun f => decide (f ≠ .ROGUE) && w.isAlerted f)).length

/-- The body of the victory branch of `checkVictory`. -/
def World.declareVictory (w : World) (winner : FactionId) : World :=
  { w with victorySecured := true, trace := w.trace ++ [.victory winner] }

/-- The function `checkVictory()`. -/
def checkVictory (w : World) : World :=
  if w.defcon ≠ 1 then w
  else
    match activeFactions w with
    | [winner] => if alertedCount w ≥ 2 then w.declareVictory winner else w
    | _ => w

/-- The statement `units = units.filter(u => !u.dead)`. -/
def World.sweepUnits (w : World) : World :=
  { w with units := w.units.filter (fun id => !(w.heap id).dead) }

/-- The statement `missiles = missiles.filter(m => !m.dead)`. -/
def World.sweepMissiles (w : World) : World :=
  { w with missiles := w.missiles.filter (fun id => !(w.mheap id).dead) }

/-- The statements `explosions.forEach(e => e.update())` and `explosions =
explosions.filter(e => !e.dead)`. -/
def World.ageExplosions (w : World) : World :=
  { w with explosions := (w.explosions.map Explosion.update).filter (fun e => !e.dead) }

/-- The function `animate()`: one tick. -/
def animate (env : Env) (w : World) : Option World :=
  match updateUnits env w.units w with
  | none => none
  | some w1 =>
    match updateMissiles env w1.sweepUnits.missiles w1.sweepUnits with
    | none => none
    | some w2 => some (checkVictory w2.sweepMissiles.ageExplosions)

/-- What happens between two statements of the core: a tick, a call
`setDefcon(level)` of the alert-level countdown, or one timer callback of
`startBombardment`. -/
inductive Input where
  | tick
  | setDefcon (level : ℤ)
  | bombard

/-- The assignment `defcon = level` of `setDefcon`. -/
def World.setDefcon (w : World) (level : ℤ) : World := { w with defcon := level }

/-- One timer callback of `startBombardment`: a missile of `ROGUE` from the
origin to a random element of the global `targets`, if there is one. -/
def bombard (env : Env) (w : World) : World :=
  match pick env.allTargets (w.draw env) with
  | none => w.advance
  | some target =>
    pushMissile env env.userLon env.userLat target.1 target.2 .ROGUE w.advance

/-- The effect of one input. -/
def step (env : Env) (w : World) : Input → Option World
  | .tick => animate env w
  | .setDefcon level => some (w.setDefcon level)
  | .bombard => some (bombard env w)

/-- A run: the inputs in order; `none` when a statement throws. -/
def run (env : Env) : List Input → World → Option World
  | [], w => some w
  | i :: rest, w =>
    match step env w i with
    | none => none
    | some w1 => run env rest w1

/-! ## Primitive state changes

Every statement of the core that writes to the globals is one of the
following primitive changes.  `Evolves env K w w'` says that `w'` results from
`w` by a sequence of primitive changes that satisfy `K`, each made in a state
in which its guard (what the code has tested before making it) holds. -/

/-- The primitive state changes of the core. -/
inductive Effect where
  | log (e : Event)
  | setRnd (n : ℕ)
  | setCooldown (id : ℕ) (c : ℚ)
  | setTarget (id : ℕ) (t : Option Target)
  | setCombatTarget (id : ℕ) (t : Option ℕ)
  | setPos (id : ℕ) (p : Pt)
  | subHp (id : ℕ) (amount : ℤ)
  | setDead (id : ℕ)
  | decAmmo (id : ℕ)
  | decHangar (id : ℕ)
  | pushUnit (type : UnitType) (faction : FactionId) (lon lat : ℚ)
  | pushMissile (startLon startLat endLon endLat : ℚ) (faction : FactionId)
  | pushExplosion (src : Source) (x y : ℚ) (faction : FactionId)
  | mobilize (f : FactionId)
  | setProgress (id : ℕ) (p : ℚ)
  | setMissileDead (id : ℕ)
  | sweepUnits
  | sweepMissiles
  | ageExplosions
  | declareVictory (winner : FactionId)
  | setDefcon (level : ℤ)

/-- The world after a primitive change; `mobilize f` is the assignment
`victim.isAlerted = true` followed by the entry of `spawnFactionUnits`. -/
def Effect.apply (env : Env) : Effect → World → World
  | .log e, w => w.log e
  | .setRnd n, w => w.setRnd n
  | .setCooldown id c, w => w.setCooldown id c
  | .setTarget id t, w => w.setTarget id t
  | .setCombatTarget id t, w => w.setCombatTarget id t
  | .setPos id p, w => w.setPos id p
  | .subHp id amount, w => w.subHp id amount
  | .setDead id, w => w.setDead id
  | .decAmmo id, w => w.decAmmo id
  | .decHangar id, w => w.decHangar id
  | .pushUnit type faction lon lat, w => WarSim.pushUnit env type faction lon lat w
  | .pushMissile a b c d faction, w => WarSim.pushMissile env a b c d faction w
  | .pushExplosion src x y faction, w => WarSim.pushExplosion env src x y faction w
  | .mobilize f, w => (w.setAlerted f).log (.mobilize f)
  | .setProgress id p, w => w.setProgress id p
  | .setMissileDead id, w => w.setMissileDead id
  | .sweepUnits, w => w.sweepUnits
  | .sweepMissiles, w => w.sweepMissiles
  | .ageExplosions, w => w.ageExplosions
  | .declareVictory winner, w => w.declareVictory winner
  | .setDefcon level, w => w.setDefcon level

/-- What the code has established when it makes a primitive change. -/
def Effect.guard (env : Env) (w : World) : Effect → Prop
  | .log e =>
    (∃ id, e = .unitUpdate id) ∨ (∃ id, e = .missileUpdate id) ∨
      (∃ src x y a, e = .impact src x y a)
  | .setPos id p =>
    (w.heap id).isNaval = true →
      isOnLand env (unproject env p.x p.y).lon (unproject env p.x p.y).lat = false
  | .subHp _ amount => amount = 1000 ∨ ∃ s, amount = (w.heap s).damage
  | .setDead id => (w.heap id).hp ≤ 0
  | .pushUnit type _ lon lat =>
    ((type = .SUB ∨ type = .CARRIER) → isOnLand env lon lat = false) ∧
      (type = .SILO → isOnLand env lon lat = true)
  | .mobilize f => w.isAlerted f = false ∧ f ≠ .ROGUE
  | .setProgress id p =>
    p = (w.mheap id).progress + (w.mheap id).speed ∨ (p = 1 ∧ (w.mheap id).progress ≥ 1)
  | .setMissileDead id => (w.mheap id).progress = 1
  | .declareVictory winner =>
    w.defcon = 1 ∧ activeFactions w = [winner] ∧ alertedCount w ≥ 2
  | _ => True

/-- A sequence of guarded primitive changes, all satisfying `K`. -/
inductive Evolves (env : Env) (K : Effect → Prop) : World → World → Prop where
  | refl (w : World) : Evolves env K w w
  | step {w w1 : World} (e : Effect) (h : Evolves env K w w1) (hk : K e)
      (hg : e.guard env w1) : Evolves env K w (e.apply env w1)

/-- The changes that steer unit `id`: draws, its movement target, its
combat target and its position. -/
def Effect.steers (id : ℕ) : Effect → Prop
  | .setRnd _ => True
  | .setTarget i _ => i = id
  | .setCombatTarget i _ => i = id
  | .setPos i _ => i = id
  | _ => False

/-- The changes made by `takeDamage`: loss of health, death and the
explosion of the dying unit. -/
def Effect.harms : Effect → Prop
  | .subHp _ _ => True
  | .setDead _ => True
  | .pushExplosion (.unit _) _ _ _ => True
  | _ => False

/-- The changes made by `spawnFactionUnits` after its entry: draws and new
units of the faction `f`, none of them an aircraft. -/
def Effect.musters (f : FactionId) : Effect → Prop
  | .setRnd _ => True
  | .pushUnit type faction _ _ => faction = f ∧ (type = .CARRIER ∨ type = .SUB ∨ type = .SILO)
  | _ => False

/-- The changes made by the last statement of `checkImpact`. -/
def Effect.rallies (e : Effect) : Prop :=
  (∃ f, e = .mobilize f) ∨ (∃ f, e.musters f)

/-- The changes made by `checkImpact` called from `src`. -/
def Effect.strikes (src : Source) (e : Effect) : Prop :=
  (∃ x y a, e = .log (.impact src x y a)) ∨ e.harms ∨ e.rallies

/-- The changes made by `launchMissile` of unit `id`. -/
def Effect.launches (id : ℕ) : Effect → Prop
  | .setRnd _ => True
  | .pushMissile _ _ _ _ _ => True
  | .decAmmo i => i = id
  | .setCooldown i c => i = id ∧ c = 400
  | _ => False

/-- The changes made by `update()` of unit `id`. -/
def Effect.ofUnit (id : ℕ) (e : Effect) : Prop :=
  e = .log (.unitUpdate id) ∨ (∃ c, e = .setCooldown id c) ∨ e.steers id ∨
    e = .decHangar id ∨ (∃ t f lon lat, e = .pushUnit t f lon lat) ∨ e.launches id ∨
    (∃ x y f, e = .pushExplosion (.unit id) x y f) ∨ e.strikes (.unit id)

/-- The changes made by `update()` of missile `id`. -/
def Effect.ofMissile (id : ℕ) (e : Effect) : Prop :=
  e = .log (.missileUpdate id) ∨ (∃ p, e = .setProgress id p) ∨ e = .setMissileDead id ∨
    (∃ x y f, e = .pushExplosion (.missile id) x y f) ∨ e.strikes (.missile id)

/-- The events that a primitive change appends to the trace. -/
def Effect.events : Effect → List Event
  | .log e => [e]
  | .pushExplosion src x y faction => [.explosion src x y faction]
  | .mobilize f => [.mobilize f]
  | .declareVictory winner => [.victory winner]
  | _ => []

/-- A unit object with every field zero or empty, for heap cells that hold
no object yet. -/
def Unit.blank : Unit :=
  { type := .SILO, faction := .ROGUE, pos := { x := 0, y := 0 }, lon := 0, lat := 0,
    dead := false, target := none, combatTarget := none, hp := 0, maxHp := 0, range := 0,
    damage := 0, speed := 0, validTargets := [], ammo := 0, hangar := 0, isAir := false,
    isNaval := false, cooldown := 0 }

/-- A missile object with every field zero, for heap cells that hold no
object yet. -/
def Missile.blank : Missile :=
  { start := { x := 0, y := 0 }, finish := { x := 0, y := 0 }, faction := .ROGUE,
    progress := 0, speed := 0, maxHeight := 0, dead := false }

/-- The globals when the script has been loaded: empty arrays, `defcon = 5`,
`victorySecured = false`, only `ROGUE` alerted. -/
def World.initial : World :=
  { heap := fun _ => Unit.blank, nextUnit := 0, units := [],
    mheap := fun _ => Missile.blank, nextMissile := 0, missiles := [],
    explosions := [], isAlerted := initialAlert, defcon := 5, victorySecured := false,
    rnd := 0, trace := [] }

/-! ### Specification-side definitions for impact resolution -/

/-- The faction `f` has a territory point within 5 degrees of `(lon, lat)`
in longitude and in latitude. -/
def nearTerritory (env : Env) (lon lat : ℚ) (f : FactionId) : Bool :=
  (env.targets f).any (fun t => decide (|t.1 - lon| < 5) && decide (|t.2 - lat| < 5))

/-- The owner of a point as the specification words it: the first faction
other than `ROGUE` with a territory point within 5 degrees, else the faction
of the quadrant heuristic. -/
def identifiedOwner (env : Env) (lon lat : ℚ) : Option FactionId :=
  match [FactionId.NA, .SA, .EU, .AF, .RU, .AS].find? (nearTerritory env lon lat) with
  | some f => some f
  | none => quadrantOwner lon lat

/-! ### Specification-side definitions for the victory tracker -/

/-- At least two factions other than `ROGUE` are alerted. -/
def TwoAlerted (w : World) : Prop :=
  ∃ f g : FactionId, f ≠ g ∧ f ≠ .ROGUE ∧ g ≠ .ROGUE ∧
    w.isAlerted f = true ∧ w.isAlerted g = true

/-- The faction `f` is the one faction other than `ROGUE` that owns a unit
of `units` with `dead = false`. -/
def SoleSurvivor (w : World) (f : FactionId) : Prop :=
  f ≠ .ROGUE ∧ (∃ id ∈ w.units, (w.heap id).faction = f ∧ (w.heap id).dead = false) ∧
    ∀ id ∈ w.units, (w.heap id).dead = false → (w.heap id).faction ≠ .ROGUE →
      (w.heap id).faction = f

/-! ### Specification-side definitions for the geography oracle -/

/-- The rings of a feature that count as land: all rings of a polygon, all
rings of all polygons of a multipolygon, none for any other geometry. -/
def landRings : Geometry → List Ring
  | .polygon coordinates => coordinates
  | .multiPolygon coordinates => coordinates.flatten
  | .other => []

/-- The cyclic predecessor of vertex `i` in a ring of `n` vertices. -/
def cyclicPred (n i : ℕ) : ℕ := (i + n - 1) % n

/-- The number of ring edges (vertex `i` to its cyclic predecessor) that
straddle the latitude of the point and cross the horizontal ray to its right. -/
def crossings (point : Coord) (vs : Ring) : ℕ :=
  ((List.range vs.length).filter (fun i =>
    intersect point.1 point.2 (vs.getD i (0, 0))
      (vs.getD (cyclicPred vs.length i) (0, 0)))).length

/-- The ray-casting test as the specification words it: odd crossing count. -/
def crossingParity (point : Coord) (vs : Ring) : Bool :=
  decide (crossings point vs % 2 = 1)


/-! ### Invariants -/

/-- Every naval unit (SUB or CARRIER) carries the flag `isNaval` and its
plane position un-projects to a point that is not on land. -/
def NavalSafe (env : Env) (w : World) : Prop :=
  ∀ id, ((w.heap id).type = .SUB ∨ (w.heap id).type = .CARRIER) →
    (w.heap id).isNaval = true ∧
    isOnLand env (unproject env (w.heap id).pos.x (w.heap id).pos.y).lon
      (unproject env (w.heap id).pos.x (w.heap id).pos.y).lat = false

/-- The event is the explosion or the impact resolution triggered by the
method `update()` of missile `mid`. -/
def Event.fromMissile (mid : ℕ) : Event → Bool
  | .explosion (.missile m) _ _ _ => decide (m = mid)
  | .impact (.missile m) _ _ _ => decide (m = mid)
  | _ => false

/-- The explosions and impact resolutions that missile `mid` has triggered
so far, in order. -/
def missileEvents (mid : ℕ) (w : World) : List Event :=
  w.trace.filter (Event.fromMissile mid)

/-- The events of the arrival of missile `mid`: one explosion at its end
point, then one impact resolution at its end point with its launching
faction as aggressor. -/
def arrivalEvents (mid : ℕ) (w : World) : List Event :=
  [.explosion (.missile mid) (w.mheap mid).finish.x (w.mheap mid).finish.y
      (w.mheap mid).faction,
   .impact (.missile mid) (w.mheap mid).finish.x (w.mheap mid).finish.y
      (w.mheap mid).faction]

/-- The state of missile `mid` that the tick driver maintains; `lo` is a
lower bound for the progress of the missiles allocated before `n0`. -/
def MissileOk (lo : ℕ → ℚ) (n0 : ℕ) (w : World) (mid : ℕ) : Prop :=
  0 ≤ (w.mheap mid).speed ∧ 0 ≤ (w.mheap mid).progress ∧ (w.mheap mid).progress ≤ 1 ∧
  ((w.mheap mid).dead = true ↔ (w.mheap mid).progress = 1) ∧
  (mid < n0 → lo mid ≤ (w.mheap mid).progress) ∧
  missileEvents mid w =
    if mid < w.nextMissile ∧ (w.mheap mid).dead = true then arrivalEvents mid w else []

/-- The invariant of the missile pass while the references `rest` are still
to be updated: they are distinct and not dead. -/
def MissilesMid (lo : ℕ → ℚ) (n0 : ℕ) (rest : List ℕ) (w : World) : Prop :=
  n0 ≤ w.nextMissile ∧ w.missiles.Nodup ∧ (∀ mid ∈ w.missiles, mid < w.nextMissile) ∧
  rest.Nodup ∧ (∀ mid ∈ rest, mid ∈ w.missiles ∧ (w.mheap mid).dead = false) ∧
  ∀ mid, MissileOk lo n0 w mid

/-- The invariant of the missiles between ticks: the references in `missiles`
are distinct, allocated and not dead, and every missile is in order. -/
def MissilesOk (lo : ℕ → ℚ) (n0 : ℕ) (w : World) : Prop :=
  MissilesMid lo n0 w.missiles w

/-- What the invariants of the missiles depend on. -/
def missileView (w : World) : (ℕ → Missile) × List ℕ × ℕ × (ℕ → List Event) :=
  (w.mheap, w.missiles, w.nextMissile, fun mid => missileEvents mid w)

/-- The primitive changes that do not concern the missiles. -/
def Effect.quiet : Effect → Prop
  | .pushMissile _ _ _ _ _ => False
  | .setProgress _ _ => False
  | .setMissileDead _ => False
  | .sweepMissiles => False
  | .pushExplosion (.missile _) _ _ _ => False
  | .log (.impact (.missile _) _ _ _) => False
  | .log (.explosion (.missile _) _ _ _) => False
  | _ => True

/-! ## Sample worlds

Concrete instances on which the hypotheses of the theorems below are
discharged. -/

/-- The square root of `q` rounded down to a multiple of `1 / q.den`; exact
when numerator and denominator of `q` are perfect squares. -/
def sqrtFloor (q : ℚ) : ℚ := (Nat.sqrt (q.num.toNat * q.den) : ℚ) / q.den

/-- A viewport of 400 by 200 (so that `scale` is 1), one square landmass
between 0 and 20 degrees east and 40 and 60 degrees north, one territory
point of `EU` in it, and every draw equal to `1 / 2`. -/
def sampleEnv : Env :=
  { sqrt := sqrtFloor
    random := fun _ => 1 / 2
    width := 400
    height := 200
    mapData := [{ geometry := .polygon [[(0, 40), (20, 40), (20, 60), (0, 60), (0, 40)]] }]
    targets := fun f => if f = .EU then [(10, 50)] else []
    allTargets := [(10, 50)]
    userLon := -100
    userLat := 40 }

/-- Two silos at top alert level: unit 0 of `EU` at `(10 E, 50 N)`, unit 1
of `NA` at `(100 W, 40 N)`. -/
def twoSilos : World :=
  { World.initial with
    heap := fun i =>
      if i = 0 then Unit.new sampleEnv .SILO .EU 10 50 (1 / 2)
      else Unit.new sampleEnv .SILO .NA (-100) 40 (1 / 2)
    nextUnit := 2
    units := [0, 1]
    defcon := 1
    isAlerted := fun _ => true }

/-- One submarine of `NA` at `(30 E, 50 N)`, east of the landmass, at top
alert level. -/
def oneSub : World :=
  { World.initial with
    heap := fun i =>
      if i = 0 then Unit.new sampleEnv .SUB .NA 30 50 (1 / 2) else Unit.blank
    nextUnit := 1
    units := [0]
    defcon := 1
    isAlerted := fun _ => true }

/-- The last unit of a war between `NA` and `EU`: a silo of `NA` that has
launched all its missiles, at top alert level; no unit of `EU` is left. -/
def lastStand : World :=
  { World.initial with
    heap := fun i =>
      if i = 0 then { Unit.new sampleEnv .SILO .NA (-100) 40 (1 / 2) with ammo := 0 }
      else Unit.blank
    nextUnit := 1
    units := [0]
    defcon := 1
    isAlerted := fun f => decide (f = .NA ∨ f = .EU ∨ f = .ROGUE) }

/-- A bomber of `NA` (unit 0) at distance `3 / 5` from the silo of `EU`
(unit 1) that is its movement target, at top alert level with both factions
alerted.  The silo
has been destroyed by a missile impact in the missile pass of the previous
tick (`hp = 500 - 1000`), so it is dead but still in `units`: the sweep of
dead units comes after the unit pass of the tick. -/
def bombRun : World :=
  { World.initial with
    heap := fun i =>
      if i = 0 then
        { Unit.new sampleEnv .BOMBER .NA (53 / 5) 50 (1 / 2) with
          target := some (.posOf 1), cooldown := 1 / 2 }
      else { Unit.new sampleEnv .SILO .EU 10 50 (1 / 2) with hp := -500, dead := true }
    nextUnit := 2
    units := [0, 1]
    defcon := 1
    isAlerted := fun _ => true }

/-- A silo of `NA` (unit 0) with ten missiles whose cooldown runs out in
this tick, at top alert level with `NA` alerted; no missile is in flight. -/
def siloReady : World :=
  { World.initial with
    heap := fun i =>
      if i = 0 then { Unit.new sampleEnv .SILO .NA (-100) 40 (1 / 2) with cooldown := 1 / 2 }
      else Unit.blank
    nextUnit := 1
    units := [0]
    defcon := 1
    isAlerted := fun f => decide (f = .NA ∨ f = .ROGUE) }

/-- The two silos with a missile of `NA` (missile 0) one tick before it
arrives over the silo of `EU`. -/
def inbound : World :=
  { twoSilos with
    mheap := fun i =>
      if i = 0 then
        { Missile.new sampleEnv (-100) 40 10 50 .NA (1 / 2) with progress := 999 / 1000 }
      else Missile.blank
    nextMissile := 1
    missiles := [0] }

/-- The world after a victory of `NA` whose last unit has since been
destroyed: `victorySecured` is set and no faction owns a live unit. -/
def afterVictory : World :=
  { lastStand with
    heap := fun i =>
      if i = 0 then
        { Unit.new sampleEnv .SILO .NA (-100) 40 (1 / 2) with ammo := 0, hp := -500, dead := true }
      else Unit.blank
    victorySecured := true }

/-- The changes made by `update()` of unit `id` when it neither spawns an
aircraft nor launches a missile nor drops a bomb: the entry, its cooldown, its
steering and the damage done by its laser. -/
def Effect.duels (id : ℕ) (e : Effect) : Prop :=
  e = .log (.unitUpdate id) ∨ (∃ c, e = .setCooldown id c) ∨ e.steers id ∨ e.harms

/-- The changes made by `update()` of unit `id` when part 3, "COMBAT LOGIC",
is skipped: the entry, its cooldown, its steering and the aircraft spawned by
a carrier. -/
def Effect.idles (id : ℕ) (e : Effect) : Prop :=
  e = .log (.unitUpdate id) ∨ (∃ c, e = .setCooldown id c) ∨ e.steers id ∨
    e = .decHangar id ∨ (∃ t f lon lat, e = .pushUnit t f lon lat)

/-- A carrier of `NA` (unit 0) at `(30 E, 50 N)` whose aircraft have all been
spawned, at top alert level with `NA` alerted and its cooldown running out in
this tick. -/
def emptyCarrier : World :=
  { World.initial with
    heap := fun i =>
      if i = 0 then
        { Unit.new sampleEnv .CARRIER .NA 30 50 (1 / 2) with hangar := 0, cooldown := 1 / 2 }
      else Unit.blank
    nextUnit := 1
    units := [0]
    defcon := 1
    isAlerted := fun f => decide (f = .NA ∨ f = .ROGUE) }

/-- The world `siloReady` at the lowest alert level. -/
def standDown : World := { siloReady with defcon := 5 }

/-! ### Specification-side definitions for mobilization -/

/-- The point `(lon, lat)` lies in the bounding box of the spawn region. -/
def SpawnRegion.contains (region : SpawnRegion) (lon lat : ℚ) : Prop :=
  region.lon.1 ≤ lon ∧ lon ≤ region.lon.2 ∧ region.lat.1 ≤ lat ∧ lat ≤ region.lat.2

/-- The `k`-th candidate point sampled for a unit, when `rnd` draws have been
made before the search for its position starts. -/
def candidate (env : Env) (region : SpawnRegion) (rnd k : ℕ) : ℚ × ℚ :=
  (region.lon.1 + env.random (rnd + 2 * k) * (region.lon.2 - region.lon.1),
   region.lat.1 + env.random (rnd + 2 * k + 1) * (region.lat.2 - region.lat.1))

/-- The terrain at the point suits a unit of the type: water for carriers
and submarines, land for silos, anything for the other types. -/
def validFor (env : Env) (type : UnitType) (p : ℚ × ℚ) : Bool :=
  if type = .CARRIER ∨ type = .SUB then !isOnLand env p.1 p.2
  else if type = .SILO then isOnLand env p.1 p.2
  else true

/-- The unit object is a unit of the type and the faction at a point of the
spawn region whose terrain suits the type. -/
def Unit.placed (env : Env) (region : SpawnRegion) (f : FactionId) (type : UnitType)
    (u : Unit) : Prop :=
  u.type = type ∧ u.faction = f ∧ region.contains u.lon u.lat ∧
    validFor env type (u.lon, u.lat) = true

/-! ### Specification-side definitions for target selection -/

/-- The unit `e` is a candidate target of the unit `id`: it is of another
faction, not dead, of a type in the valid-target list of `id`, and within
scan range, which is 1000 for an air unit and the weapon range otherwise. -/
def Unit.canTarget (env : Env) (id : ℕ) (w : World) (e : ℕ) : Prop :=
  (w.heap e).faction ≠ (w.heap id).faction ∧ (w.heap e).dead = false ∧
  TargetTag.unit (w.heap e).type ∈ (w.heap id).validTargets ∧
  dist env (w.heap id).pos (w.heap e).pos
    ≤ (if (w.heap id).isAir = true then 1000 else (w.heap id).range)

/-- The unit `id` has a combat target that it retains: the target is not
dead, and the unit is a fighter or the target lies within twice its weapon
range. -/
def Unit.retains (env : Env) (id : ℕ) (w : World) : Prop :=
  ∃ t, (w.heap id).combatTarget = some t ∧ (w.heap t).dead = false ∧
    ((w.heap id).type = .FIGHTER ∨
      dist env (w.heap id).pos (w.heap t).pos ≤ 2 * (w.heap id).range)

/-- A bomber of `NA` (unit 0) at `(110 E, 50 N)` whose combat target is the
silo of `EU` (unit 1) at `(10 E, 50 N)`, at distance 100 in the plane. -/
def bomberFar : World :=
  { World.initial with
    heap := fun i =>
      if i = 0 then
        { Unit.new sampleEnv .BOMBER .NA 110 50 (1 / 2) with combatTarget := some 1 }
      else Unit.new sampleEnv .SILO .EU 10 50 (1 / 2)
    nextUnit := 2
    units := [0, 1]
    defcon := 1
    isAlerted := fun _ => true }

/-- A carrier of `NA` (unit 0) at `(24 E, 50 N)` without combat target, and
around it a silo of `EU` (unit 1) at distance 6, a submarine of `EU` (unit 2)
and a bomber of `EU` (unit 3) both at distance 8, a bomber of `NA` (unit 4) at
distance 3 and a dead fighter of `EU` (unit 5) at distance 1. -/
def carrierWatch : World :=
  { World.initial with
    heap := fun i =>
      if i = 0 then Unit.new sampleEnv .CARRIER .NA 24 50 (1 / 2)
      else if i = 1 then Unit.new sampleEnv .SILO .EU 18 50 (1 / 2)
      else if i = 2 then Unit.new sampleEnv .SUB .EU 24 42 (1 / 2)
      else if i = 3 then Unit.new sampleEnv .BOMBER .EU 32 50 (1 / 2)
      else if i = 4 then Unit.new sampleEnv .BOMBER .NA 27 50 (1 / 2)
      else { Unit.new sampleEnv .FIGHTER .EU 25 50 (1 / 2) with hp := 0, dead := true }
    nextUnit := 6
    units := [0, 1, 2, 3, 4, 5]
    defcon := 1
    isAlerted := fun _ => true }

/-! ### Specification-side definitions for missile launches -/

/-- The unit `t` is a live silo or carrier of the faction `ef`. -/
def Unit.isLaunchTarget (w : World) (ef : FactionId) (t : ℕ) : Prop :=
  (w.heap t).faction = ef ∧ ((w.heap t).type = .SILO ∨ (w.heap t).type = .CARRIER) ∧
    (w.heap t).dead = false

/-- A carrier of `NA` (unit 0) at `(30 E, 50 N)` with ten aircraft in its
hangar whose cooldown runs out in this tick, at top alert level with `NA`
alerted. -/
def carrierReady : World :=
  { World.initial with
    heap := fun i =>
      if i = 0 then { Unit.new sampleEnv .CARRIER .NA 30 50 (1 / 2) with cooldown := 1 / 2 }
      else Unit.blank
    nextUnit := 1
    units := [0]
    defcon := 1
    isAlerted := fun f => decide (f = .NA ∨ f = .ROGUE) }

/-! ### The arithmetic of `moveTo` over any ordered field

The world holds rational numbers, and a rational `Math.sqrt` cannot be exact
at a sum of squares that is not the square of a rational.  The arithmetic of
`moveTo` is therefore also given over an arbitrary ordered field, with the
square root and the land test as parameters: over the rationals with
`env.sqrt` it is the `moveTo` of the world, and over the reals with the real
square root it is the exact arithmetic. -/

/-- The three ways in which `moveTo(targetPos)` ends: `d > 1` is false and
nothing changes; the next point of a naval unit is on land and `target` is set
to `null`; or the position is set to the next point. -/
inductive Move (K : Type) where
  | stay
  | blocked
  | step (x y : K)

/-- The method `moveTo(targetPos)` of a unit at `(px, py)` for the target
point `(tx, ty)`; `onLand x y` stands for `isOnLand` at `unproject(x, y)`. -/
def moveToCore {K : Type} [LinearOrderedField K] (sqrt : K → K) (onLand : K → K → Bool)
    (isNaval : Bool) (speed px py tx ty : K) : Move K :=
  let dx := tx - px
  let dy := ty - py
  let d := sqrt (dx * dx + dy * dy)
  if d > 1 then
    let nextX := px + (dx / d) * speed
    let nextY := py + (dy / d) * speed
    if isNaval = true ∧ onLand nextX nextY = true then .blocked
    else .step nextX nextY
  else .stay

/-- The function `dist(p1, p2)` for the points `(x1, y1)` and `(x2, y2)`. -/
def distCore {K : Type} [LinearOrderedField K] (sqrt : K → K) (x1 y1 x2 y2 : K) : K :=
  sqrt ((x1 - x2) ^ 2 + (y1 - y2) ^ 2)

/-! # Theorems -/

/-! ## Projector -/

theorem scale_pos (env : Env) (hw : 0 < env.width) (hh : 0 < env.height) : 0 < scale env := by
  unfold scale
  have h1 : 0 < env.width / 360 := by positivity
  have h2 : 0 < env.height / 180 := by positivity
  have h3 : 0 < min (env.width / 360) (env.height / 180) := lt_min h1 h2
  positivity

theorem unproject_project (env : Env) (hw : 0 < env.width) (hh : 0 < env.height)
    (lon lat : ℚ) :
    unproject env (project env lon lat).x (project env lon lat).y = ⟨lon, lat⟩ := by
  have hs : scale env ≠ 0 := (scale_pos env hw hh).ne'
  simp only [unproject, project, LonLat.mk.injEq]
  constructor <;> field_simp

/-- Claim C1: for a viewport with positive width and height and every `lon` in
`[-180, 180]` and `lat` in `[-90, 90]`, `unproject` applied to the result of
`project(lon, lat)` is exactly `(lon, lat)` in exact arithmetic. -/
theorem C1_unproject_project_roundtrip (env : Env) (hw : 0 < env.width) (hh : 0 < env.height)
    (lon lat : ℚ) (_hlon : -180 ≤ lon ∧ lon ≤ 180) (_hlat : -90 ≤ lat ∧ lat ≤ 90) :
    unproject env (project env lon lat).x (project env lon lat).y
      = { lon := lon, lat := lat } :=
  unproject_project env hw hh lon lat

/-! ## Geography oracle -/

theorem cyclicPred_zero (n : ℕ) (hn : 0 < n) : cyclicPred n 0 = n - 1 := by
  unfold cyclicPred
  rw [Nat.zero_add]
  exact Nat.mod_eq_of_lt (by omega)

theorem cyclicPred_succ (n k : ℕ) (hk : k + 1 < n) : cyclicPred n (k + 1) = k := by
  unfold cyclicPred
  have h : k + 1 + n - 1 = k + n := by omega
  rw [h, Nat.add_mod_right]
  exact Nat.mod_eq_of_lt (by omega)

theorem parity_succ (c : ℕ) : decide ((c + 1) % 2 = 1) = !decide (c % 2 = 1) := by
  rcases Nat.mod_two_eq_zero_or_one c with h | h
  · have h1 : (c + 1) % 2 = 1 := by omega
    simp [h, h1]
  · have h1 : (c + 1) % 2 = 0 := by omega
    simp [h, h1]

/-- The loop state of `isPointInPoly` after the iterations `0 .. k - 1`. -/
theorem isPointInPoly_loop (x y : ℚ) (vs : Ring) (k : ℕ) (hk : k ≤ vs.length) :
    (List.range k).foldl (isPointInPolyStep x y vs) (false, vs.length - 1)
      = (decide (((List.range k).filter (fun i =>
            intersect x y (vs.getD i (0, 0))
              (vs.getD (cyclicPred vs.length i) (0, 0)))).length % 2 = 1),
         if k = 0 then vs.length - 1 else k - 1) := by
  induction k with
  | zero => simp
  | succ k ih =>
    have hk' : k ≤ vs.length := by omega
    rw [List.range_succ, List.foldl_append, ih hk', List.filter_append, List.length_append]
    have hj : (if k = 0 then vs.length - 1 else k - 1) = cyclicPred vs.length k := by
      cases k with
      | zero => simp [cyclicPred_zero vs.length (by omega)]
      | succ m => simp [cyclicPred_succ vs.length m (by omega)]
    simp only [List.foldl_cons, List.foldl_nil, isPointInPolyStep, hj, List.filter_cons,
      List.filter_nil]
    by_cases hc : intersect x y (vs.getD k (0, 0)) (vs.getD (cyclicPred vs.length k) (0, 0)) = true
    · simp only [hc, if_true, List.length_singleton, Nat.succ_ne_zero, if_false,
        Nat.add_sub_cancel, Prod.mk.injEq, and_true]
      exact (parity_succ _).symm
    · simp only [hc, Bool.false_eq_true, if_false, List.length_nil, Nat.add_zero,
        Nat.succ_ne_zero, Nat.add_sub_cancel]

theorem isPointInPoly_eq_crossingParity (point : Coord) (vs : Ring) :
    isPointInPoly point vs = crossingParity point vs := by
  unfold isPointInPoly crossingParity crossings
  rw [isPointInPoly_loop point.1 point.2 vs vs.length le_rfl]

theorem isOnLandIn_iff (features : List Feature) (lon lat : ℚ) :
    isOnLandIn features lon lat = true ↔
      ∃ feature ∈ features, ∃ ring ∈ landRings feature.geometry,
        isPointInPoly (lon, lat) ring = true := by
  induction features with
  | nil => simp [isOnLandIn]
  | cons f rest ih =>
    have hsplit : (∃ feature ∈ f :: rest, ∃ ring ∈ landRings feature.geometry,
          isPointInPoly (lon, lat) ring = true) ↔
        ((∃ ring ∈ landRings f.geometry, isPointInPoly (lon, lat) ring = true) ∨
          isOnLandIn rest lon lat = true) := by
      simp only [List.mem_cons, exists_eq_or_imp, ih]
    rw [hsplit, isOnLandIn]
    cases hg : f.geometry with
    | polygon cs =>
      simp only [landRings]
      by_cases h : cs.any (fun ring => isPointInPoly (lon, lat) ring) = true
      · simp only [h, if_true, true_iff]
        left
        simpa [List.any_eq_true] using h
      · have hn : ¬ ∃ ring ∈ cs, isPointInPoly (lon, lat) ring = true := by
          simpa [List.any_eq_true] using h
        simp [h, hn]
    | multiPolygon ps =>
      simp only [landRings]
      have hiff : (ps.any (fun poly => poly.any (fun ring => isPointInPoly (lon, lat) ring))
          = true) ↔ ∃ ring ∈ ps.flatten, isPointInPoly (lon, lat) ring = true := by
        simp only [List.any_eq_true, List.mem_flatten]
        constructor
        · rintro ⟨poly, hp, ring, hr, h⟩
          exact ⟨ring, ⟨poly, hp, hr⟩, h⟩
        · rintro ⟨ring, ⟨poly, hp, hr⟩, h⟩
          exact ⟨poly, hp, ring, hr, h⟩
      by_cases h : ps.any (fun poly => poly.any (fun ring => isPointInPoly (lon, lat) ring))
          = true
      · simp only [h, if_true, true_iff]
        left
        exact hiff.mp h
      · have hn : ¬ ∃ ring ∈ ps.flatten, isPointInPoly (lon, lat) ring = true :=
          fun hx => h (hiff.mpr hx)
        rw [if_neg h]
        exact ⟨Or.inr, fun hx => hx.resolve_left hn⟩
    | other =>
      simp [landRings]

/-- Claim C2: `isOnLand(lon, lat)` is true exactly when some feature of type
Polygon or MultiPolygon has a ring (any ring of a polygon, any ring of any
polygon of a multipolygon) for which `isPointInPoly` is true, where
`isPointInPoly` is the parity of the number of ring edges, from vertex `i` to
its cyclic predecessor, that pass the `intersect` test; a feature of another
geometry type has no such ring. -/
theorem C2_isOnLand_iff_some_ring_odd_crossings (env : Env) (lon lat : ℚ) :
    (isOnLand env lon lat = true ↔
      ∃ feature ∈ env.mapData, ∃ ring ∈ landRings feature.geometry,
        isPointInPoly (lon, lat) ring = true) ∧
    (∀ ring : Ring, isPointInPoly (lon, lat) ring
      = decide (crossings (lon, lat) ring % 2 = 1)) ∧
    landRings Geometry.other = [] :=
  ⟨isOnLandIn_iff env.mapData lon lat,
   fun ring => isPointInPoly_eq_crossingParity (lon, lat) ring, rfl⟩

/-! ## Primitive state changes: general facts -/

theorem Evolves.trans {env : Env} {K : Effect → Prop} {w w1 w2 : World}
    (h1 : Evolves env K w w1) (h2 : Evolves env K w1 w2) : Evolves env K w w2 := by
  induction h2 with
  | refl => exact h1
  | step e _ hk hg ih => exact Evolves.step e ih hk hg

theorem Evolves.mono {env : Env} {K L : Effect → Prop} {w w' : World}
    (h : Evolves env K w w') (hK : ∀ e, K e → L e) : Evolves env L w w' := by
  induction h with
  | refl => exact Evolves.refl _
  | step e _ hk hg ih => exact Evolves.step e ih (hK e hk) hg

theorem Evolves.one {env : Env} {K : Effect → Prop} {w : World} (e : Effect) (hk : K e)
    (hg : e.guard env w) : Evolves env K w (e.apply env w) :=
  Evolves.step e (Evolves.refl w) hk hg

/-- A function of the world that no change in `K` alters is the same after
a sequence of changes in `K`. -/
theorem Evolves.frame {env : Env} {K : Effect → Prop} {w w' : World} {α : Type}
    (f : World → α) (h : Evolves env K w w')
    (hK : ∀ e, K e → ∀ v, f (e.apply env v) = f v) : f w' = f w := by
  induction h with
  | refl => rfl
  | step e _ hk _ ih => rw [hK e hk, ih]

/-- A property that every guarded change in `K` preserves is preserved by a
sequence of changes in `K`. -/
theorem Evolves.inv {env : Env} {K : Effect → Prop} {w w' : World} (P : World → Prop)
    (h : Evolves env K w w')
    (hK : ∀ e v, K e → e.guard env v → P v → P (e.apply env v)) (hw : P w) : P w' := by
  induction h with
  | refl => exact hw
  | step e _ hk hg ih => exact hK e _ hk hg ih

/-- A relation to the starting world that is reflexive and that every
guarded change in `K` extends holds after a sequence of changes in `K`. -/
theorem Evolves.rel {env : Env} {K : Effect → Prop} {w w' : World}
    (R : World → World → Prop) (h : Evolves env K w w') (hrefl : R w w)
    (hK : ∀ e v, K e → e.guard env v → R w v → R w (e.apply env v)) : R w w' := by
  induction h with
  | refl => exact hrefl
  | step e _ hk hg ih => exact hK e _ hk hg ih

/-! ## The operations as sequences of primitive changes -/

theorem advance_evolves {env : Env} {K : Effect → Prop} (w : World)
    (hK : ∀ n, K (.setRnd n)) : Evolves env K w w.advance :=
  Evolves.one (.setRnd (w.rnd + 1)) (hK _) trivial

theorem takeDamage_evolves (env : Env) (id : ℕ) (amount : ℤ) (w : World)
    (ha : amount = 1000 ∨ ∃ s, amount = (w.heap s).damage) :
    Evolves env Effect.harms w (Unit.takeDamage env id amount w) := by
  have h1 : Evolves env Effect.harms w (w.subHp id amount) :=
    Evolves.one (.subHp id amount) trivial ha
  unfold Unit.takeDamage
  by_cases h : ((w.subHp id amount).heap id).hp ≤ 0
  · simp only [h, if_true]
    have h2 : Evolves env Effect.harms w ((w.subHp id amount).setDead id) :=
      Evolves.step (.setDead id) h1 trivial h
    exact Evolves.step (.pushExplosion (.unit id) _ _ _) h2 trivial trivial
  · simp only [h, if_false]
    exact h1

theorem moveTo_evolves (env : Env) (id : ℕ) (targetPos : Pt) (w : World) :
    Evolves env (Effect.steers id) w (Unit.moveTo env id targetPos w) := by
  unfold Unit.moveTo
  simp only
  split_ifs with h1 h2
  · exact Evolves.one (.setTarget id none) rfl trivial
  · refine Evolves.one (.setPos id _) rfl ?_
    intro hn
    simp only [hn, true_and, Bool.not_eq_true] at h2
    exact h2
  · exact Evolves.refl w

theorem patrolPick_evolves (env : Env) (id : ℕ) (w : World) :
    Evolves env (Effect.steers id) w (Unit.patrolPick env id w) := by
  have h3 : Evolves env (Effect.steers id) w w.advance.advance.advance :=
    ((advance_evolves w (fun _ => trivial)).trans
      (advance_evolves _ (fun _ => trivial))).trans (advance_evolves _ (fun _ => trivial))
  unfold Unit.patrolPick
  simp only
  split_ifs
  · exact Evolves.refl w
  · exact h3
  · exact Evolves.step (.setTarget id _) h3 rfl trivial
  · exact Evolves.step (.setTarget id _) h3 rfl trivial
  · exact advance_evolves w (fun _ => trivial)

theorem patrolMove_evolves (env : Env) (id : ℕ) (w : World) :
    Evolves env (Effect.steers id) w (Unit.patrolMove env id w) := by
  unfold Unit.patrolMove
  split
  · exact Evolves.refl w
  · rename_i tg _
    have h1 := moveTo_evolves env id (tg.get w) w
    simp only
    split
    · exact h1
    · split_ifs
      · exact Evolves.step (.setTarget id none) h1 rfl trivial
      · exact h1

theorem patrol_evolves (env : Env) (id : ℕ) (w : World) :
    Evolves env (Effect.steers id) w (Unit.patrol env id w) :=
  (patrolPick_evolves env id w).trans (patrolMove_evolves env id _)

theorem dropStaleTarget_evolves (env : Env) (id : ℕ) (w : World) :
    Evolves env (Effect.steers id) w (Unit.dropStaleTarget env id w) := by
  unfold Unit.dropStaleTarget
  split
  · exact Evolves.refl w
  · split_ifs
    · exact Evolves.one (.setCombatTarget id none) rfl trivial
    · exact Evolves.refl w

theorem findTarget_evolves (env : Env) (id : ℕ) (w : World) :
    Evolves env (Effect.steers id) w (Unit.findTarget env id w) := by
  have h1 := dropStaleTarget_evolves env id w
  unfold Unit.findTarget
  simp only
  split
  · exact h1
  · split
    · exact h1
    · exact Evolves.step (.setCombatTarget id _) h1 rfl trivial

theorem findCityTarget_evolves (env : Env) (id : ℕ) (w w' : World)
    (h : Unit.findCityTarget env id w = some w') : Evolves env (Effect.steers id) w w' := by
  have h2 : Evolves env (Effect.steers id) w w.advance.advance :=
    (advance_evolves w (fun _ => trivial)).trans (advance_evolves _ (fun _ => trivial))
  unfold Unit.findCityTarget at h
  split_ifs at h with h1 h3
  · cases h; exact Evolves.refl w
  · split at h
    · cases h
    · simp only at h
      split_ifs at h
      · split at h
        · cases h
        · cases h; exact Evolves.step (.setTarget id _) h2 rfl trivial
      · split at h
        · cases h
        · cases h; exact Evolves.step (.setTarget id _) h2 rfl trivial
  · cases h; exact Evolves.refl w

theorem hunt_evolves (env : Env) (id : ℕ) (w : World) :
    Evolves env (Effect.steers id) w (Unit.hunt env id w) := by
  have h1 := findTarget_evolves env id w
  unfold Unit.hunt
  simp only
  split
  · exact h1.trans (moveTo_evolves env id _ _)
  · exact h1.trans (patrol_evolves env id _)

theorem seekCity_evolves (env : Env) (id : ℕ) (w w' : World)
    (h : Unit.seekCity env id w = some w') : Evolves env (Effect.steers id) w w' := by
  unfold Unit.seekCity at h
  split at h
  · cases h
  · rename_i w1 hc
    have h1 := findCityTarget_evolves env id w w1 hc
    split at h
    · cases h; exact h1.trans (moveTo_evolves env id _ _)
    · cases h; exact h1

theorem airMove_evolves (env : Env) (id : ℕ) (w w' : World)
    (h : Unit.airMove env id w = some w') : Evolves env (Effect.steers id) w w' := by
  have h1 := findTarget_evolves env id w
  unfold Unit.airMove at h
  simp only at h
  split at h
  · cases h; exact h1.trans (moveTo_evolves env id _ _)
  · split_ifs at h
    · exact h1.trans (seekCity_evolves env id _ _ h)
    · cases h; exact h1.trans (patrol_evolves env id _)

theorem movementLogic_evolves (env : Env) (id : ℕ) (w w' : World)
    (h : Unit.movementLogic env id w = some w') : Evolves env (Effect.steers id) w w' := by
  unfold Unit.movementLogic at h
  split_ifs at h
  · exact airMove_evolves env id w w' h
  · cases h; exact hunt_evolves env id w
  · cases h; exact patrol_evolves env id w
  · cases h; exact Evolves.refl w
  · cases h; exact patrol_evolves env id w

theorem fire_evolves (env : Env) (id : ℕ) (targetPos : Coord) (w : World) :
    Evolves env (Effect.launches id) w (Unit.fire env id targetPos w) := by
  unfold Unit.fire
  exact Evolves.step (.setCooldown id 400)
    (Evolves.step (.decAmmo id) (Evolves.one (.pushMissile _ _ _ _ _) trivial trivial) rfl
      trivial) ⟨rfl, rfl⟩ trivial

theorem launchMissile_evolves (env : Env) (id : ℕ) (w w' : World)
    (h : Unit.launchMissile env id w = some w') : Evolves env (Effect.launches id) w w' := by
  have h2 : Evolves env (Effect.launches id) w w.advance.advance :=
    (advance_evolves w (fun _ => trivial)).trans (advance_evolves _ (fun _ => trivial))
  unfold Unit.launchMissile at h
  split_ifs at h
  · cases h; exact Evolves.refl w
  · split at h
    · cases h
    · simp only at h
      split_ifs at h
      · split at h
        · cases h
        · cases h; exact h2.trans (fire_evolves env id _ _)
      · split at h
        · cases h; exact h2
        · cases h; exact h2.trans (fire_evolves env id _ _)

theorem spawnSearch_succ (env : Env) (region : SpawnRegion) (isNaval isLand : Bool)
    (fuel : ℕ) (s : SpawnSearch) :
    spawnSearch env region isNaval isLand (fuel + 1) s =
      if s.valid = false ∧ s.attempts < 50 then
        spawnSearch env region isNaval isLand fuel
          { lon := region.lon.1 + env.random s.rnd * (region.lon.2 - region.lon.1)
            lat := region.lat.1 + env.random (s.rnd + 1) * (region.lat.2 - region.lat.1)
            valid :=
              if isNaval = true then
                (if isOnLand env
                    (region.lon.1 + env.random s.rnd * (region.lon.2 - region.lon.1))
                    (region.lat.1 + env.random (s.rnd + 1) * (region.lat.2 - region.lat.1))
                    = false then true else s.valid)
              else if isLand = true then
                (if isOnLand env
                    (region.lon.1 + env.random s.rnd * (region.lon.2 - region.lon.1))
                    (region.lat.1 + env.random (s.rnd + 1) * (region.lat.2 - region.lat.1))
                    = true then true else s.valid)
              else true
            attempts := s.attempts + 1
            rnd := s.rnd + 2 }
      else s := rfl

/-- What the search loop of `spawn` has established about a valid point. -/
theorem spawnSearch_valid (env : Env) (region : SpawnRegion) (isNaval isLand : Bool) :
    ∀ (fuel : ℕ) (s : SpawnSearch),
      (s.valid = true →
        (isNaval = true → isOnLand env s.lon s.lat = false) ∧
        (isNaval = false → isLand = true → isOnLand env s.lon s.lat = true)) →
      (spawnSearch env region isNaval isLand fuel s).valid = true →
        (isNaval = true →
          isOnLand env (spawnSearch env region isNaval isLand fuel s).lon
            (spawnSearch env region isNaval isLand fuel s).lat = false) ∧
        (isNaval = false → isLand = true →
          isOnLand env (spawnSearch env region isNaval isLand fuel s).lon
            (spawnSearch env region isNaval isLand fuel s).lat = true) := by
  intro fuel
  induction fuel with
  | zero => intro s hs hv; exact hs hv
  | succ n ih =>
    intro s hs
    by_cases hc : s.valid = false ∧ s.attempts < 50
    · rw [spawnSearch_succ, if_pos hc]
      apply ih
      simp only
      intro hv
      cases isNaval <;> cases isLand <;>
        cases hl : isOnLand env (region.lon.1 + env.random s.rnd * (region.lon.2 - region.lon.1))
          (region.lat.1 + env.random (s.rnd + 1) * (region.lat.2 - region.lat.1)) <;>
        simp_all
    · rw [spawnSearch_succ, if_neg hc]
      exact hs

theorem spawnFind_valid (env : Env) (region : SpawnRegion) (type : UnitType) (rnd : ℕ)
    (hv : (spawnFind env region type rnd).valid = true) :
    ((type = .SUB ∨ type = .CARRIER) →
      isOnLand env (spawnFind env region type rnd).lon (spawnFind env region type rnd).lat
        = false) ∧
    (type = .SILO →
      isOnLand env (spawnFind env region type rnd).lon (spawnFind env region type rnd).lat
        = true) := by
  have h := spawnSearch_valid env region (decide (type = .CARRIER ∨ type = .SUB))
    (decide (type = .SILO)) 50
    { lon := 0, lat := 0, valid := false, attempts := 0, rnd := rnd }
    (by intro hf; cases hf) hv
  constructor
  · intro ht
    exact h.1 (by cases ht <;> simp_all)
  · intro ht
    exact h.2 (by simp [ht]) (by simp [ht])

theorem spawnOne_evolves (env : Env) (region : SpawnRegion) (type : UnitType)
    (faction : FactionId) (w : World) (ht : type = .CARRIER ∨ type = .SUB ∨ type = .SILO) :
    Evolves env (Effect.musters faction) w (spawnOne env region type faction w) := by
  have h1 : Evolves env (Effect.musters faction) w
      (w.setRnd (spawnFind env region type w.rnd).rnd) :=
    Evolves.one (.setRnd _) trivial trivial
  unfold spawnOne
  simp only
  split_ifs with hv
  · exact Evolves.step (.pushUnit type faction _ _) h1 ⟨rfl, ht⟩
      (spawnFind_valid env region type w.rnd hv)
  · exact h1

theorem spawn_evolves (env : Env) (region : SpawnRegion) (faction : FactionId)
    (type : UnitType) (ht : type = .CARRIER ∨ type = .SUB ∨ type = .SILO) :
    ∀ (count : ℕ) (w : World),
      Evolves env (Effect.musters faction) w (spawn env region faction type count w) := by
  intro count
  induction count with
  | zero => intro w; exact Evolves.refl w
  | succ n ih =>
    intro w
    unfold spawn
    exact (spawnOne_evolves env region type faction w ht).trans (ih _)

theorem escalate_evolves (env : Env) (victim : Option FactionId) (aggressor : FactionId)
    (w w' : World) (hv : victim ≠ some .ROGUE)
    (h : escalate env victim aggressor w = some w') : Evolves env Effect.rallies w w' := by
  unfold escalate at h
  split at h
  · cases h; exact Evolves.refl w
  · rename_i v
    split_ifs at h with hc
    · unfold spawnFactionUnits at h
      split at h
      · cases h
      · rename_i region _
        simp only [Option.some.injEq] at h
        subst h
        have h0 : Evolves env Effect.rallies w ((w.setAlerted v).log (.mobilize v)) :=
          Evolves.one (.mobilize v) (Or.inl ⟨v, rfl⟩)
            ⟨hc.1, fun hr => hv (by rw [hr])⟩
        have hm : ∀ e, Effect.musters v e → Effect.rallies e := fun e he => Or.inr ⟨v, he⟩
        exact ((h0.trans ((spawn_evolves env region v .CARRIER (Or.inl rfl) _ _).mono hm)).trans
          ((spawn_evolves env region v .SUB (Or.inr (Or.inl rfl)) _ _).mono hm)).trans
          ((spawn_evolves env region v .SILO (Or.inr (Or.inr rfl)) _ _).mono hm)
    · cases h; exact Evolves.refl w

theorem foldl_evolves {env : Env} {K : Effect → Prop} (f : World → ℕ → World)
    (hf : ∀ w i, Evolves env K w (f w i)) :
    ∀ (l : List ℕ) (w : World), Evolves env K w (l.foldl f w) := by
  intro l
  induction l with
  | nil => intro w; exact Evolves.refl w
  | cons i rest ih => intro w; exact (hf w i).trans (ih _)

theorem impactHit_evolves (env : Env) (p : Pt) (aggressor : FactionId) (w : World) (id : ℕ) :
    Evolves env Effect.harms w (impactHit env p aggressor w id) := by
  unfold impactHit
  split_ifs
  · exact takeDamage_evolves env id 1000 w (Or.inl rfl)
  · exact Evolves.refl w

theorem impactDamage_evolves (env : Env) (p : Pt) (aggressor : FactionId) (w : World) :
    Evolves env Effect.harms w (impactDamage env p aggressor w) :=
  foldl_evolves _ (impactHit_evolves env p aggressor) _ _

theorem territoryOwner_ne_rogue (env : Env) (lon lat : ℚ) (l : List FactionId) :
    territoryOwner env lon lat l ≠ some .ROGUE := by
  induction l with
  | nil => simp [territoryOwner]
  | cons f rest ih =>
    unfold territoryOwner
    split_ifs with h1 h2
    · exact ih
    · intro h
      exact h1 (Option.some.inj h)
    · exact ih

theorem quadrantOwner_ne_rogue (lon lat : ℚ) : quadrantOwner lon lat ≠ some .ROGUE := by
  unfold quadrantOwner
  split_ifs <;> simp

theorem victimOf_ne_rogue (env : Env) (lon lat : ℚ) : victimOf env lon lat ≠ some .ROGUE := by
  unfold victimOf
  split
  · rename_i f hf
    intro h
    exact territoryOwner_ne_rogue env lon lat FACTIONS (hf.trans h)
  · exact quadrantOwner_ne_rogue lon lat

theorem checkImpact_evolves (env : Env) (src : Source) (x y : ℚ) (aggressor : FactionId)
    (w w' : World) (h : checkImpact env src x y aggressor w = some w') :
    Evolves env (Effect.strikes src) w w' := by
  unfold checkImpact at h
  have h0 : Evolves env (Effect.strikes src) w (w.log (.impact src x y aggressor)) :=
    Evolves.one (.log _) (Or.inl ⟨x, y, aggressor, rfl⟩)
      (Or.inr (Or.inr ⟨src, x, y, aggressor, rfl⟩))
  have h1 := (impactDamage_evolves env { x := x, y := y } aggressor
    (w.log (.impact src x y aggressor))).mono (L := Effect.strikes src)
    (fun e he => Or.inr (Or.inl he))
  have h2 := (escalate_evolves env _ aggressor _ w' (victimOf_ne_rogue env _ _) h).mono
    (L := Effect.strikes src) (fun e he => Or.inr (Or.inr he))
  exact (h0.trans h1).trans h2

theorem bombHit_evolves (env : Env) (id : ℕ) (targetPos : Pt) (w : World) (e : ℕ) :
    Evolves env Effect.harms w (bombHit env id targetPos w e) := by
  unfold bombHit
  split_ifs
  · exact takeDamage_evolves env e _ w (Or.inr ⟨id, rfl⟩)
  · exact Evolves.refl w

theorem bombDamage_evolves (env : Env) (id : ℕ) (targetPos : Pt) (w : World) :
    Evolves env Effect.harms w (bombDamage env id targetPos w) :=
  foldl_evolves _ (bombHit_evolves env id targetPos) _ _

theorem harms_ofUnit (id : ℕ) (e : Effect) (h : e.harms) : e.ofUnit id :=
  Or.inr (Or.inr (Or.inr (Or.inr (Or.inr (Or.inr (Or.inr (Or.inr (Or.inl h))))))))

theorem strikes_ofUnit (id : ℕ) (e : Effect) (h : e.strikes (.unit id)) : e.ofUnit id :=
  Or.inr (Or.inr (Or.inr (Or.inr (Or.inr (Or.inr (Or.inr h))))))

theorem steers_ofUnit (id : ℕ) (e : Effect) (h : e.steers id) : e.ofUnit id :=
  Or.inr (Or.inr (Or.inl h))

theorem launches_ofUnit (id : ℕ) (e : Effect) (h : e.launches id) : e.ofUnit id :=
  Or.inr (Or.inr (Or.inr (Or.inr (Or.inr (Or.inl h)))))

theorem setCooldown_ofUnit (id : ℕ) (c : ℚ) : (Effect.setCooldown id c).ofUnit id :=
  Or.inr (Or.inl ⟨c, rfl⟩)

theorem dropBomb_evolves (env : Env) (id : ℕ) (targetPos : Pt) (w w' : World)
    (h : Unit.dropBomb env id targetPos w = some w') : Evolves env (Effect.ofUnit id) w w' := by
  unfold Unit.dropBomb at h
  simp only at h
  have h0 : Evolves env (Effect.ofUnit id) w
      (pushExplosion env (.unit id) targetPos.x targetPos.y (w.heap id).faction w) :=
    Evolves.one (.pushExplosion (.unit id) _ _ _)
      (Or.inr (Or.inr (Or.inr (Or.inr (Or.inr (Or.inr (Or.inl ⟨_, _, _, rfl⟩))))))) trivial
  have h1 := (bombDamage_evolves env id targetPos
    (pushExplosion env (.unit id) targetPos.x targetPos.y (w.heap id).faction w)).mono
    (harms_ofUnit id)
  exact (h0.trans h1).trans ((checkImpact_evolves env _ _ _ _ _ w' h).mono (strikes_ofUnit id))

theorem aircraft_guard (env : Env) (v : World) (type : UnitType) (f : FactionId)
    (lon lat : ℚ) (ht : type = .FIGHTER ∨ type = .BOMBER) :
    (Effect.pushUnit type f lon lat).guard env v := by
  constructor
  · intro h; rcases ht with ht | ht <;> rw [ht] at h <;> simp at h
  · intro h; rcases ht with ht | ht <;> rw [ht] at h <;> simp at h

theorem carrierLogic_evolves (env : Env) (id : ℕ) (w : World) :
    Evolves env (Effect.ofUnit id) w (Unit.carrierLogic env id w) := by
  unfold Unit.carrierLogic
  by_cases h : (w.heap id).type = .CARRIER ∧ w.defcon = 1 ∧ (w.heap id).hangar > 0 ∧
      (w.heap id).cooldown ≤ 0
  · rw [if_pos h]
    have h0 : Evolves env (Effect.ofUnit id) w w.advance :=
      advance_evolves w (fun _ => steers_ofUnit id _ trivial)
    have ht : (if w.draw env > 4 / 10 then UnitType.FIGHTER else UnitType.BOMBER) = .FIGHTER ∨
        (if w.draw env > 4 / 10 then UnitType.FIGHTER else UnitType.BOMBER) = .BOMBER := by
      split_ifs
      · exact Or.inl rfl
      · exact Or.inr rfl
    exact Evolves.step (.setCooldown id 200)
      (Evolves.step (.decHangar id)
        (Evolves.step (.pushUnit _ _ _ _) h0
          (Or.inr (Or.inr (Or.inr (Or.inr (Or.inl ⟨_, _, _, _, rfl⟩)))))
          (aircraft_guard env _ _ _ _ _ ht))
        (Or.inr (Or.inr (Or.inr (Or.inl rfl)))) trivial)
      (setCooldown_ofUnit id 200) trivial
  · rw [if_neg h]
    exact Evolves.refl w

theorem fireLaser_evolves (env : Env) (id : ℕ) (w : World) :
    Evolves env Effect.harms w (Unit.fireLaser env id w) := by
  unfold Unit.fireLaser
  split
  · exact Evolves.refl w
  · exact takeDamage_evolves env _ _ w (Or.inr ⟨id, rfl⟩)

theorem laserShot_evolves (env : Env) (id : ℕ) (w : World) :
    Evolves env (Effect.ofUnit id) w (Unit.laserShot env id w) := by
  have h1 := (findTarget_evolves env id w).mono (steers_ofUnit id)
  unfold Unit.laserShot
  simp only
  split
  · exact h1
  · split_ifs
    · exact Evolves.step (.setCooldown id 30)
        (h1.trans ((fireLaser_evolves env id _).mono (harms_ofUnit id)))
        (setCooldown_ofUnit id 30) trivial
    · exact h1

theorem laserAttack_evolves (env : Env) (id : ℕ) (w : World) :
    Evolves env (Effect.ofUnit id) w (Unit.laserAttack env id w) := by
  unfold Unit.laserAttack
  split_ifs
  · exact laserShot_evolves env id w
  · exact Evolves.refl w

theorem bombAt_evolves (env : Env) (id : ℕ) (p : Pt) (w w' : World)
    (h : Unit.bombAt env id p w = some w') : Evolves env (Effect.ofUnit id) w w' := by
  unfold Unit.bombAt at h
  split at h
  · cases h
  · rename_i w1 hd
    cases h
    exact Evolves.step (.setCooldown id 100) (dropBomb_evolves env id p w w1 hd)
      (setCooldown_ofUnit id 100) trivial

theorem bombCombatTarget_evolves (env : Env) (id : ℕ) (w w' : World)
    (h : Unit.bombCombatTarget env id w = some w') : Evolves env (Effect.ofUnit id) w w' := by
  unfold Unit.bombCombatTarget at h
  split at h
  · cases h; exact Evolves.refl w
  · split_ifs at h
    · exact bombAt_evolves env id _ w w' h
    · cases h; exact Evolves.refl w

theorem bomberAttack_evolves (env : Env) (id : ℕ) (w w' : World)
    (h : Unit.bomberAttack env id w = some w') : Evolves env (Effect.ofUnit id) w w' := by
  unfold Unit.bomberAttack at h
  split_ifs at h
  · split at h
    · split_ifs at h
      · exact bombAt_evolves env id _ w w' h
      · exact bombCombatTarget_evolves env id w w' h
    · exact bombCombatTarget_evolves env id w w' h
  · cases h; exact Evolves.refl w

theorem siloLaunch_evolves (env : Env) (id : ℕ) (w w' : World)
    (h : Unit.siloLaunch env id w = some w') : Evolves env (Effect.ofUnit id) w w' := by
  unfold Unit.siloLaunch at h
  split_ifs at h
  · exact (launchMissile_evolves env id w w' h).mono (launches_ofUnit id)
  · cases h; exact Evolves.refl w

theorem subLaunch_evolves (env : Env) (id : ℕ) (w w' : World)
    (h : Unit.subLaunch env id w = some w') : Evolves env (Effect.ofUnit id) w w' := by
  unfold Unit.subLaunch at h
  split_ifs at h
  · exact (launchMissile_evolves env id w w' h).mono (launches_ofUnit id)
  · cases h; exact Evolves.refl w

theorem combatLogic_evolves (env : Env) (id : ℕ) (w w' : World)
    (h : Unit.combatLogic env id w = some w') : Evolves env (Effect.ofUnit id) w w' := by
  unfold Unit.combatLogic at h
  split_ifs at h
  · split at h
    · cases h
    · rename_i w1 h1
      split at h
      · cases h
      · rename_i w2 h2
        exact ((siloLaunch_evolves env id w w1 h1).trans
          (subLaunch_evolves env id w1 w2 h2)).trans
          ((laserAttack_evolves env id w2).trans (bomberAttack_evolves env id _ w' h))
  · cases h; exact Evolves.refl w

theorem update_evolves (env : Env) (id : ℕ) (w w' : World)
    (h : Unit.update env id w = some w') : Evolves env (Effect.ofUnit id) w w' := by
  unfold Unit.update at h
  simp only at h
  have h0 : Evolves env (Effect.ofUnit id) w (w.log (.unitUpdate id)) :=
    Evolves.one (.log _) (Or.inl rfl) (Or.inl ⟨id, rfl⟩)
  split_ifs at h
  · cases h; exact h0
  · split at h
    · cases h
    · rename_i w2 hm
      have h1 := Evolves.step (.setCooldown id (((w.log (.unitUpdate id)).heap id).cooldown - 1))
        h0 (setCooldown_ofUnit id _) trivial
      exact ((h1.trans (carrierLogic_evolves env id _)).trans
        ((movementLogic_evolves env id _ w2 hm).mono (steers_ofUnit id))).trans
        (combatLogic_evolves env id w2 w' h)

theorem arrive_evolves (env : Env) (id : ℕ) (w w' : World)
    (hp : (w.mheap id).progress ≥ 1)
    (h : Missile.arrive env id w = some w') : Evolves env (Effect.ofMissile id) w w' := by
  unfold Missile.arrive at h
  simp only at h
  have h1 : Evolves env (Effect.ofMissile id) w (w.setProgress id 1) :=
    Evolves.one (.setProgress id 1) (Or.inr (Or.inl ⟨1, rfl⟩)) (Or.inr ⟨rfl, hp⟩)
  have h2 : Evolves env (Effect.ofMissile id) w ((w.setProgress id 1).setMissileDead id) :=
    Evolves.step (.setMissileDead id) h1 (Or.inr (Or.inr (Or.inl rfl)))
      (by simp [Effect.guard, World.setProgress, World.setMissile])
  have h3 := Evolves.step (.pushExplosion (.missile id)
      (((w.setProgress id 1).setMissileDead id).mheap id).finish.x
      (((w.setProgress id 1).setMissileDead id).mheap id).finish.y
      (((w.setProgress id 1).setMissileDead id).mheap id).faction) h2
    (Or.inr (Or.inr (Or.inr (Or.inl ⟨_, _, _, rfl⟩)))) trivial
  exact h3.trans ((checkImpact_evolves env _ _ _ _ _ w' h).mono
    (fun e he => Or.inr (Or.inr (Or.inr (Or.inr he)))))

theorem missileUpdate_evolves (env : Env) (id : ℕ) (w w' : World)
    (h : Missile.update env id w = some w') : Evolves env (Effect.ofMissile id) w w' := by
  unfold Missile.update at h
  simp only at h
  have h0 : Evolves env (Effect.ofMissile id) w (w.log (.missileUpdate id)) :=
    Evolves.one (.log _) (Or.inl rfl) (Or.inr (Or.inl ⟨id, rfl⟩))
  have h1 := Evolves.step (.setProgress id
      (((w.log (.missileUpdate id)).mheap id).progress
        + ((w.log (.missileUpdate id)).mheap id).speed)) h0
    (Or.inr (Or.inl ⟨_, rfl⟩)) (Or.inl rfl)
  split_ifs at h with hp
  · exact h1.trans (arrive_evolves env id _ w' hp h)
  · cases h; exact h1

theorem updateUnits_evolves (env : Env) :
    ∀ (l : List ℕ) (w w' : World), updateUnits env l w = some w' →
      Evolves env (fun e => ∃ id ∈ l, e.ofUnit id) w w' := by
  intro l
  induction l with
  | nil => intro w w' h; cases h; exact Evolves.refl w
  | cons id rest ih =>
    intro w w' h
    unfold updateUnits at h
    split at h
    · cases h
    · rename_i w1 hu
      exact ((update_evolves env id w w1 hu).mono
        (fun e he => ⟨id, List.mem_cons_self _ _, he⟩)).trans
        ((ih w1 w' h).mono (fun e ⟨i, hi, he⟩ => ⟨i, List.mem_cons_of_mem _ hi, he⟩))

theorem updateMissiles_evolves (env : Env) :
    ∀ (l : List ℕ) (w w' : World), updateMissiles env l w = some w' →
      Evolves env (fun e => ∃ id ∈ l, e.ofMissile id) w w' := by
  intro l
  induction l with
  | nil => intro w w' h; cases h; exact Evolves.refl w
  | cons id rest ih =>
    intro w w' h
    unfold updateMissiles at h
    split at h
    · cases h
    · rename_i w1 hu
      exact ((missileUpdate_evolves env id w w1 hu).mono
        (fun e he => ⟨id, List.mem_cons_self _ _, he⟩)).trans
        ((ih w1 w' h).mono (fun e ⟨i, hi, he⟩ => ⟨i, List.mem_cons_of_mem _ hi, he⟩))

theorem checkVictory_evolves (env : Env) (w : World) :
    Evolves env (fun e => ∃ f, e = .declareVictory f) w (checkVictory w) := by
  unfold checkVictory
  by_cases hd : w.defcon ≠ 1
  · rw [if_pos hd]
    exact Evolves.refl w
  · rw [if_neg hd]
    split
    · rename_i winner ha
      by_cases hc : alertedCount w ≥ 2
      · rw [if_pos hc]
        exact Evolves.one (.declareVictory winner) ⟨winner, rfl⟩ ⟨not_not.mp hd, ha, hc⟩
      · rw [if_neg hc]
        exact Evolves.refl w
    · exact Evolves.refl w

theorem animate_evolves (env : Env) (w w' : World) (h : animate env w = some w') :
    Evolves env (fun _ => True) w w' := by
  unfold animate at h
  split at h
  · cases h
  · rename_i w1 h1
    split at h
    · cases h
    · rename_i w2 h2
      cases h
      have e1 := (updateUnits_evolves env _ w w1 h1).mono (L := fun _ => True)
        (fun _ _ => trivial)
      have e2 := Evolves.step .sweepUnits e1 trivial trivial
      have e3 := e2.trans ((updateMissiles_evolves env _ _ w2 h2).mono (L := fun _ => True)
        (fun _ _ => trivial))
      have e4 := Evolves.step .ageExplosions (Evolves.step .sweepMissiles e3 trivial trivial)
        trivial trivial
      exact e4.trans ((checkVictory_evolves env _).mono (fun _ _ => trivial))

theorem bombard_evolves (env : Env) (w : World) :
    Evolves env (fun _ => True) w (bombard env w) := by
  unfold bombard
  split
  · exact advance_evolves w (fun _ => trivial)
  · exact Evolves.step (.pushMissile _ _ _ _ _) (advance_evolves w (fun _ => trivial))
      trivial trivial

theorem step_evolves (env : Env) (i : Input) (w w' : World) (h : step env w i = some w') :
    Evolves env (fun _ => True) w w' := by
  cases i with
  | tick => exact animate_evolves env w w' h
  | setDefcon level =>
    cases h
    exact Evolves.one (.setDefcon level) trivial trivial
  | bombard =>
    cases h
    exact bombard_evolves env w

/-- Every world of a run results from the starting world by guarded
primitive changes. -/
theorem run_evolves (env : Env) :
    ∀ (inputs : List Input) (w w' : World), run env inputs w = some w' →
      Evolves env (fun _ => True) w w' := by
  intro inputs
  induction inputs with
  | nil => intro w w' h; cases h; exact Evolves.refl w
  | cons i rest ih =>
    intro w w' h
    unfold run at h
    split at h
    · cases h
    · rename_i w1 h1
      exact (step_evolves env i w w1 h1).trans (ih w1 w' h)

/-! ## Impact resolution -/

theorem takeDamage_heap_ne (env : Env) (id i : ℕ) (amount : ℤ) (w : World) (h : i ≠ id) :
    (Unit.takeDamage env id amount w).heap i = w.heap i := by
  unfold Unit.takeDamage
  simp only
  split_ifs <;>
    simp [World.subHp, World.setDead, World.setUnit, pushExplosion, Function.update, h]

theorem takeDamage_hp (env : Env) (id : ℕ) (amount : ℤ) (w : World) :
    ((Unit.takeDamage env id amount w).heap id).hp = (w.heap id).hp - amount := by
  unfold Unit.takeDamage
  simp only
  split_ifs <;>
    simp [World.subHp, World.setDead, World.setUnit, pushExplosion, Function.update]

theorem takeDamage_dead (env : Env) (id : ℕ) (amount : ℤ) (w : World)
    (h : (w.heap id).hp - amount ≤ 0) :
    ((Unit.takeDamage env id amount w).heap id).dead = true := by
  unfold Unit.takeDamage
  have h1 : ((w.subHp id amount).heap id).hp ≤ 0 := by
    simpa [World.subHp, World.setUnit] using h
  simp only [h1, if_true]
  simp [World.subHp, World.setDead, World.setUnit, pushExplosion, Function.update]

/-- No change made by `takeDamage` or by mobilization touches the counters
and flags that only the tick driver and the launch actions write. -/
theorem harms_keep (env : Env) (e : Effect) (h : e.harms) (v : World) :
    (e.apply env v).nextUnit = v.nextUnit ∧ (e.apply env v).units = v.units ∧
    (e.apply env v).isAlerted = v.isAlerted ∧ (e.apply env v).defcon = v.defcon ∧
    (e.apply env v).victorySecured = v.victorySecured ∧
    (e.apply env v).missiles = v.missiles ∧ (e.apply env v).mheap = v.mheap ∧
    (e.apply env v).nextMissile = v.nextMissile := by
  cases e <;> (try simp [Effect.harms] at h) <;>
    simp [Effect.apply, World.subHp, World.setDead, World.setUnit, pushExplosion]

theorem impactHit_heap_ne (env : Env) (p : Pt) (a : FactionId) (w : World) (j i : ℕ)
    (h : i ≠ j) : (impactHit env p a w j).heap i = w.heap i := by
  unfold impactHit
  split_ifs
  · exact takeDamage_heap_ne env j i 1000 w h
  · rfl

/-- A unit that `checkImpact` has to hit is dead after the loop, and a unit
that it must not hit is unchanged, whatever the loop has done before. -/
theorem impactDamage_fold (env : Env) (p : Pt) (a : FactionId) (id : ℕ) (u : Unit) :
    ∀ (l : List ℕ) (v : World),
      ((v.heap id).dead = true → ((l.foldl (impactHit env p a) v).heap id).dead = true) ∧
      (v.heap id = u → u.hp ≤ 1000 → id ∈ l →
        u.faction ≠ a ∧ u.dead = false ∧ dist env u.pos p < 10 →
        ((l.foldl (impactHit env p a) v).heap id).dead = true) ∧
      (v.heap id = u → (u.faction = a ∨ dist env u.pos p ≥ 10) →
        (l.foldl (impactHit env p a) v).heap id = u) := by
  intro l
  induction l with
  | nil =>
    intro v
    refine ⟨fun h => h, fun _ _ hm _ => absurd hm (List.not_mem_nil _), fun h _ => h⟩
  | cons j rest ih =>
    intro v
    simp only [List.foldl_cons]
    have hdead : (v.heap id).dead = true → ((impactHit env p a v j).heap id).dead = true := by
      intro hd
      by_cases hj : id = j
      · subst hj
        unfold impactHit
        rw [if_neg (by simp [hd])]
        exact hd
      · rw [impactHit_heap_ne env p a v j id hj]
        exact hd
    refine ⟨fun hd => (ih _).1 (hdead hd), ?_, ?_⟩
    · intro hu hhp hm hc
      by_cases hj : id = j
      · subst hj
        apply (ih _).1
        unfold impactHit
        rw [hu, if_pos hc]
        apply takeDamage_dead
        rw [hu]
        omega
      · have hm' : id ∈ rest := by
          rcases List.mem_cons.mp hm with h | h
          · exact absurd h hj
          · exact h
        exact (ih _).2.1 (by rw [impactHit_heap_ne env p a v j id hj]; exact hu) hhp hm' hc
    · intro hu hc
      apply (ih _).2.2 _ hc
      by_cases hj : id = j
      · subst hj
        unfold impactHit
        rw [hu, if_neg]
        · exact hu
        · rintro ⟨h1, _, h3⟩
          rcases hc with hc | hc
          · exact h1 hc
          · exact absurd h3 (not_lt.mpr hc)
      · rw [impactHit_heap_ne env p a v j id hj]
        exact hu

/-- Mobilization leaves every unit object that exists before it unchanged. -/
theorem rallies_heap (env : Env) (v v' : World) (h : Evolves env Effect.rallies v v') :
    v.nextUnit ≤ v'.nextUnit ∧ ∀ id, id < v.nextUnit → v'.heap id = v.heap id := by
  refine Evolves.rel
    (fun a b => a.nextUnit ≤ b.nextUnit ∧ ∀ id, id < a.nextUnit → b.heap id = a.heap id)
    h ⟨le_rfl, fun _ _ => rfl⟩ ?_
  intro e x hk _ ⟨h1, h2⟩
  rcases hk with ⟨f, rfl⟩ | ⟨f, hm⟩
  · exact ⟨h1, h2⟩
  · cases e <;> (try simp [Effect.musters] at hm)
    · exact ⟨h1, h2⟩
    · refine ⟨Nat.le_succ_of_le h1, fun id hid => ?_⟩
      rw [← h2 id hid]
      simp only [Effect.apply, pushUnit]
      exact Function.update_noteq (by omega) _ _

theorem impactDamage_nextUnit (env : Env) (p : Pt) (a : FactionId) (w : World) :
    (impactDamage env p a w).nextUnit = w.nextUnit :=
  Evolves.frame (fun v => v.nextUnit) (impactDamage_evolves env p a w)
    (fun e he v => (harms_keep env e he v).1)

/-- Claim C7: `checkImpact` destroys every live unit of `units` that is not of
the aggressor faction and lies at plane distance below 10 from the impact
point, provided its health is at most its maximal health and that at most
1000; a unit of the aggressor faction and a unit at distance 10 or more keep
their health (indeed all their fields).  The references in `units` are
assumed to denote allocated objects. -/
theorem C7_checkImpact_destroys_units_in_range (env : Env) (src : Source) (x y : ℚ)
    (aggressor : FactionId) (w w' : World)
    (hwf : ∀ id ∈ w.units, id < w.nextUnit)
    (h : checkImpact env src x y aggressor w = some w') :
    (∀ id ∈ w.units,
      (w.heap id).dead = false → (w.heap id).faction ≠ aggressor →
      dist env (w.heap id).pos { x := x, y := y } < 10 →
      (w.heap id).hp ≤ (w.heap id).maxHp → (w.heap id).maxHp ≤ 1000 →
      (w'.heap id).dead = true) ∧
    (∀ id, id < w.nextUnit →
      ((w.heap id).faction = aggressor ∨ dist env (w.heap id).pos { x := x, y := y } ≥ 10) →
      (w'.heap id).hp = (w.heap id).hp ∧ w'.heap id = w.heap id) := by
  unfold checkImpact at h
  have hr := rallies_heap env _ w'
    (escalate_evolves env _ aggressor _ w' (victimOf_ne_rogue env _ _) h)
  rw [impactDamage_nextUnit] at hr
  have hn : (w.log (.impact src x y aggressor)).nextUnit = w.nextUnit := rfl
  rw [hn] at hr
  constructor
  · intro id hid hd hf hdist hhp hmax
    rw [hr.2 id (hwf id hid)]
    exact (impactDamage_fold env { x := x, y := y } aggressor id (w.heap id) w.units
      (w.log (.impact src x y aggressor))).2.1 rfl (le_trans hhp hmax) hid ⟨hf, hd, hdist⟩
  · intro id hid hc
    rw [hr.2 id hid]
    have := (impactDamage_fold env { x := x, y := y } aggressor id (w.heap id) w.units
      (w.log (.impact src x y aggressor))).2.2 rfl hc
    unfold impactDamage
    exact ⟨by rw [show (w.log (.impact src x y aggressor)).units = w.units from rfl, this],
      by rw [show (w.log (.impact src x y aggressor)).units = w.units from rfl, this]⟩

theorem spawnFactionUnits_total (env : Env) (f : FactionId) (w : World) (hf : f ≠ .ROGUE) :
    ∃ w', spawnFactionUnits env f w = some w' := by
  unfold spawnFactionUnits
  cases f <;> first | exact absurd rfl hf | exact ⟨_, rfl⟩

theorem escalate_total (env : Env) (victim : Option FactionId) (aggressor : FactionId)
    (w : World) (hv : victim ≠ some .ROGUE) :
    ∃ w', escalate env victim aggressor w = some w' := by
  unfold escalate
  cases victim with
  | none => exact ⟨_, rfl⟩
  | some v =>
    simp only
    split_ifs
    · exact spawnFactionUnits_total env v _ (fun h => hv (by rw [h]))
    · exact ⟨_, rfl⟩

/-- The function `checkImpact` never throws. -/
theorem checkImpact_total (env : Env) (src : Source) (x y : ℚ) (aggressor : FactionId)
    (w : World) : ∃ w', checkImpact env src x y aggressor w = some w' :=
  escalate_total env _ aggressor _ (victimOf_ne_rogue env _ _)

theorem territoryOwner_eq_find (env : Env) (lon lat : ℚ) (l : List FactionId) :
    territoryOwner env lon lat l
      = (l.filter (fun f => decide (f ≠ .ROGUE))).find? (nearTerritory env lon lat) := by
  induction l with
  | nil => rfl
  | cons f rest ih =>
    unfold territoryOwner
    by_cases h1 : f = .ROGUE
    · rw [if_pos h1, ih, List.filter_cons_of_neg (by simp [h1])]
    · rw [if_neg h1, List.filter_cons_of_pos (by simp [h1]), List.find?_cons]
      by_cases h2 : nearTerritory env lon lat f = true
      · have h2' := h2
        unfold nearTerritory at h2'
        rw [if_pos h2', h2]
      · have h2' := h2
        unfold nearTerritory at h2'
        rw [if_neg h2', ih]
        simp only [Bool.not_eq_true] at h2
        rw [h2]

theorem victimOf_eq_identifiedOwner (env : Env) (lon lat : ℚ) :
    victimOf env lon lat = identifiedOwner env lon lat := by
  unfold victimOf identifiedOwner
  rw [territoryOwner_eq_find]
  rfl

/-- The mobilization events and the alert flags across the damage loop of
`checkImpact` and across the muster of a faction. -/
theorem harms_or_musters_keep (env : Env) (g : FactionId) (e : Effect)
    (h : e.harms ∨ ∃ f, e.musters f) (v : World) :
    (e.apply env v).trace.count (.mobilize g) = v.trace.count (.mobilize g) ∧
    (e.apply env v).isAlerted = v.isAlerted := by
  rcases h with h | ⟨f, h⟩
  · cases e <;> (try simp [Effect.harms] at h) <;>
      simp [Effect.apply, World.subHp, World.setDead, World.setUnit, pushExplosion,
        List.count_append]
  · cases e <;> (try simp [Effect.musters] at h) <;>
      simp [Effect.apply, World.setRnd, pushUnit]

theorem spawn_keep (env : Env) (region : SpawnRegion) (f : FactionId) (type : UnitType)
    (ht : type = .CARRIER ∨ type = .SUB ∨ type = .SILO) (g : FactionId) (count : ℕ)
    (w : World) :
    (spawn env region f type count w).trace.count (.mobilize g) = w.trace.count (.mobilize g) ∧
    (spawn env region f type count w).isAlerted = w.isAlerted :=
  ⟨Evolves.frame (fun v => v.trace.count (.mobilize g)) (spawn_evolves env region f type ht _ _)
      (fun e he v => (harms_or_musters_keep env g e (Or.inr ⟨f, he⟩) v).1),
   Evolves.frame (fun v => v.isAlerted) (spawn_evolves env region f type ht _ _)
      (fun e he v => (harms_or_musters_keep env g e (Or.inr ⟨f, he⟩) v).2)⟩

/-- Claim C8: `checkImpact` never throws, and it alerts a faction and calls
`spawnFactionUnits` for it exactly when that faction is the identified owner
of the impact point (the first faction other than `ROGUE` with a territory
point within 5 degrees in longitude and latitude, else the faction of the
quadrant heuristic), was not alerted and is not the aggressor; otherwise no
alert flag changes and no unit is added. -/
theorem C8_checkImpact_escalates_iff (env : Env) (src : Source) (x y : ℚ)
    (aggressor : FactionId) (w : World) :
    ∃ w', checkImpact env src x y aggressor w = some w' ∧
      (∀ f : FactionId,
        (w'.trace.count (.mobilize f) = w.trace.count (.mobilize f) +
          (if identifiedOwner env (unproject env x y).lon (unproject env x y).lat = some f ∧
              w.isAlerted f = false ∧ f ≠ aggressor then 1 else 0)) ∧
        (w'.isAlerted f = true ↔ w.isAlerted f = true ∨
          (identifiedOwner env (unproject env x y).lon (unproject env x y).lat = some f ∧
            w.isAlerted f = false ∧ f ≠ aggressor))) ∧
      ((∀ f : FactionId,
          ¬ (identifiedOwner env (unproject env x y).lon (unproject env x y).lat = some f ∧
            w.isAlerted f = false ∧ f ≠ aggressor)) →
        w'.isAlerted = w.isAlerted ∧ w'.units = w.units ∧ w'.nextUnit = w.nextUnit) := by
  obtain ⟨w', hw'⟩ := checkImpact_total env src x y aggressor w
  refine ⟨w', hw', ?_⟩
  unfold checkImpact at hw'
  rw [victimOf_eq_identifiedOwner] at hw'
  have hd := impactDamage_evolves env { x := x, y := y } aggressor
    (w.log (.impact src x y aggressor))
  have hA : (impactDamage env { x := x, y := y } aggressor
      (w.log (.impact src x y aggressor))).isAlerted = w.isAlerted := by
    have t := Evolves.frame (fun v => v.isAlerted) hd
      (fun e he v => (harms_keep env e he v).2.2.1)
    exact t
  have hU : (impactDamage env { x := x, y := y } aggressor
      (w.log (.impact src x y aggressor))).units = w.units := by
    have t := Evolves.frame (fun v => v.units) hd (fun e he v => (harms_keep env e he v).2.1)
    exact t
  have hN : (impactDamage env { x := x, y := y } aggressor
      (w.log (.impact src x y aggressor))).nextUnit = w.nextUnit := by
    have t := Evolves.frame (fun v => v.nextUnit) hd (fun e he v => (harms_keep env e he v).1)
    exact t
  have hC : ∀ f, (impactDamage env { x := x, y := y } aggressor
      (w.log (.impact src x y aggressor))).trace.count (.mobilize f)
        = w.trace.count (.mobilize f) := by
    intro f
    have := Evolves.frame (fun v => v.trace.count (.mobilize f)) hd
      (fun e he v => (harms_or_musters_keep env f e (Or.inl he) v).1)
    simpa [World.log, List.count_append] using this
  generalize impactDamage env { x := x, y := y } aggressor
    (w.log (.impact src x y aggressor)) = w1 at hw' hA hU hN hC
  generalize identifiedOwner env (unproject env x y).lon (unproject env x y).lat = owner at hw'
  unfold escalate at hw'
  cases owner with
  | none =>
    cases hw'
    refine ⟨fun f => ⟨by simp [hC], by simp [hA]⟩, fun _ => ⟨hA, hU, hN⟩⟩
  | some v =>
    simp only at hw'
    by_cases hc : w1.isAlerted v = false ∧ v ≠ aggressor
    · rw [if_pos hc] at hw'
      unfold spawnFactionUnits at hw'
      split at hw'
      · cases hw'
      · rename_i region _
        simp only [Option.some.injEq] at hw'
        subst hw'
        have k1 := spawn_keep env region v .CARRIER (Or.inl rfl)
        have k2 := spawn_keep env region v .SUB (Or.inr (Or.inl rfl))
        have k3 := spawn_keep env region v .SILO (Or.inr (Or.inr rfl))
        rw [hA] at hc
        refine ⟨fun f => ⟨?_, ?_⟩, fun hno => absurd ⟨rfl, hc⟩ (hno v)⟩
        · rw [(k3 f _ _).1, (k2 f _ _).1, (k1 f _ _).1]
          by_cases hf : f = v
          · subst hf
            simp [World.log, World.setAlerted, List.count_append, hC, hc]
          · have hf' : v ≠ f := fun h => hf h.symm
            simp [World.log, World.setAlerted, List.count_append, hC, hf, hf']
        · rw [(k3 f _ _).2, (k2 f _ _).2, (k1 f _ _).2]
          by_cases hf : f = v
          · subst hf
            simp [World.log, World.setAlerted, hc]
          · have hf' : v ≠ f := fun h => hf h.symm
            simp [World.log, World.setAlerted, hA, Function.update, hf, hf']
    · rw [if_neg hc] at hw'
      cases hw'
      rw [hA] at hc
      refine ⟨fun f => ⟨?_, ?_⟩, fun _ => ⟨hA, hU, hN⟩⟩
      · rw [hC, if_neg]
        · rfl
        · rintro ⟨h1, h2, h3⟩
          cases h1
          exact hc ⟨h2, h3⟩
      · rw [hA]
        constructor
        · exact Or.inl
        · rintro (h | ⟨h1, h2, h3⟩)
          · exact h
          · cases h1
            exact absurd ⟨h2, h3⟩ hc

/-! ## Target faction selection -/

theorem pick_some {α : Type} (xs : List α) (r : ℚ) (hx : 0 < xs.length) (h0 : 0 ≤ r)
    (h1 : r < 1) : ∃ a, pick xs r = some a ∧ a ∈ xs := by
  have hlen : (0 : ℚ) < (xs.length : ℚ) := by exact_mod_cast hx
  have hf0 : 0 ≤ ⌊r * (xs.length : ℚ)⌋ := Int.floor_nonneg.mpr (mul_nonneg h0 hlen.le)
  have hf1 : ⌊r * (xs.length : ℚ)⌋ < (xs.length : ℤ) := by
    rw [Int.floor_lt]
    have : r * (xs.length : ℚ) < 1 * (xs.length : ℚ) := mul_lt_mul_of_pos_right h1 hlen
    simpa using this
  have hn : (⌊r * (xs.length : ℚ)⌋).toNat < xs.length := by omega
  refine ⟨xs[(⌊r * (xs.length : ℚ)⌋).toNat], ?_, List.getElem_mem _⟩
  unfold pick jsIndex
  rw [if_neg (not_lt.mpr hf0)]
  exact List.getElem?_eq_getElem hn

theorem pick_mem {α : Type} (xs : List α) (r : ℚ) (a : α) (h : pick xs r = some a) : a ∈ xs := by
  unfold pick jsIndex at h
  split_ifs at h
  exact List.getElem?_mem h

theorem enemyFactions_spec (env : Env) (own f : FactionId) :
    f ∈ enemyFactions env own ↔ f ≠ own ∧ f ≠ .ROGUE ∧ 0 < (env.targets f).length := by
  unfold enemyFactions FACTIONS
  simp only [List.mem_filter, Bool.and_eq_true, decide_eq_true_eq, gt_iff_lt]
  constructor
  · rintro ⟨_, ⟨h1, h2⟩, h3⟩
    exact ⟨h1, h2, h3⟩
  · rintro ⟨h1, h2, h3⟩
    refine ⟨?_, ⟨h1, h2⟩, h3⟩
    cases f <;> simp

theorem launchMissile_total (env : Env) (hr : ∀ n, 0 ≤ env.random n ∧ env.random n < 1)
    (id : ℕ) (w : World) : ∃ w', Unit.launchMissile env id w = some w' := by
  unfold Unit.launchMissile
  by_cases h0 : (enemyFactions env (w.heap id).faction).length = 0
  · rw [if_pos h0]; exact ⟨_, rfl⟩
  · rw [if_neg h0]
    obtain ⟨ef, hef, _⟩ := pick_some (enemyFactions env (w.heap id).faction) (w.draw env)
      (Nat.pos_of_ne_zero h0) (hr _).1 (hr _).2
    rw [hef]
    simp only
    by_cases h1 : (liveLaunchTargets w.advance ef).length > 0
    · rw [if_pos h1]
      obtain ⟨t, ht, _⟩ := pick_some (liveLaunchTargets w.advance ef) (w.advance.draw env) h1
        (hr _).1 (hr _).2
      rw [ht]
      exact ⟨_, rfl⟩
    · rw [if_neg h1]
      cases pick (env.targets ef) (w.advance.draw env) <;> exact ⟨_, rfl⟩

theorem findCityTarget_total (env : Env) (hr : ∀ n, 0 ≤ env.random n ∧ env.random n < 1)
    (id : ℕ) (w : World) : ∃ w', Unit.findCityTarget env id w = some w' := by
  unfold Unit.findCityTarget
  by_cases ht : (w.heap id).target.isSome = true
  · rw [if_pos ht]; exact ⟨_, rfl⟩
  · rw [if_neg ht]
    by_cases h0 : (enemyFactions env (w.heap id).faction).length > 0
    · rw [if_pos h0]
      obtain ⟨ef, hef, hmem⟩ := pick_some (enemyFactions env (w.heap id).faction) (w.draw env)
        h0 (hr _).1 (hr _).2
      rw [hef]
      simp only
      by_cases h1 : (liveSilos w.advance ef).length > 0
      · rw [if_pos h1]
        obtain ⟨s, hs, _⟩ := pick_some (liveSilos w.advance ef) (w.advance.draw env) h1
          (hr _).1 (hr _).2
        rw [hs]
        exact ⟨_, rfl⟩
      · rw [if_neg h1]
        obtain ⟨t, ht', _⟩ := pick_some (env.targets ef) (w.advance.draw env)
          ((enemyFactions_spec env _ ef).mp hmem).2.2 (hr _).1 (hr _).2
        rw [ht']
        exact ⟨_, rfl⟩
    · rw [if_neg h0]; exact ⟨_, rfl⟩

theorem enemyFactions_nil (env : Env) (own : FactionId)
    (h : ∀ f, f ≠ own → f ≠ .ROGUE → env.targets f = []) : enemyFactions env own = [] := by
  apply List.eq_nil_iff_forall_not_mem.mpr
  intro f hf
  have := (enemyFactions_spec env own f).mp hf
  rw [h f this.1 this.2.1] at this
  exact absurd this.2.2 (by simp)

/-- Claim C10: with draws in `[0, 1)`, `launchMissile` and `findCityTarget`
never throw; the enemy faction either of them selects (an element of
`enemyFactions` indexed by a draw) is never the unit's own faction, never
`ROGUE`, and never a faction with zero territory points; and when no enemy
faction has a territory point, both leave the world as it is: no missile is
added, ammo and cooldown are unchanged, and the movement target keeps its
value (unset if it was unset). -/
theorem C10_no_target_faction_without_territory (env : Env)
    (hr : ∀ n, 0 ≤ env.random n ∧ env.random n < 1) (id : ℕ) (w : World) :
    (∃ w', Unit.launchMissile env id w = some w') ∧
    (∃ w', Unit.findCityTarget env id w = some w') ∧
    (∀ (r : ℚ) (ef : FactionId), pick (enemyFactions env (w.heap id).faction) r = some ef →
      0 < (env.targets ef).length ∧ ef ≠ (w.heap id).faction ∧ ef ≠ .ROGUE) ∧
    ((∀ f, f ≠ (w.heap id).faction → f ≠ .ROGUE → env.targets f = []) →
      Unit.launchMissile env id w = some w ∧ Unit.findCityTarget env id w = some w) := by
  refine ⟨launchMissile_total env hr id w, findCityTarget_total env hr id w, ?_, ?_⟩
  · intro r ef h
    have := (enemyFactions_spec env _ ef).mp (pick_mem _ r ef h)
    exact ⟨this.2.2, this.1, this.2.1⟩
  · intro h
    have hnil := enemyFactions_nil env _ h
    constructor
    · unfold Unit.launchMissile
      rw [hnil]
      simp
    · unfold Unit.findCityTarget
      rw [hnil]
      simp

/-! ## No operation throws when the draws are in `[0, 1)` -/

theorem dropBomb_total (env : Env) (id : ℕ) (p : Pt) (w : World) :
    ∃ w', Unit.dropBomb env id p w = some w' :=
  checkImpact_total env _ _ _ _ _

theorem bombAt_total (env : Env) (id : ℕ) (p : Pt) (w : World) :
    ∃ w', Unit.bombAt env id p w = some w' := by
  obtain ⟨w1, h1⟩ := dropBomb_total env id p w
  exact ⟨_, by unfold Unit.bombAt; rw [h1]⟩

theorem bombCombatTarget_total (env : Env) (id : ℕ) (w : World) :
    ∃ w', Unit.bombCombatTarget env id w = some w' := by
  unfold Unit.bombCombatTarget
  split
  · exact ⟨_, rfl⟩
  · split_ifs
    · exact bombAt_total env id _ w
    · exact ⟨_, rfl⟩

theorem bomberAttack_total (env : Env) (id : ℕ) (w : World) :
    ∃ w', Unit.bomberAttack env id w = some w' := by
  unfold Unit.bomberAttack
  split_ifs
  · split
    · split_ifs
      · exact bombAt_total env id _ w
      · exact bombCombatTarget_total env id w
    · exact bombCombatTarget_total env id w
  · exact ⟨_, rfl⟩

theorem combatLogic_total (env : Env) (hr : ∀ n, 0 ≤ env.random n ∧ env.random n < 1)
    (id : ℕ) (w : World) : ∃ w', Unit.combatLogic env id w = some w' := by
  unfold Unit.combatLogic
  split_ifs
  · have h1 : ∃ w1, Unit.siloLaunch env id w = some w1 := by
      unfold Unit.siloLaunch
      split_ifs
      · exact launchMissile_total env hr id w
      · exact ⟨_, rfl⟩
    obtain ⟨w1, h1⟩ := h1
    have h2 : ∃ w2, Unit.subLaunch env id w1 = some w2 := by
      unfold Unit.subLaunch
      split_ifs
      · exact launchMissile_total env hr id w1
      · exact ⟨_, rfl⟩
    obtain ⟨w2, h2⟩ := h2
    rw [h1]
    simp only
    rw [h2]
    exact bomberAttack_total env id _
  · exact ⟨_, rfl⟩

theorem movementLogic_total (env : Env) (hr : ∀ n, 0 ≤ env.random n ∧ env.random n < 1)
    (id : ℕ) (w : World) : ∃ w', Unit.movementLogic env id w = some w' := by
  unfold Unit.movementLogic
  split_ifs
  · unfold Unit.airMove
    simp only
    split
    · exact ⟨_, rfl⟩
    · split_ifs
      · unfold Unit.seekCity
        obtain ⟨w1, h1⟩ := findCityTarget_total env hr id (Unit.findTarget env id w)
        rw [h1]
        simp only
        split <;> exact ⟨_, rfl⟩
      · exact ⟨_, rfl⟩
  all_goals exact ⟨_, rfl⟩

theorem update_total (env : Env) (hr : ∀ n, 0 ≤ env.random n ∧ env.random n < 1)
    (id : ℕ) (w : World) : ∃ w', Unit.update env id w = some w' := by
  unfold Unit.update
  simp only
  split_ifs
  · exact ⟨_, rfl⟩
  · obtain ⟨w2, h2⟩ := movementLogic_total env hr id
      (Unit.carrierLogic env id ((w.log (.unitUpdate id)).setCooldown id
        (((w.log (.unitUpdate id)).heap id).cooldown - 1)))
    rw [h2]
    exact combatLogic_total env hr id w2

theorem missileUpdate_total (env : Env) (id : ℕ) (w : World) :
    ∃ w', Missile.update env id w = some w' := by
  unfold Missile.update
  simp only
  split_ifs
  · exact checkImpact_total env _ _ _ _ _
  · exact ⟨_, rfl⟩

theorem updateUnits_total (env : Env) (hr : ∀ n, 0 ≤ env.random n ∧ env.random n < 1) :
    ∀ (l : List ℕ) (w : World), ∃ w', updateUnits env l w = some w' := by
  intro l
  induction l with
  | nil => intro w; exact ⟨_, rfl⟩
  | cons id rest ih =>
    intro w
    obtain ⟨w1, h1⟩ := update_total env hr id w
    obtain ⟨w2, h2⟩ := ih w1
    exact ⟨w2, by unfold updateUnits; rw [h1]; exact h2⟩

theorem updateMissiles_total (env : Env) :
    ∀ (l : List ℕ) (w : World), ∃ w', updateMissiles env l w = some w' := by
  intro l
  induction l with
  | nil => intro w; exact ⟨_, rfl⟩
  | cons id rest ih =>
    intro w
    obtain ⟨w1, h1⟩ := missileUpdate_total env id w
    obtain ⟨w2, h2⟩ := ih w1
    exact ⟨w2, by unfold updateMissiles; rw [h1]; exact h2⟩

/-- A tick never throws. -/
theorem animate_total (env : Env) (hr : ∀ n, 0 ≤ env.random n ∧ env.random n < 1)
    (w : World) : ∃ w', animate env w = some w' := by
  obtain ⟨w1, h1⟩ := updateUnits_total env hr w.units w
  obtain ⟨w2, h2⟩ := updateMissiles_total env w1.sweepUnits.missiles w1.sweepUnits
  exact ⟨_, by unfold animate; rw [h1]; simp only; rw [h2]⟩

/-- A run never throws. -/
theorem run_total (env : Env) (hr : ∀ n, 0 ≤ env.random n ∧ env.random n < 1) :
    ∀ (inputs : List Input) (w : World), ∃ w', run env inputs w = some w' := by
  intro inputs
  induction inputs with
  | nil => intro w; exact ⟨_, rfl⟩
  | cons i rest ih =>
    intro w
    have h1 : ∃ w1, step env w i = some w1 := by
      cases i with
      | tick => exact animate_total env hr w
      | setDefcon level => exact ⟨_, rfl⟩
      | bombard => exact ⟨_, rfl⟩
    obtain ⟨w1, h1⟩ := h1
    obtain ⟨w2, h2⟩ := ih w1
    exact ⟨w2, by unfold run; rw [h1]; exact h2⟩

/-! ## Sample worlds -/

theorem sampleEnv_scale : scale sampleEnv = 1 := by
  norm_num [scale, sampleEnv]

theorem sampleEnv_xOffset : xOffset sampleEnv = 20 := by
  unfold xOffset
  rw [sampleEnv_scale]
  norm_num [sampleEnv]

theorem sampleEnv_yOffset : yOffset sampleEnv = 10 := by
  unfold yOffset
  rw [sampleEnv_scale]
  norm_num [sampleEnv]

theorem sampleEnv_random (n : ℕ) : 0 ≤ sampleEnv.random n ∧ sampleEnv.random n < 1 := by
  norm_num [sampleEnv]

theorem sqrtFloor_zero : sqrtFloor 0 = 0 := by simp [sqrtFloor]

/-- The round trip of claim C1 at `(10 E, 50 N)` in the sample viewport. -/
theorem C1_witness :
    (0 < sampleEnv.width ∧ 0 < sampleEnv.height) ∧
    unproject sampleEnv (project sampleEnv 10 50).x (project sampleEnv 10 50).y
      = { lon := 10, lat := 50 } :=
  ⟨⟨by norm_num [sampleEnv], by norm_num [sampleEnv]⟩,
   C1_unproject_project_roundtrip sampleEnv (by norm_num [sampleEnv]) (by norm_num [sampleEnv])
     10 50 (by norm_num) (by norm_num)⟩

/-- Claim C7 on the two silos: an impact of `NA` on the silo of `EU` kills it
and leaves the silo of `NA` at full health. -/
theorem C7_witness :
    ∃ w', checkImpact sampleEnv (.missile 0) 210 50 .NA twoSilos = some w' ∧
      (w'.heap 0).dead = true ∧ (w'.heap 1).hp = 500 := by
  obtain ⟨w', h⟩ := checkImpact_total sampleEnv (.missile 0) 210 50 .NA twoSilos
  have hwf : ∀ id ∈ twoSilos.units, id < twoSilos.nextUnit := by
    simp [twoSilos]
  have key := C7_checkImpact_destroys_units_in_range sampleEnv (.missile 0) 210 50 .NA
    twoSilos w' hwf h
  refine ⟨w', h, ?_, ?_⟩
  · refine key.1 0 (by simp [twoSilos]) (by simp [twoSilos, Unit.new])
      (by simp [twoSilos, Unit.new]) ?_ (by simp [twoSilos, Unit.new])
      (by simp [twoSilos, Unit.new, UNIT_STATS])
    norm_num [twoSilos, Unit.new, dist, project, sampleEnv_scale, sampleEnv_xOffset,
      sampleEnv_yOffset]
    simp [sampleEnv, sqrtFloor_zero]
  · rw [(key.2 1 (by simp [twoSilos]) (Or.inl (by simp [twoSilos, Unit.new]))).1]
    simp [twoSilos, Unit.new, UNIT_STATS]

/-- Claim C10 for the silo of `NA` in the sample world. -/
theorem C10_witness :
    (∀ n, 0 ≤ sampleEnv.random n ∧ sampleEnv.random n < 1) ∧
    (∃ w', Unit.launchMissile sampleEnv 1 twoSilos = some w') ∧
    (∃ w', Unit.findCityTarget sampleEnv 1 twoSilos = some w') :=
  ⟨sampleEnv_random,
   (C10_no_target_faction_without_territory sampleEnv sampleEnv_random 1 twoSilos).1,
   (C10_no_target_faction_without_territory sampleEnv sampleEnv_random 1 twoSilos).2.1⟩

/-! ## Naval units stay off the land -/

theorem NavalSafe.setUnit {env : Env} {v : World} (h : NavalSafe env v) (id : ℕ) (u : Unit)
    (ht : u.type = (v.heap id).type) (hn : u.isNaval = (v.heap id).isNaval)
    (hp : u.pos = (v.heap id).pos ∨ (u.isNaval = true →
      isOnLand env (unproject env u.pos.x u.pos.y).lon (unproject env u.pos.x u.pos.y).lat
        = false)) :
    NavalSafe env (v.setUnit id u) := by
  intro i hi
  by_cases hid : i = id
  · subst hid
    simp only [World.setUnit, Function.update_same] at hi ⊢
    rw [ht] at hi
    have := h i hi
    refine ⟨hn.trans this.1, ?_⟩
    rcases hp with hp | hp
    · rw [hp]; exact this.2
    · exact hp (hn.trans this.1)
  · simp only [World.setUnit, Function.update_noteq hid] at hi ⊢
    exact h i hi

theorem NavalSafe.addUnit {env : Env} {v : World} (h : NavalSafe env v)
    (hw : 0 < env.width) (hh : 0 < env.height) (type : UnitType) (f : FactionId)
    (lon lat : ℚ) (hg : (type = .SUB ∨ type = .CARRIER) → isOnLand env lon lat = false) :
    NavalSafe env (pushUnit env type f lon lat v) := by
  intro i hi
  by_cases hid : i = v.nextUnit
  · subst hid
    have hu : (pushUnit env type f lon lat v).heap v.nextUnit
        = Unit.new env type f lon lat (v.draw env) := by
      simp [pushUnit]
    rw [hu] at hi ⊢
    simp only [Unit.new] at hi ⊢
    rw [unproject_project env hw hh]
    exact ⟨by simpa using hi, hg hi⟩
  · have hu : (pushUnit env type f lon lat v).heap i = v.heap i := by
      simp [pushUnit, Function.update_noteq hid]
    rw [hu] at hi ⊢
    exact h i hi

/-- Every guarded primitive change keeps naval units off the land. -/
theorem NavalSafe.apply {env : Env} (hw : 0 < env.width) (hh : 0 < env.height)
    (e : Effect) (v : World) (hg : e.guard env v) (h : NavalSafe env v) :
    NavalSafe env (e.apply env v) := by
  cases e with
  | setCooldown id c => exact h.setUnit id _ rfl rfl (Or.inl rfl)
  | setTarget id t => exact h.setUnit id _ rfl rfl (Or.inl rfl)
  | setCombatTarget id t => exact h.setUnit id _ rfl rfl (Or.inl rfl)
  | setPos id p => exact h.setUnit id _ rfl rfl (Or.inr hg)
  | subHp id amount => exact h.setUnit id _ rfl rfl (Or.inl rfl)
  | setDead id => exact h.setUnit id _ rfl rfl (Or.inl rfl)
  | decAmmo id => exact h.setUnit id _ rfl rfl (Or.inl rfl)
  | decHangar id => exact h.setUnit id _ rfl rfl (Or.inl rfl)
  | pushUnit type f lon lat => exact h.addUnit hw hh type f lon lat hg.1
  | _ => exact h

theorem NavalSafe.at_start (env : Env) : NavalSafe env World.initial := by
  intro i hi
  simp [World.initial, Unit.blank] at hi

theorem spawnFactionUnits_navalSafe (env : Env) (hw : 0 < env.width) (hh : 0 < env.height)
    (f : FactionId) (w0 w : World) (h0 : NavalSafe env w0)
    (hs : spawnFactionUnits env f w0 = some w) : NavalSafe env w := by
  unfold spawnFactionUnits at hs
  split at hs
  · cases hs
  · rename_i region _
    simp only [Option.some.injEq] at hs
    subst hs
    have k0 : NavalSafe env (w0.log (.mobilize f)) := fun id hid => h0 id hid
    have k1 := (spawn_evolves env region f .CARRIER (Or.inl rfl)
      (UNIT_STATS .CARRIER).limit (w0.log (.mobilize f))).inv (NavalSafe env)
      (fun e v _ hg hv => NavalSafe.apply hw hh e v hg hv) k0
    have k2 := (spawn_evolves env region f .SUB (Or.inr (Or.inl rfl))
      (UNIT_STATS .SUB).limit _).inv (NavalSafe env)
      (fun e v _ hg hv => NavalSafe.apply hw hh e v hg hv) k1
    exact (spawn_evolves env region f .SILO (Or.inr (Or.inr rfl))
      (UNIT_STATS .SILO).limit _).inv (NavalSafe env)
      (fun e v _ hg hv => NavalSafe.apply hw hh e v hg hv) k2

/-- Claim C5: with a viewport of positive size and fixed world geometry, in
exact arithmetic, no naval unit (SUB or CARRIER) ever resolves to land: the
property holds when the script starts; every run from a world in which it
holds ends in a world in which it holds; and `update()`, `moveTo`, `patrol`
and `spawnFactionUnits` (the creation of the naval units) each preserve it. -/
theorem C5_naval_units_never_on_land (env : Env) (hw : 0 < env.width) (hh : 0 < env.height) :
    NavalSafe env World.initial ∧
    (∀ (inputs : List Input) (w0 w : World), NavalSafe env w0 →
      run env inputs w0 = some w →
      ∀ id, ((w.heap id).type = .SUB ∨ (w.heap id).type = .CARRIER) →
        isOnLand env (unproject env (w.heap id).pos.x (w.heap id).pos.y).lon
          (unproject env (w.heap id).pos.x (w.heap id).pos.y).lat = false) ∧
    (∀ (id : ℕ) (w0 w : World), NavalSafe env w0 → Unit.update env id w0 = some w →
      NavalSafe env w) ∧
    (∀ (id : ℕ) (targetPos : Pt) (w0 : World), NavalSafe env w0 →
      NavalSafe env (Unit.moveTo env id targetPos w0)) ∧
    (∀ (id : ℕ) (w0 : World), NavalSafe env w0 → NavalSafe env (Unit.patrol env id w0)) ∧
    (∀ (f : FactionId) (w0 w : World), NavalSafe env w0 →
      spawnFactionUnits env f w0 = some w → NavalSafe env w) := by
  refine ⟨NavalSafe.at_start env, ?_, ?_, ?_, ?_, spawnFactionUnits_navalSafe env hw hh⟩
  · intro inputs w0 w h0 hrun id hid
    exact ((run_evolves env inputs w0 w hrun).inv (NavalSafe env)
      (fun e v _ hg hv => NavalSafe.apply hw hh e v hg hv) h0 id hid).2
  · intro id w0 w h0 hu
    exact (update_evolves env id w0 w hu).inv (NavalSafe env)
      (fun e v _ hg hv => NavalSafe.apply hw hh e v hg hv) h0
  · intro id targetPos w0 h0
    exact (moveTo_evolves env id targetPos w0).inv (NavalSafe env)
      (fun e v _ hg hv => NavalSafe.apply hw hh e v hg hv) h0
  · intro id w0 h0
    exact (patrol_evolves env id w0).inv (NavalSafe env)
      (fun e v _ hg hv => NavalSafe.apply hw hh e v hg hv) h0

theorem sampleEnv_sea : isOnLand sampleEnv 30 50 = false := by
  simp only [isOnLand, sampleEnv, isOnLandIn, List.any_cons, List.any_nil, isPointInPoly,
    List.length_cons, List.length_nil, List.range_succ, List.range_zero, List.nil_append,
    List.cons_append, List.foldl_cons, List.foldl_nil, isPointInPolyStep, intersect,
    List.getD_cons_zero, List.getD_cons_succ]
  norm_num

theorem oneSub_safe : NavalSafe sampleEnv oneSub := by
  intro id hid
  by_cases h0 : id = 0
  · subst h0
    have hu : oneSub.heap 0 = Unit.new sampleEnv .SUB .NA 30 50 (1 / 2) := by
      simp [oneSub]
    rw [hu]
    simp only [Unit.new]
    rw [unproject_project sampleEnv (by norm_num [sampleEnv]) (by norm_num [sampleEnv])]
    exact ⟨by simp, sampleEnv_sea⟩
  · have hu : oneSub.heap id = Unit.blank := by
      simp [oneSub, h0]
    rw [hu] at hid
    simp [Unit.blank] at hid

/-- Claim C5 on three ticks of a patrolling submarine. -/
theorem C5_witness :
    (0 < sampleEnv.width ∧ 0 < sampleEnv.height) ∧ NavalSafe sampleEnv oneSub ∧
    ∃ w, run sampleEnv [.tick, .tick, .tick] oneSub = some w ∧
      ∀ id, ((w.heap id).type = .SUB ∨ (w.heap id).type = .CARRIER) →
        isOnLand sampleEnv (unproject sampleEnv (w.heap id).pos.x (w.heap id).pos.y).lon
          (unproject sampleEnv (w.heap id).pos.x (w.heap id).pos.y).lat = false := by
  refine ⟨⟨by norm_num [sampleEnv], by norm_num [sampleEnv]⟩, oneSub_safe, ?_⟩
  obtain ⟨w, hw⟩ := run_total sampleEnv sampleEnv_random [.tick, .tick, .tick] oneSub
  exact ⟨w, hw, (C5_naval_units_never_on_land sampleEnv (by norm_num [sampleEnv])
    (by norm_num [sampleEnv])).2.1 _ oneSub w oneSub_safe hw⟩

/-! ## Victory tracker -/

theorem two_le_filter_length {α : Type} (l : List α) (hl : l.Nodup) (p : α → Bool) :
    2 ≤ (l.filter p).length ↔
      ∃ a b, a ∈ l ∧ b ∈ l ∧ a ≠ b ∧ p a = true ∧ p b = true := by
  have hn := hl.filter p
  constructor
  · intro h
    match hL : l.filter p, h, hn with
    | a :: b :: t, _, hn' =>
      have ha : a ∈ l.filter p := by rw [hL]; simp
      have hb : b ∈ l.filter p := by rw [hL]; simp
      rw [List.mem_filter] at ha hb
      refine ⟨a, b, ha.1, hb.1, ?_, ha.2, hb.2⟩
      intro hab
      rw [List.nodup_cons] at hn'
      exact hn'.1 (by rw [hab]; simp)
    | [], h', _ => simp at h'
    | [_], h', _ => simp at h'
  · rintro ⟨a, b, ha, hb, hab, hpa, hpb⟩
    have ha' : a ∈ l.filter p := List.mem_filter.mpr ⟨ha, hpa⟩
    have hb' : b ∈ l.filter p := List.mem_filter.mpr ⟨hb, hpb⟩
    match hL : l.filter p with
    | [] => rw [hL] at ha'; simp at ha'
    | [c] =>
      rw [hL] at ha' hb'
      simp only [List.mem_singleton] at ha' hb'
      exact absurd (ha'.trans hb'.symm) hab
    | _ :: _ :: _ => simp

theorem alertedCount_two_iff (w : World) : alertedCount w ≥ 2 ↔ TwoAlerted w := by
  unfold alertedCount TwoAlerted
  rw [ge_iff_le, two_le_filter_length FACTIONS (by decide)]
  constructor
  · rintro ⟨a, b, _, _, hab, hpa, hpb⟩
    simp only [Bool.and_eq_true, decide_eq_true_eq] at hpa hpb
    exact ⟨a, b, hab, hpa.1, hpb.1, hpa.2, hpb.2⟩
  · rintro ⟨a, b, hab, ha, hb, hpa, hpb⟩
    refine ⟨a, b, by cases a <;> decide, by cases b <;> decide, hab, ?_, ?_⟩
    · simp [ha, hpa]
    · simp [hb, hpb]

/-- The fold of `activeFactions` started from `acc`: no faction twice, and
exactly the factions of `acc` and of the live units that are not `ROGUE`. -/
theorem activeFactions_fold (w : World) :
    ∀ (l : List ℕ) (acc : List FactionId), acc.Nodup →
      (l.foldl (fun acc id =>
        if (w.heap id).faction ≠ .ROGUE ∧ (w.heap id).dead = false then
          (if (w.heap id).faction ∈ acc then acc else acc ++ [(w.heap id).faction])
        else acc) acc).Nodup ∧
      ∀ f, f ∈ (l.foldl (fun acc id =>
        if (w.heap id).faction ≠ .ROGUE ∧ (w.heap id).dead = false then
          (if (w.heap id).faction ∈ acc then acc else acc ++ [(w.heap id).faction])
        else acc) acc) ↔
        f ∈ acc ∨ (f ≠ .ROGUE ∧ ∃ id ∈ l, (w.heap id).faction = f ∧ (w.heap id).dead = false) := by
  intro l
  induction l with
  | nil => intro acc hacc; simp [hacc]
  | cons j rest ih =>
    intro acc hacc
    simp only [List.foldl_cons]
    by_cases hc : (w.heap j).faction ≠ .ROGUE ∧ (w.heap j).dead = false
    · rw [if_pos hc]
      by_cases hm : (w.heap j).faction ∈ acc
      · rw [if_pos hm]
        refine ⟨(ih acc hacc).1, fun f => ?_⟩
        rw [(ih acc hacc).2 f]
        constructor
        · rintro (h | ⟨h1, id, hid, h2, h3⟩)
          · exact Or.inl h
          · exact Or.inr ⟨h1, id, List.mem_cons_of_mem _ hid, h2, h3⟩
        · rintro (h | ⟨h1, id, hid, h2, h3⟩)
          · exact Or.inl h
          · rcases List.mem_cons.mp hid with rfl | hid
            · exact Or.inl (h2 ▸ hm)
            · exact Or.inr ⟨h1, id, hid, h2, h3⟩
      · rw [if_neg hm]
        have hacc' : (acc ++ [(w.heap j).faction]).Nodup := by
          rw [List.nodup_append]
          refine ⟨hacc, List.nodup_singleton _, ?_⟩
          intro a ha hb
          rw [List.mem_singleton] at hb
          exact hm (hb ▸ ha)
        refine ⟨(ih _ hacc').1, fun f => ?_⟩
        rw [(ih _ hacc').2 f]
        constructor
        · rintro (h | ⟨h1, id, hid, h2, h3⟩)
          · rcases List.mem_append.mp h with h | h
            · exact Or.inl h
            · rw [List.mem_singleton] at h
              exact Or.inr ⟨h ▸ hc.1, j, List.mem_cons_self _ _, h.symm, hc.2⟩
          · exact Or.inr ⟨h1, id, List.mem_cons_of_mem _ hid, h2, h3⟩
        · rintro (h | ⟨h1, id, hid, h2, h3⟩)
          · exact Or.inl (List.mem_append_left _ h)
          · rcases List.mem_cons.mp hid with rfl | hid
            · exact Or.inl (List.mem_append_right _ (by rw [h2]; simp))
            · exact Or.inr ⟨h1, id, hid, h2, h3⟩
    · rw [if_neg hc]
      refine ⟨(ih acc hacc).1, fun f => ?_⟩
      rw [(ih acc hacc).2 f]
      constructor
      · rintro (h | ⟨h1, id, hid, h2, h3⟩)
        · exact Or.inl h
        · exact Or.inr ⟨h1, id, List.mem_cons_of_mem _ hid, h2, h3⟩
      · rintro (h | ⟨h1, id, hid, h2, h3⟩)
        · exact Or.inl h
        · rcases List.mem_cons.mp hid with rfl | hid
          · exact absurd ⟨h2 ▸ h1, h3⟩ hc
          · exact Or.inr ⟨h1, id, hid, h2, h3⟩

theorem activeFactions_spec (w : World) :
    (activeFactions w).Nodup ∧
    ∀ f, f ∈ activeFactions w ↔
      (f ≠ .ROGUE ∧ ∃ id ∈ w.units, (w.heap id).faction = f ∧ (w.heap id).dead = false) := by
  have h := activeFactions_fold w w.units [] List.nodup_nil
  refine ⟨h.1, fun f => ?_⟩
  have := h.2 f
  simpa using this

theorem activeFactions_single_iff (w : World) (f : FactionId) :
    activeFactions w = [f] ↔ SoleSurvivor w f := by
  have hs := activeFactions_spec w
  unfold SoleSurvivor
  constructor
  · intro h
    have hf := (hs.2 f).mp (by rw [h]; simp)
    refine ⟨hf.1, hf.2, ?_⟩
    intro id hid hd hr
    have : (w.heap id).faction ∈ activeFactions w := (hs.2 _).mpr ⟨hr, id, hid, rfl, hd⟩
    rw [h] at this
    simpa using this
  · rintro ⟨h1, h2, h3⟩
    have hmem : ∀ g, g ∈ activeFactions w ↔ g = f := by
      intro g
      rw [hs.2 g]
      constructor
      · rintro ⟨hg, id, hid, hfg, hd⟩
        rw [← hfg]
        exact h3 id hid hd (hfg ▸ hg)
      · rintro rfl
        exact ⟨h1, h2⟩
    match hL : activeFactions w, hs.1 with
    | [], _ =>
      have := (hmem f).mpr rfl
      rw [hL] at this
      simp at this
    | [a], _ =>
      have := (hmem a).mp (by rw [hL]; simp)
      rw [this]
    | a :: b :: t, hn =>
      have ha := (hmem a).mp (by rw [hL]; simp)
      have hb := (hmem b).mp (by rw [hL]; simp)
      rw [List.nodup_cons] at hn
      exact absurd (by rw [ha, hb]; simp) hn.1

/-- Every primitive change leaves `victorySecured` true if it was true. -/
theorem victorySecured_apply (env : Env) (e : Effect) (v : World)
    (h : v.victorySecured = true) : (e.apply env v).victorySecured = true := by
  cases e <;>
    simp [Effect.apply, World.log, World.setRnd, World.setCooldown, World.setTarget,
      World.setCombatTarget, World.setPos, World.subHp, World.setDead, World.decAmmo,
      World.decHangar, World.setUnit, pushUnit, pushMissile, pushExplosion, World.setAlerted,
      World.setProgress, World.setMissileDead, World.setMissile, World.sweepUnits,
      World.sweepMissiles, World.ageExplosions, World.declareVictory, World.setDefcon, h]

/-- Counterexample to claim C9 as stated ("over a run the Victory Tracker
makes that declaration exactly once"): in the world `lastStand` the victory
condition holds (top alert level, `NA` and `EU` alerted, only `NA` owns a
live unit), and a run of two ticks executes the victory branch of
`checkVictory` twice, once per tick. -/
theorem C9_counterexample :
    lastStand.defcon = 1 ∧ lastStand.trace = [] ∧
    ∃ w, run sampleEnv [.tick, .tick] lastStand = some w ∧
      w.trace.count (.victory .NA) = 2 :=
  ⟨rfl, rfl, _, rfl, by decide⟩

/-- Claim C9, amended: when `checkVictory` runs with `defcon = 1`, at least
two factions other than `ROGUE` alerted and exactly one faction other than
`ROGUE` owning a live unit, it sets `victorySecured` and declares that faction
the winner, and it does so on every such call (every tick on which the
condition holds), not once per run; in every other case it changes nothing;
and over a run `victorySecured`, once true, stays true. -/
theorem C9_checkVictory_declares_sole_survivor (env : Env) (w : World) :
    (∀ f, w.defcon = 1 → TwoAlerted w → SoleSurvivor w f →
      (checkVictory w).victorySecured = true ∧
      (checkVictory w).trace = w.trace ++ [.victory f]) ∧
    (¬ (w.defcon = 1 ∧ TwoAlerted w ∧ ∃ f, SoleSurvivor w f) → checkVictory w = w) ∧
    (∀ (inputs : List Input) (w' : World), run env inputs w = some w' →
      w.victorySecured = true → w'.victorySecured = true) := by
  refine ⟨?_, ?_, ?_⟩
  · intro f hd ha hs
    have h1 := (activeFactions_single_iff w f).mpr hs
    have h2 := (alertedCount_two_iff w).mpr ha
    unfold checkVictory
    rw [if_neg (by simp [hd]), h1]
    simp only
    rw [if_pos h2]
    exact ⟨rfl, rfl⟩
  · intro hn
    unfold checkVictory
    by_cases hd : w.defcon ≠ 1
    · rw [if_pos hd]
    · rw [if_neg hd]
      split
      · rename_i winner ha
        by_cases hc : alertedCount w ≥ 2
        · exact absurd ⟨not_not.mp hd, (alertedCount_two_iff w).mp hc, winner,
            (activeFactions_single_iff w winner).mp ha⟩ hn
        · rw [if_neg hc]
      · rfl
  · intro inputs w' hrun hv
    exact (run_evolves env inputs w w' hrun).inv (fun v => v.victorySecured = true)
      (fun e v _ _ hv' => victorySecured_apply env e v hv') hv

/-- The first part of claim C9 in the world `lastStand`. -/
theorem C9_witness :
    (lastStand.defcon = 1 ∧ TwoAlerted lastStand ∧ SoleSurvivor lastStand .NA) ∧
    (checkVictory lastStand).victorySecured = true ∧
    (checkVictory lastStand).trace = lastStand.trace ++ [.victory .NA] := by
  have ha : TwoAlerted lastStand := ⟨.NA, .EU, by decide, by decide, by decide, rfl, rfl⟩
  have hs : SoleSurvivor lastStand .NA := by
    refine ⟨by decide, ⟨0, by simp [lastStand], rfl, rfl⟩, ?_⟩
    intro id hid _ _
    have h0 : id = 0 := by simpa [lastStand] using hid
    subst h0
    rfl
  exact ⟨⟨rfl, ha, hs⟩,
    (C9_checkVictory_declares_sole_survivor sampleEnv lastStand).1 .NA rfl ha hs⟩

/-! ## Health of units -/

/-- Claim C3 fails on the code: in the world `bombRun` the silo 1 is dead
with `hp = -500`, and the `update()` of the bomber 0, which drops its bomb on
the silo's position, lowers the health of the dead silo to `-700`: the loop of
`dropBomb` calls `takeDamage` without the test `!u.dead` that the loop of
`checkImpact` makes. -/
theorem C3_dead_unit_takes_bomb_damage :
    ((bombRun.heap 1).dead = true ∧ (bombRun.heap 1).hp = -500 ∧ 1 ∈ bombRun.units) ∧
    (Unit.update sampleEnv 0 bombRun).map (fun w => ((w.heap 1).hp, (w.heap 1).dead))
      = some (-700, true) := by
  decide!

/-! ## Which entities a tick updates -/

theorem apply_trace (env : Env) (e : Effect) (v : World) :
    (e.apply env v).trace = v.trace ++ e.events := by
  cases e <;>
    simp [Effect.apply, Effect.events, World.log, World.setRnd, World.setCooldown,
      World.setTarget, World.setCombatTarget, World.setPos, World.subHp, World.setDead,
      World.decAmmo, World.decHangar, World.setUnit, pushUnit, pushMissile, pushExplosion,
      World.setAlerted, World.setProgress, World.setMissileDead, World.setMissile,
      World.sweepUnits, World.sweepMissiles, World.ageExplosions, World.declareVictory,
      World.setDefcon]

/-- The trace only grows, by events of changes in `K`. -/
theorem Evolves.trace {env : Env} {K : Effect → Prop} {w w' : World}
    (h : Evolves env K w w') :
    ∃ es, w'.trace = w.trace ++ es ∧ ∀ ev ∈ es, ∃ e, K e ∧ ev ∈ e.events := by
  induction h with
  | refl => exact ⟨[], by simp, fun _ h => absurd h (List.not_mem_nil _)⟩
  | step e _ hk _ ih =>
    obtain ⟨es, h1, h2⟩ := ih
    refine ⟨es ++ e.events, by rw [apply_trace, h1, List.append_assoc], ?_⟩
    intro ev hev
    rcases List.mem_append.mp hev with h | h
    · exact h2 ev h
    · exact ⟨e, hk, h⟩

theorem ofUnit_events (id : ℕ) (e : Effect) (h : e.ofUnit id) (ev : Event)
    (hev : ev ∈ e.events) :
    (∀ j, ev = .unitUpdate j → j = id) ∧ (∀ m, ev ≠ .missileUpdate m) := by
  rcases h with rfl | ⟨c, rfl⟩ | h | rfl | ⟨t, f, lon, lat, rfl⟩ | h | ⟨x, y, f, rfl⟩ | h
  · simp only [Effect.events, List.mem_singleton] at hev
    subst hev
    exact ⟨fun j hj => (Event.unitUpdate.inj hj).symm, fun m hm => by cases hm⟩
  · simp [Effect.events] at hev
  · cases e <;> simp [Effect.steers] at h <;> simp [Effect.events] at hev
  · simp [Effect.events] at hev
  · simp [Effect.events] at hev
  · cases e <;> simp [Effect.launches] at h <;> simp [Effect.events] at hev
  · simp only [Effect.events, List.mem_singleton] at hev
    subst hev
    exact ⟨fun j hj => (by cases hj), fun m hm => (by cases hm)⟩
  · rcases h with ⟨x, y, a, rfl⟩ | h | ⟨f, rfl⟩ | ⟨f, h⟩
    · simp only [Effect.events, List.mem_singleton] at hev
      subst hev
      exact ⟨fun j hj => (by cases hj), fun m hm => (by cases hm)⟩
    · cases e <;> simp [Effect.harms] at h <;> simp only [Effect.events, List.mem_singleton,
        List.not_mem_nil] at hev
      subst hev
      exact ⟨fun j hj => (by cases hj), fun m hm => (by cases hm)⟩
    · simp only [Effect.events, List.mem_singleton] at hev
      subst hev
      exact ⟨fun j hj => (by cases hj), fun m hm => (by cases hm)⟩
    · cases e <;> simp [Effect.musters] at h <;> simp [Effect.events] at hev

theorem ofMissile_events (id : ℕ) (e : Effect) (h : e.ofMissile id) (ev : Event)
    (hev : ev ∈ e.events) : ∀ j, ev ≠ .unitUpdate j := by
  rcases h with rfl | ⟨p, rfl⟩ | rfl | ⟨x, y, f, rfl⟩ | h
  · simp only [Effect.events, List.mem_singleton] at hev
    subst hev
    exact fun j hj => by cases hj
  · simp [Effect.events] at hev
  · simp [Effect.events] at hev
  · simp only [Effect.events, List.mem_singleton] at hev
    subst hev
    exact fun j hj => by cases hj
  · rcases h with ⟨x, y, a, rfl⟩ | h | ⟨f, rfl⟩ | ⟨f, h⟩
    · simp only [Effect.events, List.mem_singleton] at hev
      subst hev
      exact fun j hj => by cases hj
    · cases e <;> simp [Effect.harms] at h <;> simp only [Effect.events, List.mem_singleton,
        List.not_mem_nil] at hev
      subst hev
      exact fun j hj => by cases hj
    · simp only [Effect.events, List.mem_singleton] at hev
      subst hev
      exact fun j hj => by cases hj
    · cases e <;> simp [Effect.musters] at h <;> simp [Effect.events] at hev

theorem launches_missiles (env : Env) (id : ℕ) (e : Effect) (h : e.launches id) (v : World) :
    ((e.apply env v).nextMissile = v.nextMissile ∧ (e.apply env v).missiles = v.missiles) ∨
    ((e.apply env v).nextMissile = v.nextMissile + 1 ∧
      (e.apply env v).missiles = v.missiles ++ [v.nextMissile]) := by
  cases e <;> simp [Effect.launches] at h <;>
    simp [Effect.apply, World.setRnd, World.decAmmo, World.setCooldown, World.setUnit,
      pushMissile]

theorem strikes_missiles (env : Env) (src : Source) (e : Effect) (h : e.strikes src)
    (v : World) :
    (e.apply env v).nextMissile = v.nextMissile ∧ (e.apply env v).missiles = v.missiles := by
  rcases h with ⟨x, y, a, rfl⟩ | h | ⟨f, rfl⟩ | ⟨f, h⟩
  · exact ⟨rfl, rfl⟩
  · exact ⟨(harms_keep env e h v).2.2.2.2.2.2.2, (harms_keep env e h v).2.2.2.2.2.1⟩
  · exact ⟨rfl, rfl⟩
  · cases e <;> simp [Effect.musters] at h <;> simp [Effect.apply, World.setRnd, pushUnit]

theorem ofUnit_missiles (env : Env) (id : ℕ) (e : Effect) (h : e.ofUnit id) (v : World) :
    ((e.apply env v).nextMissile = v.nextMissile ∧ (e.apply env v).missiles = v.missiles) ∨
    ((e.apply env v).nextMissile = v.nextMissile + 1 ∧
      (e.apply env v).missiles = v.missiles ++ [v.nextMissile]) := by
  rcases h with rfl | ⟨c, rfl⟩ | h | rfl | ⟨t, f, lon, lat, rfl⟩ | h | ⟨x, y, f, rfl⟩ | h
  · exact Or.inl ⟨rfl, rfl⟩
  · exact Or.inl ⟨rfl, rfl⟩
  · cases e <;> simp [Effect.steers] at h <;> exact Or.inl ⟨rfl, rfl⟩
  · exact Or.inl ⟨rfl, rfl⟩
  · exact Or.inl ⟨rfl, rfl⟩
  · exact launches_missiles env id e h v
  · exact Or.inl ⟨rfl, rfl⟩
  · exact Or.inl (strikes_missiles env _ e h v)

theorem ofMissile_missiles (env : Env) (id : ℕ) (e : Effect) (h : e.ofMissile id)
    (v : World) :
    (e.apply env v).nextMissile = v.nextMissile ∧ (e.apply env v).missiles = v.missiles := by
  rcases h with rfl | ⟨p, rfl⟩ | rfl | ⟨x, y, f, rfl⟩ | h
  · exact ⟨rfl, rfl⟩
  · exact ⟨rfl, rfl⟩
  · exact ⟨rfl, rfl⟩
  · exact ⟨rfl, rfl⟩
  · exact strikes_missiles env _ e h v

/-- The missiles created during the unit pass are in `missiles` after it. -/
theorem updateUnits_missiles (env : Env) (l : List ℕ) (w w1 : World)
    (h : updateUnits env l w = some w1) :
    w.nextMissile ≤ w1.nextMissile ∧
    ∀ mid, w.nextMissile ≤ mid → mid < w1.nextMissile → mid ∈ w1.missiles := by
  refine Evolves.rel
    (fun a b => a.nextMissile ≤ b.nextMissile ∧
      ∀ mid, a.nextMissile ≤ mid → mid < b.nextMissile → mid ∈ b.missiles)
    (updateUnits_evolves env l w w1 h) ⟨le_rfl, fun mid h1 h2 => by omega⟩ ?_
  rintro e v ⟨id, _, hk⟩ _ ⟨h1, h2⟩
  rcases ofUnit_missiles env id e hk v with ⟨hn, hm⟩ | ⟨hn, hm⟩
  · rw [hn, hm]; exact ⟨h1, h2⟩
  · rw [hn, hm]
    refine ⟨by omega, fun mid h3 h4 => ?_⟩
    by_cases h5 : mid = v.nextMissile
    · rw [h5]; simp
    · exact List.mem_append_left _ (h2 mid h3 (by omega))

theorem updateUnits_trace (env : Env) (l : List ℕ) (w w1 : World)
    (h : updateUnits env l w = some w1) :
    ∃ es, w1.trace = w.trace ++ es ∧ (∀ j, Event.unitUpdate j ∈ es → j ∈ l) ∧
      ∀ m, Event.missileUpdate m ∉ es := by
  obtain ⟨es, h1, h2⟩ := (updateUnits_evolves env l w w1 h).trace
  refine ⟨es, h1, fun j hj => ?_, fun m hm => ?_⟩
  · obtain ⟨e, ⟨id, hid, hk⟩, hev⟩ := h2 _ hj
    rw [(ofUnit_events id e hk _ hev).1 j rfl]
    exact hid
  · obtain ⟨e, ⟨id, _, hk⟩, hev⟩ := h2 _ hm
    exact (ofUnit_events id e hk _ hev).2 m rfl

theorem missileUpdate_after_log (env : Env) (id : ℕ) (w w' : World)
    (h : Missile.update env id w = some w') :
    Evolves env (Effect.ofMissile id) (w.log (.missileUpdate id)) w' := by
  unfold Missile.update at h
  simp only at h
  have h1 : Evolves env (Effect.ofMissile id) (w.log (.missileUpdate id))
      ((w.log (.missileUpdate id)).setProgress id
        (((w.log (.missileUpdate id)).mheap id).progress
          + ((w.log (.missileUpdate id)).mheap id).speed)) :=
    Evolves.one (.setProgress id _) (Or.inr (Or.inl ⟨_, rfl⟩)) (Or.inl rfl)
  split_ifs at h with hp
  · exact h1.trans (arrive_evolves env id _ w' hp h)
  · cases h; exact h1

theorem updateMissiles_trace (env : Env) :
    ∀ (l : List ℕ) (w w' : World), updateMissiles env l w = some w' →
      w'.nextMissile = w.nextMissile ∧
      ∃ es, w'.trace = w.trace ++ es ∧ (∀ mid ∈ l, Event.missileUpdate mid ∈ es) ∧
        ∀ j, Event.unitUpdate j ∉ es := by
  intro l
  induction l with
  | nil =>
    intro w w' h
    cases h
    exact ⟨rfl, [], by simp, fun _ hm => absurd hm (List.not_mem_nil _),
      fun _ hj => absurd hj (List.not_mem_nil _)⟩
  | cons id rest ih =>
    intro w w' h
    unfold updateMissiles at h
    split at h
    · cases h
    · rename_i w1 hu
      have hev := missileUpdate_after_log env id w w1 hu
      obtain ⟨es1, t1, p1⟩ := hev.trace
      have n1 : w1.nextMissile = w.nextMissile := by
        have t := Evolves.frame (fun v => v.nextMissile) hev
          (fun e he v => (ofMissile_missiles env id e he v).1)
        exact t
      obtain ⟨n2, es2, t2, p2, q2⟩ := ih w1 w' h
      refine ⟨n2.trans n1, Event.missileUpdate id :: es1 ++ es2, ?_, ?_, ?_⟩
      · rw [t2, t1]
        simp [World.log]
      · intro mid hmid
        rcases List.mem_cons.mp hmid with rfl | hmid
        · simp
        · exact List.mem_append_right _ (p2 mid hmid)
      · intro j hj
        rcases List.mem_append.mp hj with hj | hj
        · rcases List.mem_cons.mp hj with hj | hj
          · cases hj
          · obtain ⟨e, hk, he⟩ := p1 _ hj
            exact ofMissile_events id e hk _ he j rfl
        · exact q2 j hj

theorem checkVictory_trace (env : Env) (w : World) :
    (checkVictory w).nextMissile = w.nextMissile ∧
    ∃ es, (checkVictory w).trace = w.trace ++ es ∧ ∀ j, Event.unitUpdate j ∉ es := by
  have hev := checkVictory_evolves env w
  refine ⟨Evolves.frame (fun v => v.nextMissile) hev ?_, ?_⟩
  · rintro e ⟨f, rfl⟩ v
    rfl
  · obtain ⟨es, h1, h2⟩ := hev.trace
    refine ⟨es, h1, fun j hj => ?_⟩
    obtain ⟨e, ⟨f, rfl⟩, he⟩ := h2 _ hj
    simp [Effect.events] at he

/-- Claim C4, amended: in every tick of `animate`, no unit appended to `units`
during the tick (carrier-spawned aircraft, mobilization units) has its
`update()` executed in that tick: the calls of `update()` on units are on the
references that `units` held when the tick began, all allocated before it;
but every missile created during the tick, appended to `missiles` by a
unit's `launchMissile`, does have its `update()` executed in that same tick,
by the missile pass that follows the unit pass. -/
theorem C4_units_wait_missiles_do_not (env : Env) (w w' : World)
    (hwf : ∀ id ∈ w.units, id < w.nextUnit) (h : animate env w = some w') :
    ∃ es, w'.trace = w.trace ++ es ∧
      (∀ id, Event.unitUpdate id ∈ es → id ∈ w.units) ∧
      (∀ id, w.nextUnit ≤ id → Event.unitUpdate id ∉ es) ∧
      (∀ mid, w.nextMissile ≤ mid → mid < w'.nextMissile → Event.missileUpdate mid ∈ es) := by
  unfold animate at h
  split at h
  · cases h
  · rename_i w1 h1
    split at h
    · cases h
    · rename_i w2 h2
      cases h
      obtain ⟨es1, t1, p1, _⟩ := updateUnits_trace env _ w w1 h1
      have m1 := updateUnits_missiles env _ w w1 h1
      obtain ⟨n2, es2, t2, p2, q2⟩ := updateMissiles_trace env _ _ w2 h2
      obtain ⟨n3, es3, t3, q3⟩ := checkVictory_trace env w2.sweepMissiles.ageExplosions
      have hu : ∀ id, Event.unitUpdate id ∈ es1 ++ es2 ++ es3 → id ∈ w.units := by
        intro id hid
        rcases List.mem_append.mp hid with hid | hid
        · rcases List.mem_append.mp hid with hid | hid
          · exact p1 id hid
          · exact absurd hid (q2 id)
        · exact absurd hid (q3 id)
      refine ⟨es1 ++ es2 ++ es3, ?_, hu, ?_, ?_⟩
      · rw [t3]
        show w2.trace ++ es3 = _
        rw [t2]
        show w1.trace ++ es2 ++ es3 = _
        rw [t1]
        simp
      · intro id hid hmem
        have := hwf id (hu id hmem)
        omega
      · intro mid hlo hhi
        rw [n3] at hhi
        have hhi' : mid < w1.nextMissile := by
          have : w2.sweepMissiles.ageExplosions.nextMissile = w2.nextMissile := rfl
          rw [this, n2] at hhi
          exact hhi
        have := p2 mid (m1.2 mid hlo hhi')
        exact List.mem_append_left _ (List.mem_append_right _ this)

/-- Counterexample to claim C4 as stated: in the world `siloReady` there is
no missile (`missiles = []`, none allocated); in one tick the silo 0 launches
missile 0, and the same tick calls `update()` on that missile: the trace of
the tick is the call on the unit followed by the call on the missile, and
the progress of the missile has advanced from 0 by its speed. -/
theorem C4_counterexample :
    (siloReady.missiles = [] ∧ siloReady.nextMissile = 0 ∧ siloReady.trace = []) ∧
    (animate sampleEnv siloReady).map
        (fun w => (w.missiles, w.trace, (w.mheap 0).progress, (w.mheap 0).speed))
      = some ([0], [.unitUpdate 0, .missileUpdate 0], 9 / 2000, 9 / 2000) := by
  decide!

/-- The amended claim C4 on the tick in which the silo launches. -/
theorem C4_witness :
    (∀ id ∈ siloReady.units, id < siloReady.nextUnit) ∧
    ∃ w', animate sampleEnv siloReady = some w' ∧
      ∃ es, w'.trace = siloReady.trace ++ es ∧
        (∀ id, Event.unitUpdate id ∈ es → id ∈ siloReady.units) ∧
        (∀ id, siloReady.nextUnit ≤ id → Event.unitUpdate id ∉ es) ∧
        (∀ mid, siloReady.nextMissile ≤ mid → mid < w'.nextMissile →
          Event.missileUpdate mid ∈ es) := by
  have hwf : ∀ id ∈ siloReady.units, id < siloReady.nextUnit := by
    simp [siloReady]
  obtain ⟨w', h⟩ := animate_total sampleEnv sampleEnv_random siloReady
  exact ⟨hwf, w', h, C4_units_wait_missiles_do_not sampleEnv siloReady w' hwf h⟩

/-! ## Missiles -/

theorem quiet_view (env : Env) (e : Effect) (h : e.quiet) (v : World) :
    missileView (e.apply env v) = missileView v := by
  unfold missileView missileEvents
  rw [apply_trace]
  have hev : ∀ mid, e.events.filter (Event.fromMissile mid) = [] := by
    intro mid
    cases e with
    | log ev =>
      cases ev with
      | explosion src x y f =>
        cases src with
        | unit id => simp [Effect.events, Event.fromMissile]
        | missile id => exact absurd h (fun hq => hq)
      | impact src x y f =>
        cases src with
        | unit id => simp [Effect.events, Event.fromMissile]
        | missile id => exact absurd h (fun hq => hq)
      | _ => simp [Effect.events, Event.fromMissile]
    | pushExplosion src x y f =>
      cases src with
      | unit id => simp [Effect.events, Event.fromMissile]
      | missile id => exact absurd h (fun hq => hq)
    | _ => simp [Effect.events, Event.fromMissile]
  have hm : (e.apply env v).mheap = v.mheap ∧ (e.apply env v).missiles = v.missiles ∧
      (e.apply env v).nextMissile = v.nextMissile := by
    cases e <;> simp [Effect.quiet] at h <;>
      simp [Effect.apply, World.log, World.setRnd, World.setCooldown,
        World.setTarget, World.setCombatTarget, World.setPos, World.subHp, World.setDead,
        World.decAmmo, World.decHangar, World.setUnit, pushUnit, pushExplosion,
        World.setAlerted, World.sweepUnits, World.ageExplosions, World.declareVictory,
        World.setDefcon]
  rw [hm.1, hm.2.1, hm.2.2]
  simp only [List.filter_append, hev, List.append_nil]

theorem harms_quiet (e : Effect) (h : e.harms) : e.quiet := by
  cases e with
  | pushExplosion src x y f =>
    cases src with
    | unit id => trivial
    | missile id => exact absurd h (fun hq => hq)
  | _ => trivial

theorem rallies_quiet (e : Effect) (h : e.rallies) : e.quiet := by
  rcases h with ⟨f, rfl⟩ | ⟨f, h⟩
  · trivial
  · cases e <;> trivial

theorem ofUnit_quiet (id : ℕ) (e : Effect) (h : e.ofUnit id) :
    e.quiet ∨ ∃ a b c d f, e = .pushMissile a b c d f := by
  rcases h with rfl | ⟨c, rfl⟩ | h | rfl | ⟨t, f, lon, lat, rfl⟩ | h | ⟨x, y, f, rfl⟩ | h
  · exact Or.inl trivial
  · exact Or.inl trivial
  · cases e <;> first | exact Or.inl trivial | exact absurd h (by simp [Effect.steers])
  · exact Or.inl trivial
  · exact Or.inl trivial
  · cases e <;> first
      | exact Or.inr ⟨_, _, _, _, _, rfl⟩
      | exact Or.inl trivial
      | exact absurd h (by simp [Effect.launches])
  · exact Or.inl trivial
  · rcases h with ⟨x, y, a, rfl⟩ | h | h
    · exact Or.inl trivial
    · exact Or.inl (harms_quiet e h)
    · exact Or.inl (rallies_quiet e h)

/-- A sequence of changes that do not concern the missiles leaves the
missiles and their events as they are. -/
theorem Evolves.view {env : Env} {K : Effect → Prop} {w w' : World}
    (h : Evolves env K w w') (hK : ∀ e, K e → e.quiet) :
    w'.mheap = w.mheap ∧ w'.missiles = w.missiles ∧ w'.nextMissile = w.nextMissile ∧
    ∀ mid, missileEvents mid w' = missileEvents mid w := by
  have hv := Evolves.frame missileView h (fun e he v => quiet_view env e (hK e he) v)
  simp only [missileView, Prod.mk.injEq] at hv
  exact ⟨hv.1, hv.2.1, hv.2.2.1, fun mid => congrFun hv.2.2.2 mid⟩

/-- The effect of `update()` of missile `id` on the missiles and their
events. -/
theorem missileUpdate_view (env : Env) (id : ℕ) (v v' : World)
    (h : Missile.update env id v = some v') :
    v'.missiles = v.missiles ∧ v'.nextMissile = v.nextMissile ∧
    (((v.mheap id).progress + (v.mheap id).speed ≥ 1 ∧
      v'.mheap = Function.update v.mheap id { v.mheap id with progress := 1, dead := true } ∧
      ∀ mid, missileEvents mid v' =
        missileEvents mid v ++ (if mid = id then arrivalEvents id v else [])) ∨
     (¬ (v.mheap id).progress + (v.mheap id).speed ≥ 1 ∧
      v'.mheap = Function.update v.mheap id
        { v.mheap id with progress := (v.mheap id).progress + (v.mheap id).speed } ∧
      ∀ mid, missileEvents mid v' = missileEvents mid v)) := by
  unfold Missile.update at h
  simp only at h
  by_cases hp : (((v.log (.missileUpdate id)).setProgress id
      (((v.log (.missileUpdate id)).mheap id).progress
        + ((v.log (.missileUpdate id)).mheap id).speed)).mheap id).progress ≥ 1
  · rw [if_pos hp] at h
    have hp' : (v.mheap id).progress + (v.mheap id).speed ≥ 1 := by
      simpa [World.setProgress, World.setMissile, World.log] using hp
    unfold Missile.arrive checkImpact at h
    simp only at h
    have hq := ((impactDamage_evolves env _ _ _).mono harms_quiet).trans
      ((escalate_evolves env _ _ _ v' (victimOf_ne_rogue env _ _) h).mono rallies_quiet)
    obtain ⟨h1, h2, h3, h4⟩ := hq.view (fun _ he => he)
    refine ⟨h2, h3, Or.inl ⟨hp', ?_, ?_⟩⟩
    · rw [h1]
      funext mid
      by_cases hm : mid = id
      · subst hm
        simp [World.log, pushExplosion, World.setMissileDead, World.setProgress,
          World.setMissile]
      · simp [World.log, pushExplosion, World.setMissileDead, World.setProgress,
          World.setMissile, Function.update_noteq hm]
    · intro mid
      rw [h4]
      by_cases hm : mid = id
      · subst hm
        simp [missileEvents, arrivalEvents, World.log, pushExplosion, World.setMissileDead,
          World.setProgress, World.setMissile, List.filter_append, Event.fromMissile]
      · have hm' : ¬ id = mid := fun hh => hm hh.symm
        simp [missileEvents, World.log, pushExplosion, World.setMissileDead,
          World.setProgress, World.setMissile, List.filter_append, Event.fromMissile, hm, hm']
  · rw [if_neg hp] at h
    cases h
    have hp' : ¬ (v.mheap id).progress + (v.mheap id).speed ≥ 1 := by
      simpa [World.setProgress, World.setMissile, World.log] using hp
    refine ⟨rfl, rfl, Or.inr ⟨hp', rfl, ?_⟩⟩
    intro mid
    simp [missileEvents, World.log, World.setProgress, World.setMissile, List.filter_append,
      Event.fromMissile]

theorem MissileOk.of_eq {lo : ℕ → ℚ} {n0 : ℕ} {v v' : World} {mid : ℕ}
    (h : MissileOk lo n0 v mid) (hm : v'.mheap mid = v.mheap mid)
    (hn : v'.nextMissile = v.nextMissile) (he : missileEvents mid v' = missileEvents mid v) :
    MissileOk lo n0 v' mid := by
  unfold MissileOk arrivalEvents at h ⊢
  rw [hm, hn, he]
  exact h

/-- One iteration of the missile pass keeps the invariant of the pass. -/
theorem MissilesMid.update {env : Env} {lo : ℕ → ℚ} {n0 id : ℕ} {rest : List ℕ}
    {v v' : World} (h : MissilesMid lo n0 (id :: rest) v)
    (hu : Missile.update env id v = some v') : MissilesMid lo n0 rest v' := by
  obtain ⟨hm, hn, hcase⟩ := missileUpdate_view env id v v' hu
  obtain ⟨a1, a2, a3, a4, a5, a6⟩ := h
  have hid := a5 id (List.mem_cons_self _ _)
  obtain ⟨s0, p0, p1, hd, hlo, hev⟩ := a6 id
  have hnot : id ∉ rest := (List.nodup_cons.mp a4).1
  have hp1 : (v.mheap id).progress ≠ 1 := fun hh => by
    have := hd.mpr hh
    rw [hid.2] at this
    cases this
  have hev0 : missileEvents id v = [] := by
    rw [hev, hid.2]
    simp
  have hother : ∀ mid, mid ≠ id → v'.mheap mid = v.mheap mid := by
    intro mid hne
    rcases hcase with ⟨_, hh, _⟩ | ⟨_, hh, _⟩ <;> rw [hh, Function.update_noteq hne]
  refine ⟨by rw [hn]; exact a1, by rw [hm]; exact a2, by rw [hm, hn]; exact a3,
    (List.nodup_cons.mp a4).2, ?_, ?_⟩
  · intro mid hmid
    have hne : mid ≠ id := fun hh => hnot (hh ▸ hmid)
    rw [hm, hother mid hne]
    exact a5 mid (List.mem_cons_of_mem _ hmid)
  · intro mid
    by_cases hne : mid = id
    · subst hne
      rcases hcase with ⟨hge, hh, hevs⟩ | ⟨hlt, hh, hevs⟩
      · unfold MissileOk arrivalEvents
        rw [hh, hevs, hn, hev0]
        simp only [Function.update_same, if_true, List.nil_append, arrivalEvents]
        refine ⟨s0, by norm_num, le_refl _, by simp, fun hh' => le_trans (hlo hh') p1, ?_⟩
        rw [if_pos ⟨a3 mid hid.1, trivial⟩]
      · unfold MissileOk
        rw [hh, hevs, hn, hev0]
        simp only [Function.update_same]
        have hlt' : (v.mheap mid).progress + (v.mheap mid).speed < 1 := not_le.mp hlt
        refine ⟨s0, by linarith, hlt'.le, ?_, fun hh' => by linarith [hlo hh'], ?_⟩
        · rw [hid.2]
          constructor
          · intro hc; cases hc
          · intro hc; linarith
        · rw [hid.2]
          simp
    · refine (a6 mid).of_eq (hother mid hne) hn ?_
      rcases hcase with ⟨_, _, hevs⟩ | ⟨_, _, hevs⟩
      · rw [hevs, if_neg hne, List.append_nil]
      · exact hevs mid

theorem MissilesMid.pass {env : Env} {lo : ℕ → ℚ} {n0 : ℕ} :
    ∀ (l : List ℕ) (v v' : World), MissilesMid lo n0 l v →
      updateMissiles env l v = some v' → MissilesMid lo n0 [] v' := by
  intro l
  induction l with
  | nil => intro v v' h hu; cases hu; exact h
  | cons id rest ih =>
    intro v v' h hu
    unfold updateMissiles at hu
    split at hu
    · cases hu
    · rename_i v1 h1
      exact ih v1 v' (h.update h1) hu

theorem MissilesMid.of_same_view {lo : ℕ → ℚ} {n0 : ℕ} {rest : List ℕ} {v v' : World}
    (h : MissilesMid lo n0 rest v)
    (hv : v'.mheap = v.mheap ∧ v'.missiles = v.missiles ∧ v'.nextMissile = v.nextMissile ∧
      ∀ mid, missileEvents mid v' = missileEvents mid v) :
    MissilesMid lo n0 rest v' := by
  obtain ⟨a1, a2, a3, a4, a5, a6⟩ := h
  obtain ⟨h1, h2, h3, h4⟩ := hv
  refine ⟨by rw [h3]; exact a1, by rw [h2]; exact a2, by rw [h2, h3]; exact a3, a4, ?_, ?_⟩
  · intro mid hmid
    rw [h1, h2]
    exact a5 mid hmid
  · intro mid
    exact (a6 mid).of_eq (by rw [h1]) h3 (h4 mid)

theorem MissilesOk.of_view {lo : ℕ → ℚ} {n0 : ℕ} {v v' : World} (h : MissilesOk lo n0 v)
    (hv : v'.mheap = v.mheap ∧ v'.missiles = v.missiles ∧ v'.nextMissile = v.nextMissile ∧
      ∀ mid, missileEvents mid v' = missileEvents mid v) :
    MissilesOk lo n0 v' := by
  unfold MissilesOk at h ⊢
  rw [hv.2.1]
  exact MissilesMid.of_same_view h hv

/-- A new missile keeps the invariant of the missiles. -/
theorem MissilesOk.launch {env : Env} {lo : ℕ → ℚ} {n0 : ℕ} {v : World}
    (h : MissilesOk lo n0 v) (hr : 0 ≤ v.draw env) (a b c d : ℚ) (f : FactionId) :
    MissilesOk lo n0 (pushMissile env a b c d f v) := by
  obtain ⟨a1, a2, a3, _, a5, a6⟩ := h
  have hfresh : v.nextMissile ∉ v.missiles := fun hh => absurd (a3 _ hh) (lt_irrefl _)
  have hmm : (pushMissile env a b c d f v).missiles = v.missiles ++ [v.nextMissile] := rfl
  have hnn : (pushMissile env a b c d f v).nextMissile = v.nextMissile + 1 := rfl
  have hnew : (pushMissile env a b c d f v).mheap v.nextMissile
      = Missile.new env a b c d f (v.draw env) := by
    simp [pushMissile]
  have hold : ∀ mid, mid ≠ v.nextMissile →
      (pushMissile env a b c d f v).mheap mid = v.mheap mid := by
    intro mid hne
    simp [pushMissile, Function.update_noteq hne]
  have hevs : ∀ mid, missileEvents mid (pushMissile env a b c d f v) = missileEvents mid v :=
    fun _ => rfl
  have hnodup : (v.missiles ++ [v.nextMissile]).Nodup := by
    rw [List.nodup_append]
    refine ⟨a2, List.nodup_singleton _, ?_⟩
    intro x hx hx'
    rw [List.mem_singleton] at hx'
    exact hfresh (hx' ▸ hx)
  unfold MissilesOk MissilesMid
  rw [hmm, hnn]
  refine ⟨Nat.le_succ_of_le a1, hnodup, ?_, hnodup, ?_, ?_⟩
  · intro mid hmid
    rcases List.mem_append.mp hmid with hh | hh
    · exact Nat.lt_succ_of_lt (a3 mid hh)
    · rw [List.mem_singleton] at hh
      omega
  · intro mid hmid
    refine ⟨hmid, ?_⟩
    rcases List.mem_append.mp hmid with hh | hh
    · have hne : mid ≠ v.nextMissile := fun hc => hfresh (hc ▸ hh)
      rw [hold mid hne]
      exact (a5 mid hh).2
    · rw [List.mem_singleton] at hh
      rw [hh, hnew]
      rfl
  · intro mid
    by_cases hne : mid = v.nextMissile
    · obtain ⟨_, _, _, _, _, hev⟩ := a6 mid
      have hev0 : missileEvents mid v = [] := by
        rw [hev, if_neg (by rw [hne]; simp)]
      unfold MissileOk
      rw [hevs, hev0, hne, hnew]
      simp only [Missile.new]
      refine ⟨by linarith, le_refl _, by norm_num, by simp, fun hlt => ?_, by simp⟩
      omega
    · obtain ⟨b1, b2, b3, b4, b5, b6⟩ := a6 mid
      unfold arrivalEvents at b6
      unfold MissileOk arrivalEvents
      rw [hevs, hold mid hne, hnn]
      refine ⟨b1, b2, b3, b4, b5, ?_⟩
      rw [b6]
      by_cases hdd : (v.mheap mid).dead = true
      · by_cases hlt : mid < v.nextMissile
        · rw [if_pos ⟨hlt, hdd⟩, if_pos ⟨Nat.lt_succ_of_lt hlt, hdd⟩]
        · have hev' := b6
          rw [if_neg (fun hc => hlt hc.1)]
          rw [if_neg]
          intro hc
          omega
      · rw [if_neg (fun hc => hdd hc.2), if_neg (fun hc => hdd hc.2)]

theorem quiet_parts (env : Env) (e : Effect) (h : e.quiet) (v : World) :
    (e.apply env v).mheap = v.mheap ∧ (e.apply env v).missiles = v.missiles ∧
    (e.apply env v).nextMissile = v.nextMissile ∧
    ∀ mid, missileEvents mid (e.apply env v) = missileEvents mid v := by
  have hv := quiet_view env e h v
  simp only [missileView, Prod.mk.injEq] at hv
  exact ⟨hv.1, hv.2.1, hv.2.2.1, fun mid => congrFun hv.2.2.2 mid⟩

theorem MissilesOk.updateUnits {env : Env} (hr : ∀ n, 0 ≤ env.random n) {lo : ℕ → ℚ} {n0 : ℕ}
    (l : List ℕ) {v v' : World} (h : MissilesOk lo n0 v)
    (hu : WarSim.updateUnits env l v = some v') : MissilesOk lo n0 v' := by
  refine (updateUnits_evolves env l v v' hu).inv (MissilesOk lo n0) ?_ h
  rintro e x ⟨id, _, hk⟩ _ hx
  rcases ofUnit_quiet id e hk with hq | ⟨a, b, c, d, f, rfl⟩
  · exact hx.of_view (quiet_parts env e hq x)
  · exact hx.launch (hr _) a b c d f

theorem MissilesOk.sweep {lo : ℕ → ℚ} {n0 : ℕ} {v : World} (h : MissilesMid lo n0 [] v) :
    MissilesOk lo n0 v.sweepMissiles := by
  obtain ⟨a1, a2, a3, _, _, a6⟩ := h
  have hn : (v.missiles.filter (fun id => !(v.mheap id).dead)).Nodup := a2.filter _
  refine ⟨a1, hn, ?_, hn, ?_, fun mid => (a6 mid).of_eq rfl rfl rfl⟩
  · intro mid hmid
    exact a3 mid (List.mem_filter.mp hmid).1
  · intro mid hmid
    refine ⟨hmid, ?_⟩
    have := (List.mem_filter.mp hmid).2
    simpa using this

/-- A tick keeps the invariant of the missiles. -/
theorem MissilesOk.animate {env : Env} (hr : ∀ n, 0 ≤ env.random n) {lo : ℕ → ℚ} {n0 : ℕ}
    {v v' : World} (h : MissilesOk lo n0 v) (ha : WarSim.animate env v = some v') :
    MissilesOk lo n0 v' := by
  unfold WarSim.animate at ha
  split at ha
  · cases ha
  · rename_i w1 h1
    split at ha
    · cases ha
    · rename_i w2 h2
      cases ha
      have k1 : MissilesOk lo n0 w1 := h.updateUnits hr _ h1
      have k2 : MissilesOk lo n0 w1.sweepUnits :=
        k1.of_view ⟨rfl, rfl, rfl, fun _ => rfl⟩
      have k3 : MissilesMid lo n0 [] w2 := MissilesMid.pass _ _ _ k2 h2
      have k4 : MissilesOk lo n0 w2.sweepMissiles.ageExplosions :=
        (MissilesOk.sweep k3).of_view ⟨rfl, rfl, rfl, fun _ => rfl⟩
      exact k4.of_view ((checkVictory_evolves env _).view (fun e ⟨f, hf⟩ => by rw [hf]; trivial))

theorem MissilesOk.run {env : Env} (hr : ∀ n, 0 ≤ env.random n) {lo : ℕ → ℚ} {n0 : ℕ} :
    ∀ (inputs : List Input) (v v' : World), MissilesOk lo n0 v →
      WarSim.run env inputs v = some v' → MissilesOk lo n0 v' := by
  intro inputs
  induction inputs with
  | nil => intro v v' h hr'; cases hr'; exact h
  | cons i rest ih =>
    intro v v' h hrun
    unfold WarSim.run at hrun
    split at hrun
    · cases hrun
    · rename_i v1 h1
      refine ih v1 v' ?_ hrun
      cases i with
      | tick => exact h.animate hr h1
      | setDefcon level =>
        cases h1
        exact h.of_view ⟨rfl, rfl, rfl, fun _ => rfl⟩
      | bombard =>
        cases h1
        unfold bombard
        have hadv : MissilesOk lo n0 v.advance := h.of_view ⟨rfl, rfl, rfl, fun _ => rfl⟩
        split
        · exact hadv
        · exact hadv.launch (hr _) _ _ _ _ _

theorem MissilesOk.at_load : MissilesOk (fun _ => 0) 0 World.initial := by
  refine ⟨le_refl _, List.nodup_nil, fun _ h => absurd h (List.not_mem_nil _), List.nodup_nil,
    fun _ h => absurd h (List.not_mem_nil _), fun mid => ?_⟩
  unfold MissileOk
  simp [World.initial, Missile.blank, missileEvents]

/-- Claim C6: over any run of the tick driver (with draws that are not
negative), from the start of the script or from any world in which the
missiles are in order, every missile's progress is non-decreasing and stays
in `[0, 1]`, a missile is dead exactly when its progress is 1, the missiles
in `missiles` are not dead, and the events a missile has triggered are none
while it is not dead and, once it is dead, exactly one explosion at its end
point followed by exactly one impact resolution at its end point with its
launching faction as aggressor. -/
theorem C6_missile_progress_and_single_impact (env : Env) (hr : ∀ n, 0 ≤ env.random n) :
    MissilesOk (fun _ => 0) 0 World.initial ∧
    ∀ (inputs : List Input) (w0 w : World),
      MissilesOk (fun mid => (w0.mheap mid).progress) w0.nextMissile w0 →
      run env inputs w0 = some w →
      (∀ mid ∈ w.missiles, mid < w.nextMissile ∧ (w.mheap mid).dead = false) ∧
      ∀ mid,
        0 ≤ (w.mheap mid).progress ∧ (w.mheap mid).progress ≤ 1 ∧
        ((w.mheap mid).dead = true ↔ (w.mheap mid).progress = 1) ∧
        (mid < w0.nextMissile → (w0.mheap mid).progress ≤ (w.mheap mid).progress) ∧
        missileEvents mid w =
          if mid < w.nextMissile ∧ (w.mheap mid).dead = true then
            [.explosion (.missile mid) (w.mheap mid).finish.x (w.mheap mid).finish.y
                (w.mheap mid).faction,
             .impact (.missile mid) (w.mheap mid).finish.x (w.mheap mid).finish.y
                (w.mheap mid).faction]
          else [] := by
  refine ⟨MissilesOk.at_load, ?_⟩
  intro inputs w0 w h0 hrun
  obtain ⟨_, _, a3, _, a5, a6⟩ := MissilesOk.run hr inputs w0 w h0 hrun
  refine ⟨fun mid hmid => ⟨a3 mid hmid, (a5 mid hmid).2⟩, fun mid => ?_⟩
  obtain ⟨_, b2, b3, b4, b5, b6⟩ := a6 mid
  exact ⟨b2, b3, b4, b5, b6⟩

theorem inbound_ok :
    MissilesOk (fun mid => (inbound.mheap mid).progress) inbound.nextMissile inbound := by
  have hm : inbound.missiles = [0] := rfl
  have hn : inbound.nextMissile = 1 := rfl
  have h0 : inbound.mheap 0 =
      { Missile.new sampleEnv (-100) 40 10 50 .NA (1 / 2) with progress := 999 / 1000 } := by
    simp [inbound]
  have hb : ∀ mid, mid ≠ 0 → inbound.mheap mid = Missile.blank := by
    intro mid hne
    simp [inbound, hne]
  have ht : ∀ mid, missileEvents mid inbound = [] := fun _ => rfl
  unfold MissilesOk MissilesMid
  rw [hm, hn]
  refine ⟨le_refl _, by simp, by simp, by simp, ?_, ?_⟩
  · intro mid hmid
    have : mid = 0 := by simpa using hmid
    subst this
    exact ⟨by simp, by rw [h0]; rfl⟩
  · intro mid
    unfold MissileOk
    rw [ht, hn]
    by_cases hne : mid = 0
    · subst hne
      simp only [h0, Missile.new]
      norm_num
    · simp only [hb mid hne]
      simp [Missile.blank, hne]

/-- Claim C6 on the tick in which the inbound missile arrives: it triggers
one explosion and one impact resolution at its end point `(210, 50)`. -/
theorem C6_witness :
    (∀ n, 0 ≤ sampleEnv.random n) ∧
    MissilesOk (fun mid => (inbound.mheap mid).progress) inbound.nextMissile inbound ∧
    (run sampleEnv [.tick] inbound).map
        (fun w => ((w.mheap 0).progress, (w.mheap 0).dead, w.missiles, missileEvents 0 w))
      = some (1, true, [], [.explosion (.missile 0) 210 50 .NA, .impact (.missile 0) 210 50 .NA]) ∧
    ∃ w, run sampleEnv [.tick] inbound = some w ∧
      (∀ mid ∈ w.missiles, mid < w.nextMissile ∧ (w.mheap mid).dead = false) ∧
      ∀ mid,
        0 ≤ (w.mheap mid).progress ∧ (w.mheap mid).progress ≤ 1 ∧
        ((w.mheap mid).dead = true ↔ (w.mheap mid).progress = 1) ∧
        (mid < inbound.nextMissile → (inbound.mheap mid).progress ≤ (w.mheap mid).progress) ∧
        missileEvents mid w =
          if mid < w.nextMissile ∧ (w.mheap mid).dead = true then
            [.explosion (.missile mid) (w.mheap mid).finish.x (w.mheap mid).finish.y
                (w.mheap mid).faction,
             .impact (.missile mid) (w.mheap mid).finish.x (w.mheap mid).finish.y
                (w.mheap mid).faction]
          else [] := by
  have hr : ∀ n, 0 ≤ sampleEnv.random n := fun n => (sampleEnv_random n).1
  obtain ⟨w, hw⟩ := run_total sampleEnv sampleEnv_random [.tick] inbound
  exact ⟨hr, inbound_ok, by decide!, w, hw,
    (C6_missile_progress_and_single_impact sampleEnv hr).2 [.tick] inbound w inbound_ok hw⟩

/-! ## Alert flags and mobilization -/

theorem isAlerted_apply (env : Env) (e : Effect) (v : World) (f : FactionId)
    (h : v.isAlerted f = true) : (e.apply env v).isAlerted f = true := by
  cases e <;>
    simp [Effect.apply, World.log, World.setRnd, World.setCooldown, World.setTarget,
      World.setCombatTarget, World.setPos, World.subHp, World.setDead, World.decAmmo,
      World.decHangar, World.setUnit, pushUnit, pushMissile, pushExplosion, World.setAlerted,
      World.setProgress, World.setMissileDead, World.setMissile, World.sweepUnits,
      World.sweepMissiles, World.ageExplosions, World.declareVictory, World.setDefcon,
      Function.update, h]

/-- An alert flag that is set stays set along a sequence of primitive
changes. -/
theorem Evolves.alerted {env : Env} {K : Effect → Prop} {w w' : World}
    (h : Evolves env K w w') (f : FactionId) (hf : w.isAlerted f = true) :
    w'.isAlerted f = true :=
  h.inv (fun v => v.isAlerted f = true) (fun e v _ _ hv => isAlerted_apply env e v f hv) hf

/-- Claim C12: every operation of the simulation (`Unit.update`,
`Missile.update`, `checkImpact`, `spawnFactionUnits`, `checkVictory`,
`animate`, and so every run) leaves a set alert flag set, for every faction,
and `ROGUE` is alerted in every state reachable from the state in which the
script is loaded. -/
theorem C12_alert_flag_is_never_cleared (env : Env) (f : FactionId) :
    (∀ id w w', Unit.update env id w = some w' → w.isAlerted f = true →
      w'.isAlerted f = true) ∧
    (∀ id w w', Missile.update env id w = some w' → w.isAlerted f = true →
      w'.isAlerted f = true) ∧
    (∀ src x y a w w', checkImpact env src x y a w = some w' → w.isAlerted f = true →
      w'.isAlerted f = true) ∧
    (∀ g w w', spawnFactionUnits env g w = some w' → w.isAlerted f = true →
      w'.isAlerted f = true) ∧
    (∀ w, w.isAlerted f = true → (checkVictory w).isAlerted f = true) ∧
    (∀ w w', animate env w = some w' → w.isAlerted f = true → w'.isAlerted f = true) ∧
    (∀ inputs w w', run env inputs w = some w' → w.isAlerted f = true →
      w'.isAlerted f = true) ∧
    (∀ inputs w', run env inputs World.initial = some w' → w'.isAlerted .ROGUE = true) := by
  refine ⟨?_, ?_, ?_, ?_, ?_, ?_, ?_, ?_⟩
  · intro id w w' h hf
    exact (update_evolves env id w w' h).alerted f hf
  · intro id w w' h hf
    exact (missileUpdate_evolves env id w w' h).alerted f hf
  · intro src x y a w w' h hf
    exact (checkImpact_evolves env src x y a w w' h).alerted f hf
  · intro g w w' h hf
    unfold spawnFactionUnits at h
    split at h
    · cases h
    · rename_i region _
      simp only [Option.some.injEq] at h
      subst h
      rw [(spawn_keep env region g .SILO (Or.inr (Or.inr rfl)) f _ _).2,
        (spawn_keep env region g .SUB (Or.inr (Or.inl rfl)) f _ _).2,
        (spawn_keep env region g .CARRIER (Or.inl rfl) f _ _).2]
      exact hf
  · intro w hf
    exact (checkVictory_evolves env w).alerted f hf
  · intro w w' h hf
    exact (animate_evolves env w w' h).alerted f hf
  · intro inputs w w' h hf
    exact (run_evolves env inputs w w' h).alerted f hf
  · intro inputs w' h
    exact (run_evolves env inputs _ w' h).alerted .ROGUE rfl

/-- Claim C12 on a run from the loaded script: a tick, a bombardment by the
user and another tick leave `ROGUE` alerted. -/
theorem C12_witness :
    ∃ w', run sampleEnv [.tick, .bombard, .tick] World.initial = some w' ∧
      w'.isAlerted .ROGUE = true := by
  obtain ⟨w', h⟩ := run_total sampleEnv sampleEnv_random [.tick, .bombard, .tick] World.initial
  exact ⟨w', h, (C12_alert_flag_is_never_cleared sampleEnv .ROGUE).2.2.2.2.2.2.2 _ w' h⟩

/-- What a guarded primitive change does to the alert flag of `f` and to the
number of mobilizations of `f`: either it is the mobilization of `f`, made
when `f` is not alerted, or it changes neither. -/
theorem mobilize_apply (env : Env) (e : Effect) (v : World) (f : FactionId)
    (hg : e.guard env v) :
    (v.isAlerted f = false ∧ (e.apply env v).isAlerted f = true ∧
      (e.apply env v).trace.count (.mobilize f) = v.trace.count (.mobilize f) + 1) ∨
    ((e.apply env v).isAlerted f = v.isAlerted f ∧
      (e.apply env v).trace.count (.mobilize f) = v.trace.count (.mobilize f)) := by
  cases e with
  | mobilize g =>
    by_cases hgf : g = f
    · subst hgf
      left
      exact ⟨hg.1, by simp [Effect.apply, World.setAlerted, World.log],
        by simp [Effect.apply, World.setAlerted, World.log, List.count_append]⟩
    · right
      have hfg : f ≠ g := fun h => hgf h.symm
      have h0 : List.count (Event.mobilize f) [Event.mobilize g] = 0 :=
        List.count_eq_zero.mpr (by simp [hfg])
      exact ⟨by simp [Effect.apply, World.setAlerted, World.log, Function.update, hfg],
        by simp [Effect.apply, World.setAlerted, World.log, List.count_append, h0]⟩
  | log ev =>
    right
    refine ⟨rfl, ?_⟩
    rcases hg with ⟨i, rfl⟩ | ⟨i, rfl⟩ | ⟨s, x, y, a, rfl⟩ <;>
      simp [Effect.apply, World.log, List.count_append]
  | _ =>
    right
    simp [Effect.apply, World.setRnd, World.setCooldown, World.setTarget,
      World.setCombatTarget, World.setPos, World.subHp, World.setDead, World.decAmmo,
      World.decHangar, World.setUnit, pushUnit, pushMissile, pushExplosion,
      World.setProgress, World.setMissileDead, World.setMissile, World.sweepUnits,
      World.sweepMissiles, World.ageExplosions, World.declareVictory, World.setDefcon,
      List.count_append]

/-- Along a sequence of guarded primitive changes the mobilizations of `f`
are counted by the alert flag of `f`: there is one exactly when the flag goes
from false to true. -/
theorem Evolves.mobilized {env : Env} {K : Effect → Prop} {w w' : World}
    (h : Evolves env K w w') (f : FactionId) :
    (w.isAlerted f = true → w'.isAlerted f = true) ∧
    w'.trace.count (.mobilize f) = w.trace.count (.mobilize f) +
      (if w.isAlerted f = false ∧ w'.isAlerted f = true then 1 else 0) := by
  refine h.rel (fun w v => (w.isAlerted f = true → v.isAlerted f = true) ∧
    v.trace.count (.mobilize f) = w.trace.count (.mobilize f) +
      (if w.isAlerted f = false ∧ v.isAlerted f = true then 1 else 0)) ?_ ?_
  · refine ⟨fun h => h, ?_⟩
    cases hw : w.isAlerted f <;> simp
  · intro e v _ hg ⟨hm, hc⟩
    rcases mobilize_apply env e v f hg with ⟨h1, h2, h3⟩ | ⟨h1, h2⟩
    · have hw : w.isAlerted f = false := by
        cases hw : w.isAlerted f
        · rfl
        · rw [hm hw] at h1; cases h1
      refine ⟨fun _ => h2, ?_⟩
      rw [h3, hc, h1, h2, hw]
      simp
    · rw [h1, h2]
      exact ⟨hm, hc⟩

/-- Claim C13: `spawnFactionUnits(f)` is invoked in a call of `checkImpact`
exactly when that call turns the alert flag of `f` from false to true, over
any run it is invoked exactly when the flag of `f` goes from false to true,
which no run does more than once, and in a run from the loaded script it is
invoked at most once for each faction. -/
theorem C13_mobilization_is_one_time (env : Env) (f : FactionId) :
    (∀ src x y a w w', checkImpact env src x y a w = some w' →
      w'.trace.count (.mobilize f) = w.trace.count (.mobilize f) +
        (if w.isAlerted f = false ∧ w'.isAlerted f = true then 1 else 0)) ∧
    (∀ inputs w w', run env inputs w = some w' →
      w'.trace.count (.mobilize f) = w.trace.count (.mobilize f) +
        (if w.isAlerted f = false ∧ w'.isAlerted f = true then 1 else 0)) ∧
    (∀ inputs w w', run env inputs w = some w' →
      w'.trace.count (.mobilize f) ≤ w.trace.count (.mobilize f) + 1) ∧
    (∀ inputs w', run env inputs World.initial = some w' →
      w'.trace.count (.mobilize f) ≤ 1) := by
  have hrun : ∀ inputs w w', run env inputs w = some w' →
      w'.trace.count (.mobilize f) = w.trace.count (.mobilize f) +
        (if w.isAlerted f = false ∧ w'.isAlerted f = true then 1 else 0) :=
    fun inputs w w' h => ((run_evolves env inputs w w' h).mobilized f).2
  have hle : ∀ inputs w w', run env inputs w = some w' →
      w'.trace.count (.mobilize f) ≤ w.trace.count (.mobilize f) + 1 := by
    intro inputs w w' h
    rw [hrun inputs w w' h]
    split_ifs <;> omega
  refine ⟨?_, hrun, hle, ?_⟩
  · intro src x y a w w' h
    exact ((checkImpact_evolves env src x y a w w' h).mobilized f).2
  · intro inputs w' h
    have := hle inputs _ w' h
    simpa [World.initial] using this

/-! ## Victory is final -/

/-- Claim C14: once `victorySecured` is true it is true after every tick and
after every run, whatever the units are, so also when the winning faction has
no live unit left. -/
theorem C14_victory_is_never_retracted (env : Env) :
    (∀ w w', animate env w = some w' → w.victorySecured = true →
      w'.victorySecured = true) ∧
    (∀ inputs w w', run env inputs w = some w' → w.victorySecured = true →
      w'.victorySecured = true) :=
  ⟨fun w w' h hv => (animate_evolves env w w' h).inv (fun v => v.victorySecured = true)
      (fun e v _ _ hv' => victorySecured_apply env e v hv') hv,
   fun inputs w w' h hv => (run_evolves env inputs w w' h).inv
      (fun v => v.victorySecured = true)
      (fun e v _ _ hv' => victorySecured_apply env e v hv') hv⟩

/-- Claim C14 in the world `afterVictory`, in which no faction owns a live
unit: a tick leaves `victorySecured` set. -/
theorem C14_witness :
    afterVictory.victorySecured = true ∧ activeFactions afterVictory = [] ∧
    ∃ w', animate sampleEnv afterVictory = some w' ∧ w'.victorySecured = true := by
  obtain ⟨w', h⟩ := animate_total sampleEnv sampleEnv_random afterVictory
  exact ⟨rfl, by decide, w', h, (C14_victory_is_never_retracted sampleEnv).1 _ w' h rfl⟩

/-! ## Updates of a unit that cannot launch, spawn or bomb -/

theorem setUnit_heap_keep {α : Type} (g : Unit → α) (w : World) (id : ℕ) (u : Unit)
    (h : g u = g (w.heap id)) (j : ℕ) : g ((w.setUnit id u).heap j) = g (w.heap j) := by
  unfold World.setUnit
  by_cases hj : j = id
  · subst hj
    simpa using h
  · simp [Function.update, hj]

/-- What the changes in `duels` leave as it is: the arrays, the missiles, and
type, ammunition and hangar of every unit. -/
theorem duels_keep (env : Env) (id : ℕ) (e : Effect) (h : e.duels id) (v : World) :
    (e.apply env v).units = v.units ∧ (e.apply env v).nextUnit = v.nextUnit ∧
    (e.apply env v).missiles = v.missiles ∧ (e.apply env v).mheap = v.mheap ∧
    (e.apply env v).nextMissile = v.nextMissile ∧
    ∀ j, ((e.apply env v).heap j).type = (v.heap j).type ∧
      ((e.apply env v).heap j).ammo = (v.heap j).ammo ∧
      ((e.apply env v).heap j).hangar = (v.heap j).hangar := by
  have hg : ∀ (i : ℕ) (u : Unit),
      (u.type, u.ammo, u.hangar) = ((v.heap i).type, (v.heap i).ammo, (v.heap i).hangar) →
      ∀ j, ((v.setUnit i u).heap j).type = (v.heap j).type ∧
        ((v.setUnit i u).heap j).ammo = (v.heap j).ammo ∧
        ((v.setUnit i u).heap j).hangar = (v.heap j).hangar := by
    intro i u hu j
    have := setUnit_heap_keep (fun u : Unit => (u.type, u.ammo, u.hangar)) v i u hu j
    simpa [Prod.ext_iff] using this
  rcases h with rfl | ⟨c, rfl⟩ | h | h
  · exact ⟨rfl, rfl, rfl, rfl, rfl, fun _ => ⟨rfl, rfl, rfl⟩⟩
  · exact ⟨rfl, rfl, rfl, rfl, rfl, hg id _ rfl⟩
  · cases e <;> (try simp [Effect.steers] at h)
    · exact ⟨rfl, rfl, rfl, rfl, rfl, fun _ => ⟨rfl, rfl, rfl⟩⟩
    · exact ⟨rfl, rfl, rfl, rfl, rfl, hg _ _ rfl⟩
    · exact ⟨rfl, rfl, rfl, rfl, rfl, hg _ _ rfl⟩
    · exact ⟨rfl, rfl, rfl, rfl, rfl, hg _ _ rfl⟩
  · cases e <;> (try simp [Effect.harms] at h)
    · exact ⟨rfl, rfl, rfl, rfl, rfl, hg _ _ rfl⟩
    · exact ⟨rfl, rfl, rfl, rfl, rfl, hg _ _ rfl⟩
    · exact ⟨rfl, rfl, rfl, rfl, rfl, fun _ => ⟨rfl, rfl, rfl⟩⟩

theorem Evolves.duel {env : Env} {id : ℕ} {w w' : World}
    (h : Evolves env (Effect.duels id) w w') :
    w'.units = w.units ∧ w'.nextUnit = w.nextUnit ∧
    w'.missiles = w.missiles ∧ w'.mheap = w.mheap ∧ w'.nextMissile = w.nextMissile ∧
    ∀ j, (w'.heap j).type = (w.heap j).type ∧ (w'.heap j).ammo = (w.heap j).ammo ∧
      (w'.heap j).hangar = (w.heap j).hangar := by
  induction h with
  | refl => exact ⟨rfl, rfl, rfl, rfl, rfl, fun _ => ⟨rfl, rfl, rfl⟩⟩
  | step e _ hk _ ih =>
    obtain ⟨k1, k2, k3, k4, k5, k6⟩ := duels_keep env id e hk _
    obtain ⟨i1, i2, i3, i4, i5, i6⟩ := ih
    refine ⟨k1.trans i1, k2.trans i2, k3.trans i3, k4.trans i4, k5.trans i5, fun j => ?_⟩
    exact ⟨(k6 j).1.trans (i6 j).1, (k6 j).2.1.trans (i6 j).2.1,
      (k6 j).2.2.trans (i6 j).2.2⟩

theorem laserAttack_within (env : Env) {K : Effect → Prop} (id : ℕ) (w : World)
    (hs : ∀ e, e.steers id → K e) (hh : ∀ e, e.harms → K e)
    (hc : ∀ c, K (.setCooldown id c)) : Evolves env K w (Unit.laserAttack env id w) := by
  have h1 := (findTarget_evolves env id w).mono hs
  unfold Unit.laserAttack
  split_ifs
  · unfold Unit.laserShot
    simp only
    split
    · exact h1
    · split_ifs
      · exact Evolves.step (.setCooldown id 30)
          (h1.trans ((fireLaser_evolves env id _).mono hh)) (hc 30) trivial
      · exact h1
  · exact Evolves.refl w

/-- The `update()` of a unit that is not a bomber, has no missile to launch
and no aircraft to spawn consists of changes in `duels`. -/
theorem update_duels (env : Env) (id : ℕ) (w w' : World)
    (h : Unit.update env id w = some w')
    (hl : ¬ (((w.heap id).type = .SILO ∨ (w.heap id).type = .SUB) ∧ (w.heap id).ammo > 0))
    (hh : ¬ ((w.heap id).type = .CARRIER ∧ (w.heap id).hangar > 0))
    (hb : (w.heap id).type ≠ .BOMBER) : Evolves env (Effect.duels id) w w' := by
  unfold Unit.update at h
  simp only at h
  have h0 : Evolves env (Effect.duels id) w (w.log (.unitUpdate id)) :=
    Evolves.one (.log _) (Or.inl rfl) (Or.inl ⟨id, rfl⟩)
  split_ifs at h
  · cases h; exact h0
  · have h1 := Evolves.step (.setCooldown id (((w.log (.unitUpdate id)).heap id).cooldown - 1))
      h0 (Or.inr (Or.inl ⟨_, rfl⟩)) trivial
    have k1 := (h1.duel.2.2.2.2.2 id)
    simp only [Effect.apply] at h1 k1
    have hcar : Unit.carrierLogic env id
        ((w.log (.unitUpdate id)).setCooldown id (((w.log (.unitUpdate id)).heap id).cooldown - 1))
          = (w.log (.unitUpdate id)).setCooldown id
              (((w.log (.unitUpdate id)).heap id).cooldown - 1) := by
      unfold Unit.carrierLogic
      rw [if_neg]
      rw [k1.1, k1.2.2]
      exact fun hc => hh ⟨hc.1, hc.2.2.1⟩
    rw [hcar] at h
    split at h
    · cases h
    · rename_i w2 hm
      have h2 := h1.trans ((movementLogic_evolves env id _ w2 hm).mono
        (fun e he => Or.inr (Or.inr (Or.inl he))))
      have k2 := (h2.duel.2.2.2.2.2 id)
      unfold Unit.combatLogic at h
      split_ifs at h
      · have hsilo : Unit.siloLaunch env id w2 = some w2 := by
          unfold Unit.siloLaunch
          rw [if_neg]
          rw [k2.1, k2.2.1]
          exact fun hc => hl ⟨Or.inl hc.1, hc.2.1⟩
        have hsub : Unit.subLaunch env id w2 = some w2 := by
          unfold Unit.subLaunch
          rw [if_neg]
          rw [k2.1, k2.2.1]
          exact fun hc => hl ⟨Or.inr hc.1, hc.2.1⟩
        rw [hsilo] at h
        simp only at h
        rw [hsub] at h
        simp only at h
        have h3 := h2.trans (laserAttack_within env id w2
          (fun e he => Or.inr (Or.inr (Or.inl he))) (fun e he => Or.inr (Or.inr (Or.inr he)))
          (fun c => Or.inr (Or.inl ⟨c, rfl⟩)))
        have k3 := (h3.duel.2.2.2.2.2 id)
        unfold Unit.bomberAttack at h
        rw [if_neg (fun hc => hb (k3.1 ▸ hc.1))] at h
        cases h
        exact h3
      · cases h
        exact h2

/-- Claim C15: the `update()` of a silo with `ammo = 0` returns, whatever the
cooldown, the alert level and the alert flags are, and it adds no missile and
leaves `ammo` at 0. -/
theorem C15_silo_without_ammo_never_launches (env : Env) (id : ℕ) (w : World)
    (ht : (w.heap id).type = .SILO) (ha : (w.heap id).ammo = 0) :
    ((∀ n, 0 ≤ env.random n ∧ env.random n < 1) → ∃ w', Unit.update env id w = some w') ∧
    ∀ w', Unit.update env id w = some w' →
      w'.missiles = w.missiles ∧ w'.nextMissile = w.nextMissile ∧ w'.mheap = w.mheap ∧
      (w'.heap id).ammo = 0 := by
  refine ⟨fun hr => update_total env hr id w, fun w' h => ?_⟩
  have hd := (update_duels env id w w' h (by simp [ha]) (by simp [ht]) (by simp [ht])).duel
  exact ⟨hd.2.2.1, hd.2.2.2.2.1, hd.2.2.2.1, by rw [(hd.2.2.2.2.2 id).2.1, ha]⟩

/-- Claim C15 in the world `lastStand`: the silo 0 has no missile left, its
faction is alerted at top alert level, and its `update()` adds no missile. -/
theorem C15_witness :
    ((lastStand.heap 0).type = .SILO ∧ (lastStand.heap 0).ammo = 0) ∧
    ∃ w', Unit.update sampleEnv 0 lastStand = some w' ∧
      w'.missiles = [] ∧ w'.nextMissile = 0 ∧ (w'.heap 0).ammo = 0 := by
  have h := C15_silo_without_ammo_never_launches sampleEnv 0 lastStand rfl rfl
  obtain ⟨w', hw'⟩ := h.1 sampleEnv_random
  obtain ⟨h1, h2, _, h4⟩ := h.2 w' hw'
  exact ⟨⟨rfl, rfl⟩, w', hw', h1, h2, h4⟩

/-- Claim C16: the `update()` of a carrier with `hangar = 0` returns, whatever
the cooldown and the alert level are (so also at `defcon = 1`), and it appends
no unit to `units`, creates no unit object and leaves `hangar` at 0. -/
theorem C16_carrier_with_empty_hangar_spawns_nothing (env : Env) (id : ℕ) (w : World)
    (ht : (w.heap id).type = .CARRIER) (hh : (w.heap id).hangar = 0) :
    ((∀ n, 0 ≤ env.random n ∧ env.random n < 1) → ∃ w', Unit.update env id w = some w') ∧
    ∀ w', Unit.update env id w = some w' →
      w'.units = w.units ∧ w'.nextUnit = w.nextUnit ∧ (w'.heap id).hangar = 0 := by
  refine ⟨fun hr => update_total env hr id w, fun w' h => ?_⟩
  have hd := (update_duels env id w w' h (by simp [ht]) (by simp [hh]) (by simp [ht])).duel
  exact ⟨hd.1, hd.2.1, by rw [(hd.2.2.2.2.2 id).2.2, hh]⟩

/-- Claim C16 in the world `emptyCarrier`, at top alert level with the
cooldown of the carrier running out. -/
theorem C16_witness :
    ((emptyCarrier.heap 0).type = .CARRIER ∧ (emptyCarrier.heap 0).hangar = 0 ∧
      emptyCarrier.defcon = 1) ∧
    ∃ w', Unit.update sampleEnv 0 emptyCarrier = some w' ∧
      w'.units = [0] ∧ w'.nextUnit = 1 ∧ (w'.heap 0).hangar = 0 := by
  have h := C16_carrier_with_empty_hangar_spawns_nothing sampleEnv 0 emptyCarrier rfl rfl
  obtain ⟨w', hw'⟩ := h.1 sampleEnv_random
  exact ⟨⟨rfl, rfl, rfl⟩, w', hw', h.2 w' hw'⟩

/-! ## Updates of a unit whose combat logic is gated off -/

/-- What the changes in `idles` leave as it is: the missiles, the explosions,
the alert flags, the alert level, and health, death, ammunition and faction of
every unit object that exists; the only event is the entry of the update. -/
theorem idles_keep (env : Env) (id : ℕ) (e : Effect) (h : e.idles id) (v : World) :
    v.nextUnit ≤ (e.apply env v).nextUnit ∧
    (e.apply env v).missiles = v.missiles ∧ (e.apply env v).mheap = v.mheap ∧
    (e.apply env v).nextMissile = v.nextMissile ∧
    (e.apply env v).explosions = v.explosions ∧
    (e.apply env v).isAlerted = v.isAlerted ∧ (e.apply env v).defcon = v.defcon ∧
    (∀ ev ∈ e.events, ev = .unitUpdate id) ∧
    ∀ j, j < v.nextUnit →
      ((e.apply env v).heap j).hp = (v.heap j).hp ∧
      ((e.apply env v).heap j).dead = (v.heap j).dead ∧
      ((e.apply env v).heap j).ammo = (v.heap j).ammo ∧
      ((e.apply env v).heap j).faction = (v.heap j).faction := by
  have hg : ∀ (i : ℕ) (u : Unit),
      (u.hp, u.dead, u.ammo, u.faction) =
        ((v.heap i).hp, (v.heap i).dead, (v.heap i).ammo, (v.heap i).faction) →
      ∀ j, j < v.nextUnit →
        ((v.setUnit i u).heap j).hp = (v.heap j).hp ∧
        ((v.setUnit i u).heap j).dead = (v.heap j).dead ∧
        ((v.setUnit i u).heap j).ammo = (v.heap j).ammo ∧
        ((v.setUnit i u).heap j).faction = (v.heap j).faction := by
    intro i u hu j _
    have := setUnit_heap_keep (fun u : Unit => (u.hp, u.dead, u.ammo, u.faction)) v i u hu j
    simpa [Prod.ext_iff] using this
  have hn : ∀ ev ∈ ([] : List Event), ev = .unitUpdate id :=
    fun _ h => absurd h (List.not_mem_nil _)
  rcases h with rfl | ⟨c, rfl⟩ | h | rfl | ⟨t, f, lon, lat, rfl⟩
  · exact ⟨le_rfl, rfl, rfl, rfl, rfl, rfl, rfl, by simp [Effect.events],
      fun _ _ => ⟨rfl, rfl, rfl, rfl⟩⟩
  · exact ⟨le_rfl, rfl, rfl, rfl, rfl, rfl, rfl, hn, hg id _ rfl⟩
  · cases e <;> (try simp [Effect.steers] at h)
    · exact ⟨le_rfl, rfl, rfl, rfl, rfl, rfl, rfl, hn, fun _ _ => ⟨rfl, rfl, rfl, rfl⟩⟩
    · exact ⟨le_rfl, rfl, rfl, rfl, rfl, rfl, rfl, hn, hg _ _ rfl⟩
    · exact ⟨le_rfl, rfl, rfl, rfl, rfl, rfl, rfl, hn, hg _ _ rfl⟩
    · exact ⟨le_rfl, rfl, rfl, rfl, rfl, rfl, rfl, hn, hg _ _ rfl⟩
  · exact ⟨le_rfl, rfl, rfl, rfl, rfl, rfl, rfl, hn, hg id _ rfl⟩
  · refine ⟨Nat.le_succ _, rfl, rfl, rfl, rfl, rfl, rfl, hn, fun j hj => ?_⟩
    have : (Effect.apply env (.pushUnit t f lon lat) v).heap j = v.heap j := by
      simp only [Effect.apply, pushUnit]
      exact Function.update_noteq (by omega) _ _
    rw [this]
    exact ⟨rfl, rfl, rfl, rfl⟩

theorem Evolves.idle {env : Env} {id : ℕ} {w w' : World}
    (h : Evolves env (Effect.idles id) w w') :
    w.nextUnit ≤ w'.nextUnit ∧
    w'.missiles = w.missiles ∧ w'.mheap = w.mheap ∧ w'.nextMissile = w.nextMissile ∧
    w'.explosions = w.explosions ∧ w'.isAlerted = w.isAlerted ∧ w'.defcon = w.defcon ∧
    ∀ j, j < w.nextUnit →
      (w'.heap j).hp = (w.heap j).hp ∧ (w'.heap j).dead = (w.heap j).dead ∧
      (w'.heap j).ammo = (w.heap j).ammo ∧ (w'.heap j).faction = (w.heap j).faction := by
  induction h with
  | refl => exact ⟨le_rfl, rfl, rfl, rfl, rfl, rfl, rfl, fun _ _ => ⟨rfl, rfl, rfl, rfl⟩⟩
  | step e _ hk _ ih =>
    obtain ⟨k0, k1, k2, k3, k4, k5, k6, _, k8⟩ := idles_keep env id e hk _
    obtain ⟨i0, i1, i2, i3, i4, i5, i6, i8⟩ := ih
    refine ⟨i0.trans k0, k1.trans i1, k2.trans i2, k3.trans i3, k4.trans i4, k5.trans i5,
      k6.trans i6, fun j hj => ?_⟩
    have a := k8 j (lt_of_lt_of_le hj i0)
    have b := i8 j hj
    exact ⟨a.1.trans b.1, a.2.1.trans b.2.1, a.2.2.1.trans b.2.2.1, a.2.2.2.trans b.2.2.2⟩

theorem carrierLogic_within (env : Env) {K : Effect → Prop} (id : ℕ) (w : World)
    (hr : ∀ n, K (.setRnd n)) (hp : ∀ t f lon lat, K (.pushUnit t f lon lat))
    (hd : K (.decHangar id)) (hc : ∀ c, K (.setCooldown id c)) :
    Evolves env K w (Unit.carrierLogic env id w) := by
  unfold Unit.carrierLogic
  by_cases h : (w.heap id).type = .CARRIER ∧ w.defcon = 1 ∧ (w.heap id).hangar > 0 ∧
      (w.heap id).cooldown ≤ 0
  · rw [if_pos h]
    have ht : (if w.draw env > 4 / 10 then UnitType.FIGHTER else UnitType.BOMBER) = .FIGHTER ∨
        (if w.draw env > 4 / 10 then UnitType.FIGHTER else UnitType.BOMBER) = .BOMBER := by
      split_ifs
      · exact Or.inl rfl
      · exact Or.inr rfl
    exact Evolves.step (.setCooldown id 200)
      (Evolves.step (.decHangar id)
        (Evolves.step (.pushUnit _ _ _ _) (advance_evolves w hr) (hp _ _ _ _)
          (aircraft_guard env _ _ _ _ _ ht))
        hd trivial)
      (hc 200) trivial
  · rw [if_neg h]
    exact Evolves.refl w

/-- When the alert level is not 1 or the faction of the unit is not alerted,
its `update()` consists of changes in `idles`. -/
theorem update_idles (env : Env) (id : ℕ) (w w' : World)
    (h : Unit.update env id w = some w') (hid : id < w.nextUnit)
    (hc : ¬ (w.defcon = 1 ∧ w.isAlerted (w.heap id).faction = true)) :
    Evolves env (Effect.idles id) w w' := by
  unfold Unit.update at h
  simp only at h
  have h0 : Evolves env (Effect.idles id) w (w.log (.unitUpdate id)) :=
    Evolves.one (.log _) (Or.inl rfl) (Or.inl ⟨id, rfl⟩)
  split_ifs at h
  · cases h; exact h0
  · have h1 := Evolves.step (.setCooldown id (((w.log (.unitUpdate id)).heap id).cooldown - 1))
      h0 (Or.inr (Or.inl ⟨_, rfl⟩)) trivial
    simp only [Effect.apply] at h1
    split at h
    · cases h
    · rename_i w2 hm
      have h2 := (h1.trans (carrierLogic_within env id _
        (fun _ => Or.inr (Or.inr (Or.inl trivial)))
        (fun t f lon lat => Or.inr (Or.inr (Or.inr (Or.inr ⟨t, f, lon, lat, rfl⟩))))
        (Or.inr (Or.inr (Or.inr (Or.inl rfl))))
        (fun c => Or.inr (Or.inl ⟨c, rfl⟩)))).trans
        ((movementLogic_evolves env id _ w2 hm).mono
          (fun e he => Or.inr (Or.inr (Or.inl he))))
      have k := h2.idle
      unfold Unit.combatLogic at h
      rw [if_neg] at h
      · cases h
        exact h2
      · rw [k.2.2.2.2.2.2.1, k.2.2.2.2.2.1, (k.2.2.2.2.2.2.2 id hid).2.2.2]
        exact hc

/-- Claim C20: when `defcon` is not 1 or the faction of the unit is not
alerted, the `update()` of a unit (live or dead) returns, and it adds no
missile and no explosion, records no event but its own entry, changes health
and death of no unit, changes no alert flag and does not change the
ammunition of the unit. -/
theorem C20_combat_is_gated (env : Env) (id : ℕ) (w : World) (hid : id < w.nextUnit)
    (hc : w.defcon ≠ 1 ∨ w.isAlerted (w.heap id).faction = false) :
    ((∀ n, 0 ≤ env.random n ∧ env.random n < 1) → ∃ w', Unit.update env id w = some w') ∧
    ∀ w', Unit.update env id w = some w' →
      (w'.missiles = w.missiles ∧ w'.nextMissile = w.nextMissile ∧ w'.mheap = w.mheap) ∧
      (w'.explosions = w.explosions ∧
        ∃ es, w'.trace = w.trace ++ es ∧ ∀ ev ∈ es, ev = .unitUpdate id) ∧
      (∀ j, j < w.nextUnit →
        (w'.heap j).hp = (w.heap j).hp ∧ (w'.heap j).dead = (w.heap j).dead) ∧
      w'.isAlerted = w.isAlerted ∧
      (w'.heap id).ammo = (w.heap id).ammo := by
  refine ⟨fun hr => update_total env hr id w, fun w' h => ?_⟩
  have hn : ¬ (w.defcon = 1 ∧ w.isAlerted (w.heap id).faction = true) := by
    rintro ⟨h1, h2⟩
    rcases hc with hc | hc
    · exact hc h1
    · rw [hc] at h2; cases h2
  have he := update_idles env id w w' h hid hn
  obtain ⟨_, k1, k2, k3, k4, k5, _, k8⟩ := he.idle
  obtain ⟨es, t1, t2⟩ := he.trace
  refine ⟨⟨k1, k3, k2⟩, ⟨k4, es, t1, fun ev hev => ?_⟩,
    fun j hj => ⟨(k8 j hj).1, (k8 j hj).2.1⟩, k5, (k8 id hid).2.2.1⟩
  obtain ⟨e, hk, hmem⟩ := t2 ev hev
  exact (idles_keep env id e hk w).2.2.2.2.2.2.2.1 ev hmem

/-- Claim C20 in the world `standDown`: the silo 0 is alerted and ready to
launch, but the alert level is 5, and its `update()` launches nothing. -/
theorem C20_witness :
    (0 < standDown.nextUnit ∧ standDown.defcon ≠ 1) ∧
    ∃ w', Unit.update sampleEnv 0 standDown = some w' ∧
      w'.missiles = [] ∧ w'.explosions = [] ∧ (w'.heap 0).ammo = 10 := by
  have hd : standDown.defcon ≠ 1 := by decide
  have h := C20_combat_is_gated sampleEnv 0 standDown (by decide) (Or.inl hd)
  obtain ⟨w', hw'⟩ := h.1 sampleEnv_random
  obtain ⟨⟨h1, _, _⟩, ⟨h2, _⟩, _, _, h5⟩ := h.2 w' hw'
  exact ⟨⟨by decide, hd⟩, w', hw', h1, h2, by rw [h5]; rfl⟩

/-! ## Mobilization -/

theorem spawnSearch_done (env : Env) (region : SpawnRegion) (isNaval isLand : Bool)
    (fuel : ℕ) (s : SpawnSearch) (h : s.valid = true) :
    spawnSearch env region isNaval isLand fuel s = s := by
  cases fuel with
  | zero => rfl
  | succ n => rw [spawnSearch_succ, if_neg (by simp [h])]

/-- The loop of `spawn` stops at the first candidate that suits the type, or
after 50 candidates none of which does. -/
theorem spawnSearch_spec (env : Env) (region : SpawnRegion) (type : UnitType) (rnd : ℕ) :
    ∀ (fuel : ℕ) (s : SpawnSearch), s.valid = false → s.attempts + fuel = 50 →
      s.rnd = rnd + 2 * s.attempts →
      (∀ i, i < s.attempts → validFor env type (candidate env region rnd i) = false) →
      let r := spawnSearch env region (decide (type = .CARRIER ∨ type = .SUB))
        (decide (type = .SILO)) fuel s
      r.attempts ≤ 50 ∧ r.rnd = rnd + 2 * r.attempts ∧
      (r.valid = true →
        (r.lon, r.lat) = candidate env region rnd (r.attempts - 1) ∧ 0 < r.attempts ∧
        validFor env type (candidate env region rnd (r.attempts - 1)) = true) ∧
      (∀ i, i + 1 < r.attempts → validFor env type (candidate env region rnd i) = false) ∧
      (r.valid = false →
        r.attempts = 50 ∧ ∀ i, i < 50 → validFor env type (candidate env region rnd i) = false)
    := by
  intro fuel
  induction fuel with
  | zero =>
    intro s hv ha hrnd hinv
    simp only [spawnSearch]
    have h50 : s.attempts = 50 := by omega
    refine ⟨by omega, hrnd, fun h => ?_, fun i hi => hinv i (by omega), fun _ => ⟨h50, ?_⟩⟩
    · rw [hv] at h; cases h
    · intro i hi
      exact hinv i (by omega)
  | succ n ih =>
    intro s hv ha hrnd hinv
    have hc : s.valid = false ∧ s.attempts < 50 := ⟨hv, by omega⟩
    simp only
    rw [spawnSearch_succ, if_pos hc]
    have hcand : (region.lon.1 + env.random s.rnd * (region.lon.2 - region.lon.1),
        region.lat.1 + env.random (s.rnd + 1) * (region.lat.2 - region.lat.1))
        = candidate env region rnd s.attempts := by
      simp only [candidate, hrnd]
    have hval : (if decide (type = .CARRIER ∨ type = .SUB) = true then
          (if isOnLand env
              (region.lon.1 + env.random s.rnd * (region.lon.2 - region.lon.1))
              (region.lat.1 + env.random (s.rnd + 1) * (region.lat.2 - region.lat.1))
              = false then true else s.valid)
        else if decide (type = .SILO) = true then
          (if isOnLand env
              (region.lon.1 + env.random s.rnd * (region.lon.2 - region.lon.1))
              (region.lat.1 + env.random (s.rnd + 1) * (region.lat.2 - region.lat.1))
              = true then true else s.valid)
        else true) = validFor env type (candidate env region rnd s.attempts) := by
      rw [← hcand, hv]
      unfold validFor
      simp only [decide_eq_true_eq]
      split_ifs <;> simp_all
    rw [hval]
    cases hvk : validFor env type (candidate env region rnd s.attempts) with
    | true =>
      rw [spawnSearch_done _ _ _ _ _ _ rfl]
      simp only [add_tsub_cancel_right]
      refine ⟨by omega, by omega, fun _ => ⟨hcand, by omega, hvk⟩,
        fun i hi => hinv i (by omega), fun h => by cases h⟩
    | false =>
      have := ih { lon := region.lon.1 + env.random s.rnd * (region.lon.2 - region.lon.1)
                   lat := region.lat.1 + env.random (s.rnd + 1) * (region.lat.2 - region.lat.1)
                   valid := false
                   attempts := s.attempts + 1
                   rnd := s.rnd + 2 } rfl (by simp only; omega) (by simp only; omega)
        (by
          intro i hi
          simp only at hi
          rcases Nat.lt_succ_iff_lt_or_eq.mp hi with h | h
          · exact hinv i h
          · rw [h]; exact hvk)
      exact this

theorem spawnFind_spec (env : Env) (region : SpawnRegion) (type : UnitType) (rnd : ℕ) :
    (spawnFind env region type rnd).attempts ≤ 50 ∧
    (spawnFind env region type rnd).rnd = rnd + 2 * (spawnFind env region type rnd).attempts ∧
    ((spawnFind env region type rnd).valid = true →
      ((spawnFind env region type rnd).lon, (spawnFind env region type rnd).lat)
        = candidate env region rnd ((spawnFind env region type rnd).attempts - 1) ∧
      0 < (spawnFind env region type rnd).attempts ∧
      validFor env type
        (candidate env region rnd ((spawnFind env region type rnd).attempts - 1)) = true) ∧
    (∀ i, i + 1 < (spawnFind env region type rnd).attempts →
      validFor env type (candidate env region rnd i) = false) ∧
    ((spawnFind env region type rnd).valid = false →
      (spawnFind env region type rnd).attempts = 50 ∧
      ∀ i, i < 50 → validFor env type (candidate env region rnd i) = false) :=
  spawnSearch_spec env region type rnd 50
    { lon := 0, lat := 0, valid := false, attempts := 0, rnd := rnd } rfl rfl rfl
    (fun i hi => absurd hi (Nat.not_lt_zero i))

theorem candidate_contains (env : Env) (hr : ∀ n, 0 ≤ env.random n ∧ env.random n < 1)
    (region : SpawnRegion) (hlon : region.lon.1 ≤ region.lon.2)
    (hlat : region.lat.1 ≤ region.lat.2) (rnd k : ℕ) :
    region.contains (candidate env region rnd k).1 (candidate env region rnd k).2 := by
  have h1 := hr (rnd + 2 * k)
  have h2 := hr (rnd + 2 * k + 1)
  simp only [SpawnRegion.contains, candidate]
  refine ⟨?_, ?_, ?_, ?_⟩ <;> nlinarith

theorem spawnRegion_ordered (f : FactionId) (region : SpawnRegion)
    (h : spawnRegion f = some region) :
    region.lon.1 ≤ region.lon.2 ∧ region.lat.1 ≤ region.lat.2 := by
  cases f <;> cases h <;> norm_num

/-- One iteration of the loop of `spawn` adds nothing, or one unit of the
type and the faction at a suitable point of the region. -/
theorem spawnOne_spec (env : Env) (hr : ∀ n, 0 ≤ env.random n ∧ env.random n < 1)
    (region : SpawnRegion) (hlon : region.lon.1 ≤ region.lon.2)
    (hlat : region.lat.1 ≤ region.lat.2) (type : UnitType) (f : FactionId) (w : World) :
    ((spawnOne env region type f w).nextUnit = w.nextUnit ∧
      (spawnOne env region type f w).units = w.units ∧
      (spawnOne env region type f w).heap = w.heap) ∨
    ((spawnOne env region type f w).nextUnit = w.nextUnit + 1 ∧
      (spawnOne env region type f w).units = w.units ++ [w.nextUnit] ∧
      (∀ j, j ≠ w.nextUnit → (spawnOne env region type f w).heap j = w.heap j) ∧
      Unit.placed env region f type ((spawnOne env region type f w).heap w.nextUnit)) := by
  obtain ⟨_, _, h3, _, _⟩ := spawnFind_spec env region type w.rnd
  by_cases hv : (spawnFind env region type w.rnd).valid = true
  · have heq : spawnOne env region type f w = pushUnit env type f
        (spawnFind env region type w.rnd).lon (spawnFind env region type w.rnd).lat
        (w.setRnd (spawnFind env region type w.rnd).rnd) := by
      unfold spawnOne
      exact if_pos hv
    rw [heq]
    right
    obtain ⟨hc, _, hval⟩ := h3 hv
    refine ⟨rfl, rfl, fun j hj => by simp [pushUnit, World.setRnd, Function.update, hj], ?_⟩
    have hlo := (Prod.ext_iff.mp hc).1
    have hla := (Prod.ext_iff.mp hc).2
    simp only at hlo hla
    have hin := candidate_contains env hr region hlon hlat w.rnd
      ((spawnFind env region type w.rnd).attempts - 1)
    have hu : (pushUnit env type f (spawnFind env region type w.rnd).lon
        (spawnFind env region type w.rnd).lat
        (w.setRnd (spawnFind env region type w.rnd).rnd)).heap w.nextUnit
        = Unit.new env type f (spawnFind env region type w.rnd).lon
            (spawnFind env region type w.rnd).lat
            ((w.setRnd (spawnFind env region type w.rnd).rnd).draw env) := by
      simp [pushUnit, World.setRnd]
    rw [hu]
    refine ⟨rfl, rfl, ?_, ?_⟩
    · show region.contains (spawnFind env region type w.rnd).lon
        (spawnFind env region type w.rnd).lat
      rw [hlo, hla]; exact hin
    · show validFor env type ((spawnFind env region type w.rnd).lon,
        (spawnFind env region type w.rnd).lat) = true
      rw [hc]; exact hval
  · have heq : spawnOne env region type f w
        = w.setRnd (spawnFind env region type w.rnd).rnd := by
      unfold spawnOne
      exact if_neg hv
    rw [heq]
    left
    exact ⟨rfl, rfl, rfl⟩

/-- The call `spawn(type, count)` appends at most `count` units, all of the
type and the faction at suitable points of the region, and leaves the unit
objects that exist as they are. -/
theorem spawn_spec (env : Env) (hr : ∀ n, 0 ≤ env.random n ∧ env.random n < 1)
    (region : SpawnRegion) (hlon : region.lon.1 ≤ region.lon.2)
    (hlat : region.lat.1 ≤ region.lat.2) (type : UnitType) (f : FactionId) :
    ∀ (count : ℕ) (w : World), ∃ k, k ≤ count ∧
      (spawn env region f type count w).nextUnit = w.nextUnit + k ∧
      (spawn env region f type count w).units = w.units ++ List.range' w.nextUnit k ∧
      (∀ j, j < w.nextUnit → (spawn env region f type count w).heap j = w.heap j) ∧
      ∀ j, w.nextUnit ≤ j → j < w.nextUnit + k →
        Unit.placed env region f type ((spawn env region f type count w).heap j) := by
  intro count
  induction count with
  | zero =>
    intro w
    exact ⟨0, le_rfl, rfl, by simp [spawn], fun _ _ => rfl, fun j h1 h2 => by omega⟩
  | succ n ih =>
    intro w
    obtain ⟨k, hk, i1, i2, i3, i4⟩ := ih (spawnOne env region type f w)
    have hs : spawn env region f type (n + 1) w
        = spawn env region f type n (spawnOne env region type f w) := rfl
    rw [hs]
    rcases spawnOne_spec env hr region hlon hlat type f w with ⟨a1, a2, a3⟩ | ⟨a1, a2, a3, a4⟩
    · rw [a1] at i1 i3 i4
      rw [a2, a1] at i2
      refine ⟨k, by omega, i1, i2, fun j hj => ?_, i4⟩
      rw [i3 j hj, a3]
    · rw [a1] at i1 i3 i4
      rw [a2, a1] at i2
      refine ⟨k + 1, by omega, by omega, ?_, fun j hj => ?_, fun j h1 h2 => ?_⟩
      · rw [i2, List.append_assoc, List.singleton_append, ← List.range'_succ]
      · rw [i3 j (by omega), a3 j (by omega)]
      · rcases Nat.eq_or_lt_of_le h1 with h | h
        · rw [← h, i3 _ (by omega)]
          exact a4
        · exact i4 j (by omega) (by omega)

theorem placed_facts (env : Env) (region : SpawnRegion) (f : FactionId) (t : UnitType)
    (u : Unit) (hp : Unit.placed env region f t u) :
    u.type = t ∧ u.faction = f ∧ region.contains u.lon u.lat ∧
    ((u.type = .CARRIER ∨ u.type = .SUB) → isOnLand env u.lon u.lat = false) ∧
    (u.type = .SILO → isOnLand env u.lon u.lat = true) := by
  obtain ⟨p1, p2, p3, p4⟩ := hp
  refine ⟨p1, p2, p3, fun hty => ?_, fun hty => ?_⟩
  · rw [p1] at hty
    simpa [validFor, hty] using p4
  · rw [p1] at hty
    simpa [validFor, hty] using p4

/-- Claim C11: with draws in `[0, 1)`, `spawnFactionUnits(faction)` returns
and appends to `units` first at most 2 carriers, then at most 4 submarines,
then at most 5 silos of the faction and nothing else; each of them has its
`(lon, lat)` in the bounding box of the spawn region, on water for a carrier
or a submarine and on land for a silo; the unit objects that exist are left
as they are.  The search of a position for one unit samples at most 50
candidate points, two draws each, and when none of the 50 candidates suits the
type, the iteration adds no unit. -/
theorem C11_spawnFactionUnits_places_units (env : Env)
    (hr : ∀ n, 0 ≤ env.random n ∧ env.random n < 1) (f : FactionId) (region : SpawnRegion)
    (hreg : spawnRegion f = some region) (w : World) :
    (∃ w' c s l, spawnFactionUnits env f w = some w' ∧ c ≤ 2 ∧ s ≤ 4 ∧ l ≤ 5 ∧
      w'.nextUnit = w.nextUnit + (c + s + l) ∧
      w'.units = w.units ++ List.range' w.nextUnit (c + s + l) ∧
      (∀ j, j < w.nextUnit → w'.heap j = w.heap j) ∧
      ∀ j, w.nextUnit ≤ j → j < w.nextUnit + (c + s + l) →
        (w'.heap j).type =
          (if j < w.nextUnit + c then .CARRIER
            else if j < w.nextUnit + c + s then .SUB else .SILO) ∧
        (w'.heap j).faction = f ∧
        region.contains (w'.heap j).lon (w'.heap j).lat ∧
        (((w'.heap j).type = .CARRIER ∨ (w'.heap j).type = .SUB) →
          isOnLand env (w'.heap j).lon (w'.heap j).lat = false) ∧
        ((w'.heap j).type = .SILO → isOnLand env (w'.heap j).lon (w'.heap j).lat = true)) ∧
    (∀ (type : UnitType) (v : World),
      (spawnFind env region type v.rnd).attempts ≤ 50 ∧
      (spawnFind env region type v.rnd).rnd
        = v.rnd + 2 * (spawnFind env region type v.rnd).attempts ∧
      ((∀ k, k < 50 → validFor env type (candidate env region v.rnd k) = false) →
        spawnOne env region type f v = v.setRnd (v.rnd + 100))) := by
  obtain ⟨hlon, hlat⟩ := spawnRegion_ordered f region hreg
  constructor
  · obtain ⟨w0, hw0⟩ : ∃ w0, w0 = w.log (.mobilize f) := ⟨_, rfl⟩
    have hsf : spawnFactionUnits env f w = some
        (spawn env region f .SILO (UNIT_STATS .SILO).limit
          (spawn env region f .SUB (UNIT_STATS .SUB).limit
            (spawn env region f .CARRIER (UNIT_STATS .CARRIER).limit w0))) := by
      rw [hw0]
      unfold spawnFactionUnits
      rw [hreg]
    have hw0n : w0.nextUnit = w.nextUnit := by rw [hw0]; rfl
    have hw0u : w0.units = w.units := by rw [hw0]; rfl
    have hw0h : w0.heap = w.heap := by rw [hw0]; rfl
    obtain ⟨c, hc, c1, c2, c3, c4⟩ := spawn_spec env hr region hlon hlat .CARRIER f
      (UNIT_STATS .CARRIER).limit w0
    obtain ⟨s, hs, s1, s2, s3, s4⟩ := spawn_spec env hr region hlon hlat .SUB f
      (UNIT_STATS .SUB).limit (spawn env region f .CARRIER (UNIT_STATS .CARRIER).limit w0)
    obtain ⟨l, hl, l1, l2, l3, l4⟩ := spawn_spec env hr region hlon hlat .SILO f
      (UNIT_STATS .SILO).limit
      (spawn env region f .SUB (UNIT_STATS .SUB).limit
        (spawn env region f .CARRIER (UNIT_STATS .CARRIER).limit w0))
    rw [hw0n] at c1 c2 c3 c4
    rw [hw0u] at c2
    rw [hw0h] at c3
    rw [c1] at s1 s2 s3 s4
    rw [c2] at s2
    rw [s1] at l1 l2 l3 l4
    rw [s2] at l2
    refine ⟨_, c, s, l, hsf, hc, hs, hl, by rw [l1]; omega, ?_, fun j hj => ?_,
      fun j h1 h2 => ?_⟩
    · rw [l2, List.append_assoc, List.append_assoc]
      congr 1
      rw [List.range'_append_1, List.range'_append_1]
      congr 1
      omega
    · rw [l3 j (by omega), s3 j (by omega), c3 j hj]
    · by_cases hj1 : j < w.nextUnit + c
      · obtain ⟨p1, p2⟩ := placed_facts env region f .CARRIER _ (c4 j h1 hj1)
        rw [← s3 j hj1, ← l3 j (by omega)] at p1 p2
        exact ⟨by rw [p1, if_pos hj1], p2⟩
      · by_cases hj2 : j < w.nextUnit + c + s
        · obtain ⟨p1, p2⟩ := placed_facts env region f .SUB _ (s4 j (by omega) hj2)
          rw [← l3 j hj2] at p1 p2
          exact ⟨by rw [p1, if_neg hj1, if_pos hj2], p2⟩
        · obtain ⟨p1, p2⟩ := placed_facts env region f .SILO _ (l4 j (by omega) (by omega))
          exact ⟨by rw [p1, if_neg hj1, if_neg hj2], p2⟩
  · intro type v
    obtain ⟨h1, h2, h3, _, h5⟩ := spawnFind_spec env region type v.rnd
    refine ⟨h1, h2, fun hall => ?_⟩
    have hv : (spawnFind env region type v.rnd).valid = false := by
      cases hv : (spawnFind env region type v.rnd).valid
      · rfl
      · obtain ⟨_, hpos, hval⟩ := h3 hv
        rw [hall _ (by omega)] at hval
        cases hval
    have heq : spawnOne env region type f v
        = v.setRnd (spawnFind env region type v.rnd).rnd := by
      unfold spawnOne
      exact if_neg (by simp [hv])
    rw [heq, h2, (h5 hv).1]

/-- Claim C11 in the sample world, where every candidate for `EU` is the
point `(10 E, 47.5 N)` on the landmass: no carrier and no submarine finds a
position in 50 attempts, and the five silos are placed there. -/
theorem C11_witness :
    ((∀ n, 0 ≤ sampleEnv.random n ∧ sampleEnv.random n < 1) ∧
      spawnRegion .EU = some { lon := (-10, 30), lat := (35, 60) }) ∧
    (∃ w' c s l, spawnFactionUnits sampleEnv .EU World.initial = some w' ∧
      c ≤ 2 ∧ s ≤ 4 ∧ l ≤ 5 ∧ w'.nextUnit = c + s + l ∧
      ∀ j, j < c + s + l →
        SpawnRegion.contains { lon := (-10, 30), lat := (35, 60) }
          (w'.heap j).lon (w'.heap j).lat) ∧
    (spawnFactionUnits sampleEnv .EU World.initial).map
      (fun w => (w.units, (w.heap 4).type, (w.heap 4).lon, (w.heap 4).lat, w.rnd))
      = some ([0, 1, 2, 3, 4], .SILO, 10, 95 / 2, 615) := by
  refine ⟨⟨sampleEnv_random, rfl⟩, ?_, by decide!⟩
  obtain ⟨w', c, s, l, h1, h2, h3, h4, h5, _, _, h8⟩ :=
    (C11_spawnFactionUnits_places_units sampleEnv sampleEnv_random .EU
      { lon := (-10, 30), lat := (35, 60) } rfl World.initial).1
  refine ⟨w', c, s, l, h1, h2, h3, h4, by simpa [World.initial] using h5, fun j hj => ?_⟩
  exact (h8 j (Nat.zero_le j) (by simpa [World.initial] using hj)).2.2.1

/-! ## Target selection -/

/-- The head of the list of the elements that satisfy `p`, sorted by
insertion on `key`, is the first element of the list among those that satisfy
`p` with the least key. -/
theorem insertionSort_filter_head {α : Type} (key : α → ℚ) (p : α → Bool) :
    ∀ l : List α,
      (List.insertionSort (fun a b => key a ≤ key b) (l.filter p) = [] →
        ∀ x ∈ l, p x = false) ∧
      ∀ e rest, List.insertionSort (fun a b => key a ≤ key b) (l.filter p) = e :: rest →
        ∃ pre post, l = pre ++ e :: post ∧ p e = true ∧
          (∀ x ∈ pre, p x = true → key e < key x) ∧
          (∀ x ∈ post, p x = true → key e ≤ key x) := by
  intro l
  induction l with
  | nil =>
    refine ⟨fun _ x hx => absurd hx (List.not_mem_nil _), fun e rest h => ?_⟩
    simp at h
  | cons a l ih =>
    by_cases hpa : p a = true
    · rw [List.filter_cons_of_pos hpa]
      have hs : List.insertionSort (fun a b => key a ≤ key b) (a :: l.filter p)
          = List.orderedInsert (fun a b => key a ≤ key b) a
              (List.insertionSort (fun a b => key a ≤ key b) (l.filter p)) := rfl
      rw [hs]
      cases hsl : List.insertionSort (fun a b => key a ≤ key b) (l.filter p) with
      | nil =>
        refine ⟨fun h => by simp at h, fun e rest h => ?_⟩
        simp only [List.orderedInsert, List.cons.injEq] at h
        obtain ⟨rfl, _⟩ := h
        refine ⟨[], l, rfl, hpa, fun x hx => absurd hx (List.not_mem_nil _), fun x hx hp => ?_⟩
        rw [ih.1 hsl x hx] at hp
        cases hp
      | cons h t =>
        obtain ⟨pre, post, hl, hph, hpre, hpost⟩ := ih.2 h t hsl
        have hall : ∀ x ∈ l, p x = true → key h ≤ key x := by
          intro x hx hp
          rw [hl] at hx
          rcases List.mem_append.mp hx with hx | hx
          · exact le_of_lt (hpre x hx hp)
          · rcases List.mem_cons.mp hx with hx | hx
            · rw [hx]
            · exact hpost x hx hp
        simp only [List.orderedInsert]
        by_cases hk : key a ≤ key h
        · rw [if_pos hk]
          refine ⟨fun h => by simp at h, fun e rest he => ?_⟩
          simp only [List.cons.injEq] at he
          obtain ⟨rfl, _⟩ := he
          exact ⟨[], l, rfl, hpa, fun x hx => absurd hx (List.not_mem_nil _),
            fun x hx hp => le_trans hk (hall x hx hp)⟩
        · rw [if_neg hk]
          refine ⟨fun h => by simp at h, fun e rest he => ?_⟩
          simp only [List.cons.injEq] at he
          obtain ⟨rfl, _⟩ := he
          refine ⟨a :: pre, post, by rw [hl]; rfl, hph, fun x hx hp => ?_, hpost⟩
          rcases List.mem_cons.mp hx with hx | hx
          · rw [hx]; exact lt_of_not_le hk
          · exact hpre x hx hp
    · rw [List.filter_cons_of_neg hpa]
      have hpa' : p a = false := by simpa using hpa
      refine ⟨fun h x hx => ?_, fun e rest h => ?_⟩
      · rcases List.mem_cons.mp hx with hx | hx
        · rw [hx]; exact hpa'
        · exact ih.1 h x hx
      · obtain ⟨pre, post, hl, hpe, hpre, hpost⟩ := ih.2 e rest h
        refine ⟨a :: pre, post, by rw [hl]; rfl, hpe, fun x hx hp => ?_, hpost⟩
        rcases List.mem_cons.mp hx with hx | hx
        · rw [hx, hpa'] at hp; cases hp
        · exact hpre x hx hp

/-- The assignment of a combat target changes no other field of a unit. -/
theorem setCombatTarget_heap (w : World) (id : ℕ) (t : Option ℕ) (j : ℕ) :
    ((w.setCombatTarget id t).heap j).faction = (w.heap j).faction ∧
    ((w.setCombatTarget id t).heap j).dead = (w.heap j).dead ∧
    ((w.setCombatTarget id t).heap j).type = (w.heap j).type ∧
    ((w.setCombatTarget id t).heap j).pos = (w.heap j).pos ∧
    ((w.setCombatTarget id t).heap j).validTargets = (w.heap j).validTargets ∧
    ((w.setCombatTarget id t).heap j).isAir = (w.heap j).isAir ∧
    ((w.setCombatTarget id t).heap j).range = (w.heap j).range := by
  have := setUnit_heap_keep
    (fun u : Unit => (u.faction, u.dead, u.type, u.pos, u.validTargets, u.isAir, u.range))
    w id { w.heap id with combatTarget := t } rfl j
  simpa [Prod.ext_iff] using this

/-- The first statement of `findTarget` keeps a retained target and leaves
the world as it is, and clears the combat target otherwise. -/
theorem dropStaleTarget_spec (env : Env) (id : ℕ) (w : World) :
    (Unit.retains env id w → Unit.dropStaleTarget env id w = w) ∧
    (¬ Unit.retains env id w →
      ((Unit.dropStaleTarget env id w).heap id).combatTarget = none ∧
      (Unit.dropStaleTarget env id w = w ∨
        Unit.dropStaleTarget env id w = w.setCombatTarget id none)) := by
  unfold Unit.dropStaleTarget
  cases hct : (w.heap id).combatTarget with
  | none =>
    refine ⟨fun _ => rfl, fun _ => ⟨hct, Or.inl rfl⟩⟩
  | some t =>
    simp only
    by_cases hc : (w.heap t).dead = true ∨
        ((w.heap id).type ≠ .FIGHTER ∧
          dist env (w.heap id).pos (w.heap t).pos > (w.heap id).range * 2)
    · rw [if_pos hc]
      refine ⟨fun hr => ?_, fun _ => ⟨by simp [World.setCombatTarget, World.setUnit],
        Or.inr rfl⟩⟩
      obtain ⟨t', h1, h2, h3⟩ := hr
      rw [hct] at h1
      cases h1
      rcases hc with hc | ⟨hc1, hc2⟩
      · rw [h2] at hc; cases hc
      · rcases h3 with h3 | h3
        · exact absurd h3 hc1
        · linarith
    · rw [if_neg hc]
      refine ⟨fun _ => rfl, fun hn => absurd ⟨t, hct, ?_, ?_⟩ hn⟩
      · cases hd : (w.heap t).dead
        · rfl
        · exact absurd (Or.inl hd) hc
      · by_cases hf : (w.heap id).type = .FIGHTER
        · exact Or.inl hf
        · right
          by_contra hlt
          exact hc (Or.inr ⟨hf, by linarith [not_le.mp hlt]⟩)

/-- The candidates of a unit do not depend on its combat target. -/
theorem sortedEnemies_setCombatTarget (env : Env) (id : ℕ) (w : World) (t : Option ℕ) :
    Unit.sortedEnemies env id (w.setCombatTarget id t) = Unit.sortedEnemies env id w := by
  have hh := setCombatTarget_heap w id t
  have hu : (w.setCombatTarget id t).units = w.units := rfl
  unfold Unit.sortedEnemies Unit.enemies
  simp only [hu, fun j => (hh j).1, fun j => (hh j).2.1, fun j => (hh j).2.2.1,
    fun j => (hh j).2.2.2.1, fun j => (hh j).2.2.2.2.1, fun j => (hh j).2.2.2.2.2.1,
    fun j => (hh j).2.2.2.2.2.2]

/-- The two ways in which `findTarget` returns. -/
theorem findTarget_cases (env : Env) (id : ℕ) (w : World) :
    (Unit.retains env id w ∧ Unit.findTarget env id w = w) ∨
    (¬ Unit.retains env id w ∧
      ∃ w1, (w1 = w ∨ w1 = w.setCombatTarget id none) ∧ (w1.heap id).combatTarget = none ∧
        ((Unit.sortedEnemies env id w = [] ∧ Unit.findTarget env id w = w1) ∨
          ∃ e rest, Unit.sortedEnemies env id w = e :: rest ∧
            Unit.findTarget env id w = w1.setCombatTarget id (some e))) := by
  by_cases hr : Unit.retains env id w
  · left
    refine ⟨hr, ?_⟩
    have hd := (dropStaleTarget_spec env id w).1 hr
    obtain ⟨t, h1, _, _⟩ := hr
    unfold Unit.findTarget
    simp only [hd, h1]
  · right
    obtain ⟨h1, h2⟩ := (dropStaleTarget_spec env id w).2 hr
    refine ⟨hr, Unit.dropStaleTarget env id w, h2, h1, ?_⟩
    have hs : Unit.sortedEnemies env id (Unit.dropStaleTarget env id w)
        = Unit.sortedEnemies env id w := by
      rcases h2 with h2 | h2
      · rw [h2]
      · rw [h2, sortedEnemies_setCombatTarget]
    unfold Unit.findTarget
    simp only [h1, hs]
    cases hse : Unit.sortedEnemies env id w with
    | nil => exact Or.inl ⟨rfl, rfl⟩
    | cons e rest => exact Or.inr ⟨e, rest, rfl, rfl⟩

/-- The first of the sorted candidates is a candidate at the least distance,
the first such in `units`; there is none only when `units` holds no
candidate. -/
theorem sortedEnemies_head (env : Env) (id : ℕ) (w : World) :
    (Unit.sortedEnemies env id w = [] → ∀ x ∈ w.units, ¬ Unit.canTarget env id w x) ∧
    ∀ e rest, Unit.sortedEnemies env id w = e :: rest →
      ∃ pre post, w.units = pre ++ e :: post ∧ Unit.canTarget env id w e ∧
        (∀ x ∈ pre, Unit.canTarget env id w x →
          dist env (w.heap id).pos (w.heap e).pos < dist env (w.heap id).pos (w.heap x).pos) ∧
        (∀ x ∈ post, Unit.canTarget env id w x →
          dist env (w.heap id).pos (w.heap e).pos ≤ dist env (w.heap id).pos (w.heap x).pos) := by
  have hp : ∀ x,
      (decide ((w.heap x).faction ≠ (w.heap id).faction) && !(w.heap x).dead &&
        decide (TargetTag.unit (w.heap x).type ∈ (w.heap id).validTargets) &&
        decide (dist env (w.heap id).pos (w.heap x).pos
          ≤ (if (w.heap id).isAir = true then 1000 else (w.heap id).range))) = true
      ↔ Unit.canTarget env id w x := by
    intro x
    simp [Unit.canTarget, and_assoc]
  have hs : Unit.sortedEnemies env id w = List.insertionSort
      (fun a b => dist env (w.heap id).pos (w.heap a).pos ≤ dist env (w.heap id).pos (w.heap b).pos)
      (w.units.filter (fun x =>
        decide ((w.heap x).faction ≠ (w.heap id).faction) && !(w.heap x).dead &&
        decide (TargetTag.unit (w.heap x).type ∈ (w.heap id).validTargets) &&
        decide (dist env (w.heap id).pos (w.heap x).pos
          ≤ (if (w.heap id).isAir = true then 1000 else (w.heap id).range)))) := rfl
  obtain ⟨h1, h2⟩ := insertionSort_filter_head
    (fun x => dist env (w.heap id).pos (w.heap x).pos)
    (fun x =>
      decide ((w.heap x).faction ≠ (w.heap id).faction) && !(w.heap x).dead &&
      decide (TargetTag.unit (w.heap x).type ∈ (w.heap id).validTargets) &&
      decide (dist env (w.heap id).pos (w.heap x).pos
        ≤ (if (w.heap id).isAir = true then 1000 else (w.heap id).range))) w.units
  rw [hs]
  refine ⟨fun h x hx hc => ?_, fun e rest h => ?_⟩
  · have := h1 h x hx
    rw [(hp x).mpr hc] at this
    cases this
  · obtain ⟨pre, post, a1, a2, a3, a4⟩ := h2 e rest h
    exact ⟨pre, post, a1, (hp e).mp a2, fun x hx hc => a3 x hx ((hp x).mpr hc),
      fun x hx hc => a4 x hx ((hp x).mpr hc)⟩

/-- The method `findTarget` changes nothing but the combat target of the
unit. -/
theorem findTarget_heap (env : Env) (id : ℕ) (w : World) (j : ℕ) :
    ((Unit.findTarget env id w).heap j).dead = (w.heap j).dead ∧
    ((Unit.findTarget env id w).heap j).pos = (w.heap j).pos := by
  have h1 : ∀ (v : World) (t : Option ℕ),
      ((v.setCombatTarget id t).heap j).dead = (v.heap j).dead ∧
      ((v.setCombatTarget id t).heap j).pos = (v.heap j).pos :=
    fun v t => ⟨(setCombatTarget_heap v id t j).2.1, (setCombatTarget_heap v id t j).2.2.2.1⟩
  have h2 : ∀ w1, (w1 = w ∨ w1 = w.setCombatTarget id none) →
      (w1.heap j).dead = (w.heap j).dead ∧ (w1.heap j).pos = (w.heap j).pos := by
    rintro w1 (rfl | rfl)
    · exact ⟨rfl, rfl⟩
    · exact h1 w none
  rcases findTarget_cases env id w with ⟨_, h⟩ | ⟨_, w1, hw1, _, ⟨_, h⟩ | ⟨e, rest, _, h⟩⟩
  · rw [h]; exact ⟨rfl, rfl⟩
  · rw [h]; exact h2 w1 hw1
  · rw [h]
    exact ⟨(h1 w1 _).1.trans (h2 w1 hw1).1, (h1 w1 _).2.trans (h2 w1 hw1).2⟩

/-- Claim C17: when the unit retains no combat target (it has none, or its
target is dead, or the unit is not a fighter and the target is farther than
twice its weapon range), `findTarget` leaves the combat target unset if
`units` holds no candidate, and otherwise sets it to a candidate whose plane
distance to the unit is least among the candidates, the first such in
`units`; the candidates are the units of another faction, not dead, of a type
in the valid-target list and within scan range, so the selected unit is
neither the unit itself nor of its faction. -/
theorem C17_findTarget_selects_nearest (env : Env) (id : ℕ) (w : World)
    (hn : ¬ Unit.retains env id w) :
    ((∀ e ∈ w.units, ¬ Unit.canTarget env id w e) →
      ((Unit.findTarget env id w).heap id).combatTarget = none) ∧
    ((∃ e ∈ w.units, Unit.canTarget env id w e) →
      ∃ e pre post, ((Unit.findTarget env id w).heap id).combatTarget = some e ∧
        w.units = pre ++ e :: post ∧ Unit.canTarget env id w e ∧
        (∀ x ∈ pre, Unit.canTarget env id w x →
          dist env (w.heap id).pos (w.heap e).pos < dist env (w.heap id).pos (w.heap x).pos) ∧
        (∀ x ∈ post, Unit.canTarget env id w x →
          dist env (w.heap id).pos (w.heap e).pos ≤ dist env (w.heap id).pos (w.heap x).pos) ∧
        e ≠ id ∧ (w.heap e).faction ≠ (w.heap id).faction) := by
  obtain ⟨s1, s2⟩ := sortedEnemies_head env id w
  rcases findTarget_cases env id w with ⟨hr, _⟩ | ⟨_, w1, _, hnone, ⟨hs, h⟩ | ⟨e, rest, hs, h⟩⟩
  · exact absurd hr hn
  · refine ⟨fun _ => by rw [h]; exact hnone, fun ⟨e, he, hc⟩ => absurd hc (s1 hs e he)⟩
  · obtain ⟨pre, post, a1, a2, a3, a4⟩ := s2 e rest hs
    refine ⟨fun hno => absurd a2 (hno e (by rw [a1]; simp)), fun _ => ?_⟩
    refine ⟨e, pre, post, ?_, a1, a2, a3, a4, ?_, a2.1⟩
    · rw [h]
      simp [World.setCombatTarget, World.setUnit]
    · intro he
      rw [he] at a2
      exact a2.1 rfl

/-- Claim C18, amended: a retained combat target (not dead, and the unit is
a fighter or the target lies within twice the weapon range) is kept and
`findTarget` changes nothing; a dead target is dropped and is not the combat
target afterwards; the target of a unit that is not a fighter is dropped by
the retention check when it is farther than twice the weapon range; after
`findTarget` the combat target of the unit is not dead, and it is within
twice the weapon range when the unit is neither a fighter nor an air unit (a
carrier, a submarine or a silo).  A bomber scans 1000 plane units after the
drop and can end with a target farther than twice its weapon range. -/
theorem C18_findTarget_retention (env : Env) (id : ℕ) (w : World) :
    (Unit.retains env id w → Unit.findTarget env id w = w) ∧
    (∀ t, (w.heap id).combatTarget = some t → (w.heap t).dead = true →
      ((Unit.dropStaleTarget env id w).heap id).combatTarget = none ∧
      ((Unit.findTarget env id w).heap id).combatTarget ≠ some t) ∧
    (∀ t, (w.heap id).combatTarget = some t → (w.heap id).type ≠ .FIGHTER →
      dist env (w.heap id).pos (w.heap t).pos > 2 * (w.heap id).range →
      ((Unit.dropStaleTarget env id w).heap id).combatTarget = none) ∧
    (∀ e, ((Unit.findTarget env id w).heap id).combatTarget = some e →
      ((Unit.findTarget env id w).heap e).dead = false ∧
      ((w.heap id).type ≠ .FIGHTER → (w.heap id).isAir = false → 0 ≤ (w.heap id).range →
        dist env ((Unit.findTarget env id w).heap id).pos
          ((Unit.findTarget env id w).heap e).pos ≤ 2 * (w.heap id).range)) := by
  have hsel : ∀ e, ((Unit.findTarget env id w).heap id).combatTarget = some e →
      (Unit.retains env id w ∧ (w.heap id).combatTarget = some e) ∨
      Unit.canTarget env id w e := by
    intro e he
    rcases findTarget_cases env id w with ⟨hr, h⟩ | ⟨_, w1, _, hnone, ⟨_, h⟩ | ⟨e', rest, hs, h⟩⟩
    · rw [h] at he
      exact Or.inl ⟨hr, he⟩
    · rw [h, hnone] at he
      cases he
    · rw [h] at he
      have : e' = e := by simpa [World.setCombatTarget, World.setUnit] using he
      subst this
      obtain ⟨_, _, _, a2, _⟩ := (sortedEnemies_head env id w).2 e' rest hs
      exact Or.inr a2
  refine ⟨fun hr => ?_, fun t ht hd => ?_, fun t ht hf hfar => ?_, fun e he => ?_⟩
  · rcases findTarget_cases env id w with ⟨_, h⟩ | ⟨hn, _⟩
    · exact h
    · exact absurd hr hn
  · have hn : ¬ Unit.retains env id w := by
      rintro ⟨t', h1, h2, _⟩
      rw [ht] at h1
      cases h1
      rw [hd] at h2
      cases h2
    refine ⟨((dropStaleTarget_spec env id w).2 hn).1, fun he => ?_⟩
    rcases hsel t he with ⟨hr, _⟩ | hc
    · exact hn hr
    · have hlive := hc.2.1
      rw [hd] at hlive
      cases hlive
  · have hn : ¬ Unit.retains env id w := by
      rintro ⟨t', h1, _, h3⟩
      rw [ht] at h1
      cases h1
      rcases h3 with h3 | h3
      · exact hf h3
      · linarith
    exact ((dropStaleTarget_spec env id w).2 hn).1
  · rw [(findTarget_heap env id w e).1, (findTarget_heap env id w e).2,
      (findTarget_heap env id w id).2]
    rcases hsel e he with ⟨⟨t, h1, h2, h3⟩, h4⟩ | hc
    · rw [h4] at h1
      cases h1
      refine ⟨h2, fun hf _ _ => ?_⟩
      rcases h3 with h3 | h3
      · exact absurd h3 hf
      · exact h3
    · refine ⟨hc.2.1, fun _ ha hrange => ?_⟩
      have := hc.2.2.2
      rw [ha] at this
      simp only [Bool.false_eq_true, if_false] at this
      linarith

/-- The sample square root is exact on squares. -/
theorem sqrtFloor_sq (x : ℚ) (hx : 0 ≤ x) : sqrtFloor (x * x) = x := by
  unfold sqrtFloor
  have hn : 0 ≤ x.num := Rat.num_nonneg.mpr hx
  rw [Rat.mul_self_num, Rat.mul_self_den]
  obtain ⟨n, hnum⟩ := Int.eq_ofNat_of_zero_le hn
  have h1 : (x.num * x.num).toNat * (x.den * x.den) = (n * x.den) * (n * x.den) := by
    rw [hnum]
    have : ((n : ℤ) * (n : ℤ)).toNat = n * n := by
      rw [← Int.natCast_mul]; exact Int.toNat_natCast _
    rw [this]
    ring
  rw [h1, Nat.sqrt_eq]
  have hd : (x.den : ℚ) ≠ 0 := by exact_mod_cast x.den_nz
  have hx' : x = (n : ℚ) / x.den := by
    conv_lhs => rw [← Rat.num_div_den x, hnum]
    simp
  push_cast
  rw [mul_div_mul_right _ _ hd]
  exact hx'.symm

/-- Claim C17 in the world `carrierWatch`: the candidates of the carrier 0
are the submarine 2 and the bomber 3, both at distance 8 (the silo 1 is not
of a type that a carrier targets, the bomber 4 is of its own faction, the
fighter 5 is dead), and `findTarget` selects the submarine 2, which comes
first in `units`. -/
theorem C17_witness :
    (¬ Unit.retains sampleEnv 0 carrierWatch ∧
      ∃ e ∈ carrierWatch.units, Unit.canTarget sampleEnv 0 carrierWatch e) ∧
    (∃ e pre post, ((Unit.findTarget sampleEnv 0 carrierWatch).heap 0).combatTarget = some e ∧
      carrierWatch.units = pre ++ e :: post ∧ Unit.canTarget sampleEnv 0 carrierWatch e ∧
      e ≠ 0) ∧
    ((Unit.findTarget sampleEnv 0 carrierWatch).heap 0).combatTarget = some 2 ∧
    dist sampleEnv (carrierWatch.heap 0).pos (carrierWatch.heap 2).pos = 8 ∧
    dist sampleEnv (carrierWatch.heap 0).pos (carrierWatch.heap 3).pos = 8 := by
  have hn : ¬ Unit.retains sampleEnv 0 carrierWatch := by
    rintro ⟨t, h, _⟩
    cases h
  have hc : ∃ e ∈ carrierWatch.units, Unit.canTarget sampleEnv 0 carrierWatch e := by
    refine ⟨2, by decide, ?_⟩
    unfold Unit.canTarget
    decide!
  obtain ⟨e, pre, post, h1, h2, h3, _, _, h6, _⟩ :=
    (C17_findTarget_selects_nearest sampleEnv 0 carrierWatch hn).2 hc
  exact ⟨⟨hn, hc⟩, ⟨e, pre, post, h1, h2, h3, h6⟩, by decide!, by decide!, by decide!⟩

theorem bomberFar_dist :
    dist sampleEnv (bomberFar.heap 0).pos (bomberFar.heap 1).pos = 100 := by
  have h : dist sampleEnv (bomberFar.heap 0).pos (bomberFar.heap 1).pos
      = sqrtFloor (100 * 100) := by
    have hs : sampleEnv.sqrt = sqrtFloor := rfl
    simp only [dist, bomberFar, Unit.new, project, sampleEnv_scale, sampleEnv_xOffset,
      sampleEnv_yOffset, hs]
    norm_num
  rw [h]
  exact sqrtFloor_sq 100 (by norm_num)

/-- Counterexample to claim C18 as stated ("after findTarget returns a
non-fighter unit's combat target is never a unit farther than 2x its weapon
range"): in the world `bomberFar` the combat target of the bomber 0 is the
silo 1 at distance 100, more than twice the weapon range 20 of a bomber;
`findTarget` drops it and, scanning 1000 plane units, selects it again. -/
theorem C18_counterexample :
    ((bomberFar.heap 0).type = .BOMBER ∧ (bomberFar.heap 0).range = 20 ∧
      (bomberFar.heap 0).combatTarget = some 1) ∧
    ((Unit.findTarget sampleEnv 0 bomberFar).heap 0).combatTarget = some 1 ∧
    dist sampleEnv ((Unit.findTarget sampleEnv 0 bomberFar).heap 0).pos
      ((Unit.findTarget sampleEnv 0 bomberFar).heap 1).pos = 100 ∧
    (100 : ℚ) > 2 * (bomberFar.heap 0).range := by
  have hr : (bomberFar.heap 0).range = 20 := rfl
  have hn : ¬ Unit.retains sampleEnv 0 bomberFar := by
    rintro ⟨t, h1, _, h3⟩
    have ht : t = 1 := by
      have h0 : (bomberFar.heap 0).combatTarget = some 1 := rfl
      rw [h0] at h1
      exact (Option.some.inj h1).symm
    subst ht
    rcases h3 with h3 | h3
    · cases h3
    · rw [bomberFar_dist, hr] at h3
      norm_num at h3
  have hc : Unit.canTarget sampleEnv 0 bomberFar 1 := by
    refine ⟨by decide, rfl, by decide, ?_⟩
    rw [bomberFar_dist]
    have ha : (bomberFar.heap 0).isAir = true := rfl
    rw [if_pos ha]
    norm_num
  have hsel : ((Unit.findTarget sampleEnv 0 bomberFar).heap 0).combatTarget = some 1 := by
    rcases findTarget_cases sampleEnv 0 bomberFar with
      ⟨h, _⟩ | ⟨_, w1, _, _, ⟨hs, _⟩ | ⟨e, rest, hs, h⟩⟩
    · exact absurd h hn
    · exact absurd hc ((sortedEnemies_head sampleEnv 0 bomberFar).1 hs 1 (by decide))
    · obtain ⟨pre, post, a1, a2, _, _⟩ := (sortedEnemies_head sampleEnv 0 bomberFar).2 e rest hs
      have hmem : e ∈ bomberFar.units := by rw [a1]; simp
      have he : e = 0 ∨ e = 1 := by simpa [bomberFar] using hmem
      rcases he with he | he
      · rw [he] at a2
        exact absurd rfl a2.1
      · rw [h, he]
        simp [World.setCombatTarget, World.setUnit]
  refine ⟨⟨rfl, rfl, rfl⟩, hsel, ?_, by rw [hr]; norm_num⟩
  rw [(findTarget_heap sampleEnv 0 bomberFar 0).2, (findTarget_heap sampleEnv 0 bomberFar 1).2]
  exact bomberFar_dist

/-- Claim C18, amended, in the world `carrierWatch`: the carrier 0 is not an
air unit, and after `findTarget` its combat target, the submarine 2, is not
dead and lies at distance 8, within twice its weapon range 150. -/
theorem C18_witness :
    ((Unit.findTarget sampleEnv 0 carrierWatch).heap 0).combatTarget = some 2 ∧
    ((Unit.findTarget sampleEnv 0 carrierWatch).heap 2).dead = false ∧
    dist sampleEnv ((Unit.findTarget sampleEnv 0 carrierWatch).heap 0).pos
      ((Unit.findTarget sampleEnv 0 carrierWatch).heap 2).pos
        ≤ 2 * (carrierWatch.heap 0).range := by
  have he : ((Unit.findTarget sampleEnv 0 carrierWatch).heap 0).combatTarget = some 2 := by
    decide!
  have h := (C18_findTarget_retention sampleEnv 0 carrierWatch).2.2.2 2 he
  exact ⟨he, h.1, h.2 (by decide) rfl (by decide!)⟩

/-! ## Movement -/

/-- The speed of every archetype is at least 0 and less than 1. -/
theorem archetype_speed (t : UnitType) : 0 ≤ (UNIT_STATS t).speed ∧ (UNIT_STATS t).speed < 1 := by
  cases t <;> norm_num [UNIT_STATS]

/-- The rational case of the interpolation of `moveTo`: let `Math.sqrt` be
exact on squares, let the target point be at the rational distance `d` from
the unit, and let the unit have the speed of its archetype.  If `d ≤ 1`,
`moveTo` changes nothing.  If `d > 1` and the move is committed (the unit is
not naval, or the next point is not on land), the new position is the old one
plus `speed / d` times the vector to the target, with `0 ≤ speed / d < 1`, so
it lies on the segment from the old position to the target; its distance from
the old position is `speed`, and its distance to the target is `d - speed`,
which is positive. -/
theorem moveTo_rational_distance (env : Env) (id : ℕ) (targetPos : Pt) (w : World)
    (hsq : ∀ x : ℚ, 0 ≤ x → env.sqrt (x * x) = x) (d : ℚ) (hd0 : 0 ≤ d)
    (hd : d * d = (targetPos.x - (w.heap id).pos.x) ^ 2 + (targetPos.y - (w.heap id).pos.y) ^ 2)
    (hs : (w.heap id).speed = (UNIT_STATS (w.heap id).type).speed) :
    dist env (w.heap id).pos targetPos = d ∧
    (d ≤ 1 → Unit.moveTo env id targetPos w = w) ∧
    (1 < d →
      ((w.heap id).isNaval = false ∨
        isOnLand env
          (unproject env
            ((w.heap id).pos.x + (targetPos.x - (w.heap id).pos.x) / d * (w.heap id).speed)
            ((w.heap id).pos.y + (targetPos.y - (w.heap id).pos.y) / d * (w.heap id).speed)).lon
          (unproject env
            ((w.heap id).pos.x + (targetPos.x - (w.heap id).pos.x) / d * (w.heap id).speed)
            ((w.heap id).pos.y + (targetPos.y - (w.heap id).pos.y) / d * (w.heap id).speed)).lat
          = false) →
      (((Unit.moveTo env id targetPos w).heap id).pos.x
          = (w.heap id).pos.x + (w.heap id).speed / d * (targetPos.x - (w.heap id).pos.x) ∧
        ((Unit.moveTo env id targetPos w).heap id).pos.y
          = (w.heap id).pos.y + (w.heap id).speed / d * (targetPos.y - (w.heap id).pos.y) ∧
        0 ≤ (w.heap id).speed / d ∧ (w.heap id).speed / d < 1) ∧
      dist env (w.heap id).pos ((Unit.moveTo env id targetPos w).heap id).pos
        = (w.heap id).speed ∧
      dist env ((Unit.moveTo env id targetPos w).heap id).pos targetPos
        = d - (w.heap id).speed ∧
      0 < d - (w.heap id).speed) := by
  have hsp := archetype_speed (w.heap id).type
  rw [← hs] at hsp
  have hroot : env.sqrt ((targetPos.x - (w.heap id).pos.x) * (targetPos.x - (w.heap id).pos.x)
      + (targetPos.y - (w.heap id).pos.y) * (targetPos.y - (w.heap id).pos.y)) = d := by
    rw [← hsq d hd0]
    congr 1
    rw [hd]
    ring
  refine ⟨?_, fun hle => ?_, fun hlt hcommit => ?_⟩
  · unfold dist
    rw [← hsq d hd0]
    congr 1
    rw [hd]
    ring
  · unfold Unit.moveTo
    simp only
    rw [hroot, if_neg (not_lt.mpr hle)]
  · have hdpos : 0 < d := by linarith
    have hdne : d ≠ 0 := ne_of_gt hdpos
    have hmove : Unit.moveTo env id targetPos w = w.setPos id
        { x := (w.heap id).pos.x + (targetPos.x - (w.heap id).pos.x) / d * (w.heap id).speed
          y := (w.heap id).pos.y + (targetPos.y - (w.heap id).pos.y) / d * (w.heap id).speed }
        := by
      unfold Unit.moveTo
      simp only
      rw [hroot, if_pos hlt, if_neg]
      rintro ⟨h1, h2⟩
      rcases hcommit with h | h
      · rw [h] at h1; cases h1
      · rw [h] at h2; cases h2
    have hpos : ((Unit.moveTo env id targetPos w).heap id).pos =
        { x := (w.heap id).pos.x + (targetPos.x - (w.heap id).pos.x) / d * (w.heap id).speed
          y := (w.heap id).pos.y + (targetPos.y - (w.heap id).pos.y) / d * (w.heap id).speed }
        := by
      rw [hmove]
      simp [World.setPos, World.setUnit]
    rw [hpos]
    refine ⟨⟨by simp only; ring, by simp only; ring, div_nonneg hsp.1 hd0,
      (div_lt_one hdpos).mpr (by linarith)⟩, ?_, ?_, by linarith⟩
    · have harg : ((w.heap id).pos.x - ((w.heap id).pos.x
            + (targetPos.x - (w.heap id).pos.x) / d * (w.heap id).speed)) ^ 2
          + ((w.heap id).pos.y - ((w.heap id).pos.y
            + (targetPos.y - (w.heap id).pos.y) / d * (w.heap id).speed)) ^ 2
          = (w.heap id).speed * (w.heap id).speed := by
        field_simp
        linear_combination (-((w.heap id).speed) ^ 2) * hd
      unfold dist
      simp only
      rw [harg]
      exact hsq _ hsp.1
    · have harg : ((w.heap id).pos.x
            + (targetPos.x - (w.heap id).pos.x) / d * (w.heap id).speed - targetPos.x) ^ 2
          + ((w.heap id).pos.y
            + (targetPos.y - (w.heap id).pos.y) / d * (w.heap id).speed - targetPos.y) ^ 2
          = (d - (w.heap id).speed) * (d - (w.heap id).speed) := by
        field_simp
        linear_combination (-(d - (w.heap id).speed) ^ 2) * hd
      unfold dist
      simp only
      rw [harg]
      exact hsq _ (by linarith)

/-- The rational case for the bomber 0 of the world `bomberFar` at
`(310, 50)` and the target point `(313, 54)` at distance 5: the bomber, of
speed `2 / 5`, moves to `(310 + 6 / 25, 50 + 8 / 25)`, at distance `2 / 5`
from where it was and `23 / 5` from the target. -/
theorem moveTo_rational_distance_sample :
    ((∀ x : ℚ, 0 ≤ x → sampleEnv.sqrt (x * x) = x) ∧
      (5 : ℚ) * 5 = (313 - (bomberFar.heap 0).pos.x) ^ 2 + (54 - (bomberFar.heap 0).pos.y) ^ 2 ∧
      (bomberFar.heap 0).isNaval = false) ∧
    ((Unit.moveTo sampleEnv 0 { x := 313, y := 54 } bomberFar).heap 0).pos.x
      = 310 + 6 / 25 ∧
    ((Unit.moveTo sampleEnv 0 { x := 313, y := 54 } bomberFar).heap 0).pos.y
      = 50 + 8 / 25 ∧
    dist sampleEnv (bomberFar.heap 0).pos
      ((Unit.moveTo sampleEnv 0 { x := 313, y := 54 } bomberFar).heap 0).pos = 2 / 5 ∧
    dist sampleEnv ((Unit.moveTo sampleEnv 0 { x := 313, y := 54 } bomberFar).heap 0).pos
      { x := 313, y := 54 } = 5 - 2 / 5 := by
  have hx : (bomberFar.heap 0).pos.x = 310 := by
    simp only [bomberFar, Unit.new, project, sampleEnv_scale, sampleEnv_xOffset]
    norm_num
  have hy : (bomberFar.heap 0).pos.y = 50 := by
    simp only [bomberFar, Unit.new, project, sampleEnv_scale, sampleEnv_yOffset]
    norm_num
  have hv : (bomberFar.heap 0).speed = 2 / 5 := by
    simp only [bomberFar, Unit.new, UNIT_STATS]
    norm_num
  have hd : (5 : ℚ) * 5
      = (313 - (bomberFar.heap 0).pos.x) ^ 2 + (54 - (bomberFar.heap 0).pos.y) ^ 2 := by
    rw [hx, hy]
    norm_num
  obtain ⟨_, _, h3⟩ := moveTo_rational_distance sampleEnv 0 { x := 313, y := 54 }
    bomberFar sqrtFloor_sq 5 (by norm_num) hd rfl
  obtain ⟨⟨p1, p2, _, _⟩, p3, p4, _⟩ := h3 (by norm_num) (Or.inl rfl)
  refine ⟨⟨sqrtFloor_sq, hd, rfl⟩, ?_, ?_, ?_, ?_⟩
  · rw [p1, hx, hv]; norm_num
  · rw [p2, hy, hv]; norm_num
  · rw [p3, hv]
  · rw [p4, hv]

/-! ## Rectangles -/

/-- Claim C23: for the ring of an axis-aligned rectangle with corners
`(x0, y0)`, `(x1, y0)`, `(x1, y1)`, `(x0, y1)`, `x0 < x1` and `y0 < y1`, with
or without the closing repeat of the first corner, `isPointInPoly([x, y],
ring)` is true exactly when `x0 ≤ x < x1` and `y0 ≤ y < y1`; for the empty
ring it is false. -/
theorem C23_isPointInPoly_rectangle (x0 y0 x1 y1 x y : ℚ) (hx : x0 < x1) (hy : y0 < y1) :
    (isPointInPoly (x, y) [(x0, y0), (x1, y0), (x1, y1), (x0, y1)] = true ↔
      (x0 ≤ x ∧ x < x1) ∧ (y0 ≤ y ∧ y < y1)) ∧
    (isPointInPoly (x, y) [(x0, y0), (x1, y0), (x1, y1), (x0, y1), (x0, y0)] = true ↔
      (x0 ≤ x ∧ x < x1) ∧ (y0 ≤ y ∧ y < y1)) ∧
    isPointInPoly (x, y) [] = false := by
  have hne : y1 - y0 ≠ 0 := by linarith
  have hne' : y0 - y1 ≠ 0 := by linarith
  refine ⟨?_, ?_, rfl⟩
  · simp only [isPointInPoly, isPointInPolyStep, intersect, List.length_cons, List.length_nil,
      List.range_succ, List.range_zero, List.foldl_cons, List.foldl_nil, List.nil_append,
      List.cons_append, List.getD_cons_zero, List.getD_cons_succ, sub_self, zero_mul, zero_div,
      zero_add]
    by_cases h1 : y0 > y <;> by_cases h2 : y1 > y <;> by_cases h3 : x < x0 <;>
      by_cases h4 : x < x1 <;> simp [h1, h2, h3, h4] <;> first | linarith | (constructor <;> linarith)
  · simp only [isPointInPoly, isPointInPolyStep, intersect, List.length_cons, List.length_nil,
      List.range_succ, List.range_zero, List.foldl_cons, List.foldl_nil, List.nil_append,
      List.cons_append, List.getD_cons_zero, List.getD_cons_succ, sub_self, zero_mul, zero_div,
      zero_add]
    by_cases h1 : y0 > y <;> by_cases h2 : y1 > y <;> by_cases h3 : x < x0 <;>
      by_cases h4 : x < x1 <;> simp [h1, h2, h3, h4] <;> first | linarith | (constructor <;> linarith)

/-- Claim C23 for the square landmass of the sample world, with the closing
repeat of the first corner: the point `(10, 50)` is inside, and the point
`(20, 50)` on the east side is not. -/
theorem C23_witness :
    ((0 : ℚ) < 20 ∧ (40 : ℚ) < 60) ∧
    isPointInPoly (10, 50) [(0, 40), (20, 40), (20, 60), (0, 60), (0, 40)] = true ∧
    isPointInPoly (20, 50) [(0, 40), (20, 40), (20, 60), (0, 60), (0, 40)] = false := by
  refine ⟨⟨by norm_num, by norm_num⟩, ?_, ?_⟩
  · exact (C23_isPointInPoly_rectangle 0 40 20 60 10 50 (by norm_num) (by norm_num)).2.1.mpr
      ⟨⟨by norm_num, by norm_num⟩, by norm_num, by norm_num⟩
  · have h := (C23_isPointInPoly_rectangle 0 40 20 60 20 50 (by norm_num) (by norm_num)).2.1
    cases hp : isPointInPoly (20, 50) [(0, 40), (20, 40), (20, 60), (0, 60), (0, 40)]
    · rfl
    · have := (h.mp hp).1.2
      norm_num at this

/-! ## The spawn region of a mobilized faction -/

/-- Claim C24: the faction that `checkImpact` identifies as the victim is
never `ROGUE`, whether found by territory match or by the quadrant heuristic;
each of the six other factions has a spawn region, so that
`spawnFactionUnits` returns for it; `checkImpact` never throws; and in every
state reached by a run from the loaded script, every faction for which
`spawnFactionUnits` has been invoked is not `ROGUE` and has a spawn region. -/
theorem C24_spawn_region_always_defined (env : Env) :
    (∀ lon lat, victimOf env lon lat ≠ some .ROGUE) ∧
    (∀ f, f ≠ .ROGUE →
      (spawnRegion f).isSome = true ∧ ∀ w, ∃ w', spawnFactionUnits env f w = some w') ∧
    (∀ src x y a w, ∃ w', checkImpact env src x y a w = some w') ∧
    (∀ inputs w', run env inputs World.initial = some w' →
      ∀ f, .mobilize f ∈ w'.trace → f ≠ .ROGUE ∧ (spawnRegion f).isSome = true) := by
  have hreg : ∀ f, f ≠ FactionId.ROGUE → (spawnRegion f).isSome = true := by
    intro f hf
    cases f <;> first | rfl | exact absurd rfl hf
  refine ⟨victimOf_ne_rogue env, fun f hf => ⟨hreg f hf, fun w => ?_⟩,
    checkImpact_total env, fun inputs w' h f hm => ?_⟩
  · exact spawnFactionUnits_total env f w hf
  · have hne : f ≠ .ROGUE := by
      rintro rfl
      have hc := ((run_evolves env inputs _ w' h).mobilized .ROGUE).2
      have h0 : List.count (Event.mobilize .ROGUE) w'.trace = 0 := by
        rw [hc]
        simp [World.initial, initialAlert]
      exact (List.count_eq_zero.mp h0) hm
    exact ⟨hne, hreg f hne⟩

/-! ## Missile launches -/

theorem project_unproject (env : Env) (hw : 0 < env.width) (hh : 0 < env.height) (x y : ℚ) :
    project env (unproject env x y).lon (unproject env x y).lat = ⟨x, y⟩ := by
  have hs : scale env ≠ 0 := (scale_pos env hw hh).ne'
  simp only [unproject, project, Pt.mk.injEq]
  constructor
  · field_simp
    ring
  · field_simp

theorem mem_liveLaunchTargets (w : World) (ef : FactionId) (t : ℕ) :
    t ∈ liveLaunchTargets w ef ↔ t ∈ w.units ∧ Unit.isLaunchTarget w ef t := by
  simp [liveLaunchTargets, Unit.isLaunchTarget, and_assoc]

/-- The last statement of `launchMissile()` appends one missile of the
faction of the unit from its position to the target point, decrements `ammo`
and sets the cooldown to 400. -/
theorem fire_spec (env : Env) (hw : 0 < env.width) (hh : 0 < env.height) (id : ℕ)
    (targetPos : Coord) (w : World) :
    ((Unit.fire env id targetPos w).missiles = w.missiles ++ [w.nextMissile] ∧
      (Unit.fire env id targetPos w).nextMissile = w.nextMissile + 1 ∧
      ∀ j, j ≠ w.nextMissile → (Unit.fire env id targetPos w).mheap j = w.mheap j) ∧
    (((Unit.fire env id targetPos w).mheap w.nextMissile).faction = (w.heap id).faction ∧
      ((Unit.fire env id targetPos w).mheap w.nextMissile).start = (w.heap id).pos ∧
      ((Unit.fire env id targetPos w).mheap w.nextMissile).finish
        = project env targetPos.1 targetPos.2 ∧
      ((Unit.fire env id targetPos w).mheap w.nextMissile).progress = 0 ∧
      ((Unit.fire env id targetPos w).mheap w.nextMissile).dead = false) ∧
    ((Unit.fire env id targetPos w).heap id).ammo = (w.heap id).ammo - 1 ∧
    ((Unit.fire env id targetPos w).heap id).cooldown = 400 := by
  have hp := project_unproject env hw hh (w.heap id).pos.x (w.heap id).pos.y
  refine ⟨⟨rfl, rfl, fun j hj => ?_⟩, ⟨?_, ?_, ?_, ?_, ?_⟩, ?_, ?_⟩
  · simp [Unit.fire, pushMissile, World.decAmmo, World.setCooldown, World.setUnit,
      Function.update, hj]
  · simp [Unit.fire, pushMissile, World.decAmmo, World.setCooldown, World.setUnit, Missile.new]
  · simp only [Unit.fire, pushMissile, World.decAmmo, World.setCooldown, World.setUnit,
      Missile.new, Function.update_same]
    exact hp
  · simp [Unit.fire, pushMissile, World.decAmmo, World.setCooldown, World.setUnit, Missile.new]
  · simp [Unit.fire, pushMissile, World.decAmmo, World.setCooldown, World.setUnit, Missile.new]
  · simp [Unit.fire, pushMissile, World.decAmmo, World.setCooldown, World.setUnit, Missile.new]
  · simp [Unit.fire, pushMissile, World.decAmmo, World.setCooldown, World.setUnit]
  · simp [Unit.fire, pushMissile, World.decAmmo, World.setCooldown, World.setUnit]

/-- Claim C21: for a viewport of positive size and draws in `[0, 1)`, when
some faction other than the unit's own and `ROGUE` has a territory point,
`launchMissile` returns and appends exactly one missile; the missile is
attributed to the faction of the unit and starts at the plane position of the
unit; with `ef` the enemy faction chosen by the first draw, it ends at the
position of a live silo or carrier of `ef` whenever `units` holds one, and
otherwise at the projection of a territory point of `ef`; `ammo` is
decremented by 1 and the cooldown is set to 400. -/
theorem C21_launchMissile_consumes_one (env : Env) (hw : 0 < env.width)
    (hh : 0 < env.height) (hr : ∀ n, 0 ≤ env.random n ∧ env.random n < 1) (id : ℕ)
    (w : World)
    (hen : ∃ f, f ≠ (w.heap id).faction ∧ f ≠ .ROGUE ∧ env.targets f ≠ []) :
    ∃ w' ef, Unit.launchMissile env id w = some w' ∧
      (pick (enemyFactions env (w.heap id).faction) (env.random w.rnd) = some ef ∧
        ef ≠ (w.heap id).faction ∧ ef ≠ .ROGUE ∧ env.targets ef ≠ []) ∧
      (w'.missiles = w.missiles ++ [w.nextMissile] ∧ w'.nextMissile = w.nextMissile + 1 ∧
        ∀ j, j ≠ w.nextMissile → w'.mheap j = w.mheap j) ∧
      ((w'.mheap w.nextMissile).faction = (w.heap id).faction ∧
        (w'.mheap w.nextMissile).start = (w.heap id).pos ∧
        (w'.mheap w.nextMissile).progress = 0 ∧ (w'.mheap w.nextMissile).dead = false) ∧
      ((∃ t ∈ w.units, Unit.isLaunchTarget w ef t) →
        ∃ t ∈ w.units, Unit.isLaunchTarget w ef t ∧
          (w'.mheap w.nextMissile).finish = (w.heap t).pos) ∧
      ((¬ ∃ t ∈ w.units, Unit.isLaunchTarget w ef t) →
        ∃ p ∈ env.targets ef, (w'.mheap w.nextMissile).finish = project env p.1 p.2) ∧
      (w'.heap id).ammo = (w.heap id).ammo - 1 ∧ (w'.heap id).cooldown = 400 := by
  obtain ⟨f, hf1, hf2, hf3⟩ := hen
  have hmem : f ∈ enemyFactions env (w.heap id).faction :=
    (enemyFactions_spec env _ f).mpr ⟨hf1, hf2, List.length_pos.mpr hf3⟩
  have hlen : 0 < (enemyFactions env (w.heap id).faction).length :=
    List.length_pos_of_mem hmem
  obtain ⟨ef, hef, hefm⟩ := pick_some (enemyFactions env (w.heap id).faction) (w.draw env)
    hlen (hr _).1 (hr _).2
  obtain ⟨e1, e2, e3⟩ := (enemyFactions_spec env _ ef).mp hefm
  have hl : liveLaunchTargets w.advance ef = liveLaunchTargets w ef := rfl
  unfold Unit.launchMissile
  rw [if_neg (Nat.pos_iff_ne_zero.mp hlen), hef]
  simp only
  by_cases h1 : (liveLaunchTargets w.advance ef).length > 0
  · rw [if_pos h1]
    obtain ⟨t, ht, htm⟩ := pick_some (liveLaunchTargets w.advance ef) (w.advance.draw env) h1
      (hr _).1 (hr _).2
    rw [ht]
    rw [hl] at htm
    obtain ⟨tu, tp⟩ := (mem_liveLaunchTargets w ef t).mp htm
    obtain ⟨s1, ⟨s2, s3, s4, s5, s6⟩, s7, s8⟩ := fire_spec env hw hh id
      ((unproject env (w.advance.heap t).pos.x (w.advance.heap t).pos.y).lon,
        (unproject env (w.advance.heap t).pos.x (w.advance.heap t).pos.y).lat)
      w.advance.advance
    refine ⟨_, ef, rfl, ⟨hef, e1, e2, List.length_pos.mp e3⟩, s1, ⟨s2, s3, s5, s6⟩,
      fun _ => ⟨t, tu, tp, ?_⟩, fun hno => absurd ⟨t, tu, tp⟩ hno, s7, s8⟩
    exact s4.trans (project_unproject env hw hh _ _)
  · rw [if_neg h1]
    obtain ⟨p, hp, hpm⟩ := pick_some (env.targets ef) (w.advance.draw env) e3
      (hr _).1 (hr _).2
    rw [hp]
    obtain ⟨s1, ⟨s2, s3, s4, s5, s6⟩, s7, s8⟩ := fire_spec env hw hh id p w.advance.advance
    refine ⟨_, ef, rfl, ⟨hef, e1, e2, List.length_pos.mp e3⟩, s1, ⟨s2, s3, s5, s6⟩,
      fun ⟨t, tu, tp⟩ => absurd ?_ h1, fun _ => ⟨p, hpm, s4⟩, s7, s8⟩
    rw [hl]
    exact List.length_pos_of_mem ((mem_liveLaunchTargets w ef t).mpr ⟨tu, tp⟩)

/-- Claim C21 in the world `siloReady`: `EU` is the only faction with a
territory point and has no unit, and the silo 0 of `NA` launches one missile
at the territory point `(10 E, 50 N)` of `EU`. -/
theorem C21_witness :
    ((0 < sampleEnv.width ∧ 0 < sampleEnv.height) ∧
      (∀ n, 0 ≤ sampleEnv.random n ∧ sampleEnv.random n < 1) ∧
      ∃ f, f ≠ (siloReady.heap 0).faction ∧ f ≠ .ROGUE ∧ sampleEnv.targets f ≠ []) ∧
    ∃ w', Unit.launchMissile sampleEnv 0 siloReady = some w' ∧
      w'.missiles = [0] ∧ w'.nextMissile = 1 ∧
      (w'.mheap 0).faction = .NA ∧ (w'.mheap 0).start = (siloReady.heap 0).pos ∧
      (w'.heap 0).ammo = 9 ∧ (w'.heap 0).cooldown = 400 := by
  have hw : 0 < sampleEnv.width := by norm_num [sampleEnv]
  have hh : 0 < sampleEnv.height := by norm_num [sampleEnv]
  have hen : ∃ f, f ≠ (siloReady.heap 0).faction ∧ f ≠ .ROGUE ∧ sampleEnv.targets f ≠ [] :=
    ⟨.EU, by decide, by decide, by simp [sampleEnv]⟩
  obtain ⟨w', ef, h1, _, ⟨h2, h3, _⟩, ⟨h4, h5, _, _⟩, _, _, h6, h7⟩ :=
    C21_launchMissile_consumes_one sampleEnv hw hh sampleEnv_random 0 siloReady hen
  exact ⟨⟨⟨hw, hh⟩, sampleEnv_random, hen⟩, w', h1, h2, h3, h4, h5, h6, h7⟩

/-! ## Aircraft spawned by a carrier -/

/-- What the steering of unit `id` leaves as it is: the arrays, every other
unit object, and type, faction, hangar and cooldown of the unit. -/
theorem steers_keep (env : Env) (id : ℕ) (e : Effect) (h : e.steers id) (v : World) :
    (e.apply env v).units = v.units ∧ (e.apply env v).nextUnit = v.nextUnit ∧
    (e.apply env v).defcon = v.defcon ∧ (e.apply env v).isAlerted = v.isAlerted ∧
    (∀ j, j ≠ id → (e.apply env v).heap j = v.heap j) ∧
    ((e.apply env v).heap id).type = (v.heap id).type ∧
    ((e.apply env v).heap id).faction = (v.heap id).faction ∧
    ((e.apply env v).heap id).hangar = (v.heap id).hangar ∧
    ((e.apply env v).heap id).cooldown = (v.heap id).cooldown := by
  cases e <;> (try simp [Effect.steers] at h) <;>
    (try subst h) <;>
    simp [Effect.apply, World.setRnd, World.setTarget, World.setCombatTarget, World.setPos,
      World.setUnit] <;>
    intro j hj <;> simp [Function.update, hj]

theorem Evolves.steer {env : Env} {id : ℕ} {w w' : World}
    (h : Evolves env (Effect.steers id) w w') :
    w'.units = w.units ∧ w'.nextUnit = w.nextUnit ∧
    w'.defcon = w.defcon ∧ w'.isAlerted = w.isAlerted ∧
    (∀ j, j ≠ id → w'.heap j = w.heap j) ∧
    (w'.heap id).type = (w.heap id).type ∧ (w'.heap id).faction = (w.heap id).faction ∧
    (w'.heap id).hangar = (w.heap id).hangar ∧
    (w'.heap id).cooldown = (w.heap id).cooldown := by
  induction h with
  | refl => exact ⟨rfl, rfl, rfl, rfl, fun _ _ => rfl, rfl, rfl, rfl, rfl⟩
  | step e _ hk _ ih =>
    obtain ⟨k1, k2, k3, k4, k5, k6, k7, k8, k9⟩ := steers_keep env id e hk _
    obtain ⟨i1, i2, i3, i4, i5, i6, i7, i8, i9⟩ := ih
    exact ⟨k1.trans i1, k2.trans i2, k3.trans i3, k4.trans i4,
      fun j hj => (k5 j hj).trans (i5 j hj), k6.trans i6, k7.trans i7, k8.trans i8,
      k9.trans i9⟩

/-- The world after "CARRIER LOGIC" has fired for the carrier `id`. -/
theorem carrierLogic_fires (env : Env) (hw : 0 < env.width) (hh : 0 < env.height) (id : ℕ)
    (v : World) (hid : id < v.nextUnit) (ht : (v.heap id).type = .CARRIER)
    (hd : v.defcon = 1) (hg : (v.heap id).hangar > 0) (hc : (v.heap id).cooldown ≤ 0) :
    (Unit.carrierLogic env id v).units = v.units ++ [v.nextUnit] ∧
    (Unit.carrierLogic env id v).nextUnit = v.nextUnit + 1 ∧
    (Unit.carrierLogic env id v).defcon = v.defcon ∧
    (Unit.carrierLogic env id v).isAlerted = v.isAlerted ∧
    ((Unit.carrierLogic env id v).heap v.nextUnit).faction = (v.heap id).faction ∧
    ((Unit.carrierLogic env id v).heap v.nextUnit).pos = (v.heap id).pos ∧
    ((Unit.carrierLogic env id v).heap v.nextUnit).type
      = (if env.random v.rnd > 4 / 10 then .FIGHTER else .BOMBER) ∧
    ((Unit.carrierLogic env id v).heap id).type = .CARRIER ∧
    ((Unit.carrierLogic env id v).heap id).hangar = (v.heap id).hangar - 1 ∧
    ((Unit.carrierLogic env id v).heap id).cooldown = 200 := by
  have hne : id ≠ v.nextUnit := Nat.ne_of_lt hid
  have hne' : v.nextUnit ≠ id := fun h => hne h.symm
  have hp := project_unproject env hw hh (v.heap id).pos.x (v.heap id).pos.y
  have heq : Unit.carrierLogic env id v =
      ((pushUnit env (if v.draw env > 4 / 10 then .FIGHTER else .BOMBER) (v.heap id).faction
        (unproject env (v.heap id).pos.x (v.heap id).pos.y).lon
        (unproject env (v.heap id).pos.x (v.heap id).pos.y).lat v.advance).decHangar
        id).setCooldown id 200 := by
    unfold Unit.carrierLogic
    exact if_pos ⟨ht, hd, hg, hc⟩
  rw [heq]
  refine ⟨rfl, rfl, rfl, rfl, ?_, ?_, ?_, ?_, ?_, ?_⟩
  · simp [pushUnit, World.decHangar, World.setCooldown, World.setUnit, World.advance,
      World.setRnd, Function.update, hne', Unit.new]
  · simp only [pushUnit, World.decHangar, World.setCooldown, World.setUnit, World.advance,
      World.setRnd, Function.update, hne', Unit.new]
    simpa using hp
  · simp [pushUnit, World.decHangar, World.setCooldown, World.setUnit, World.advance,
      World.setRnd, Function.update, hne', Unit.new, World.draw]
  · simp [pushUnit, World.decHangar, World.setCooldown, World.setUnit, World.advance,
      World.setRnd, Function.update, hne, ht]
  · simp [pushUnit, World.decHangar, World.setCooldown, World.setUnit, World.advance,
      World.setRnd, Function.update, hne]
  · simp [pushUnit, World.decHangar, World.setCooldown, World.setUnit, World.advance,
      World.setRnd, Function.update, hne]

/-- Claim C22: for a viewport of positive size, when the hangar logic of a
live carrier fires in `update()` (`defcon = 1`, `hangar > 0`, and the cooldown
is at most 0 after its decrement), the `update()` appends exactly one unit to
`units`; the new unit is of the faction of the carrier, at the plane position
that the carrier has when `update()` is called, a fighter when the draw is
greater than `0.4` and a bomber otherwise; the hangar of the carrier is
decremented by 1 and its cooldown is 200 when `update()` returns. -/
theorem C22_carrier_spawns_one_aircraft (env : Env) (hw : 0 < env.width)
    (hh : 0 < env.height) (id : ℕ) (w : World) (hid : id < w.nextUnit)
    (hlive : (w.heap id).dead = false) (ht : (w.heap id).type = .CARRIER)
    (hd : w.defcon = 1) (hg : (w.heap id).hangar > 0) (hc : (w.heap id).cooldown - 1 ≤ 0) :
    ((∀ n, 0 ≤ env.random n ∧ env.random n < 1) → ∃ w', Unit.update env id w = some w') ∧
    ∀ w', Unit.update env id w = some w' →
      w'.units = w.units ++ [w.nextUnit] ∧ w'.nextUnit = w.nextUnit + 1 ∧
      (w'.heap w.nextUnit).faction = (w.heap id).faction ∧
      (w'.heap w.nextUnit).pos = (w.heap id).pos ∧
      (w'.heap w.nextUnit).type = (if env.random w.rnd > 4 / 10 then .FIGHTER else .BOMBER) ∧
      (w'.heap id).hangar = (w.heap id).hangar - 1 ∧ (w'.heap id).cooldown = 200 := by
  refine ⟨fun hr => update_total env hr id w, fun w' h => ?_⟩
  have hne : w.nextUnit ≠ id := fun h => (Nat.ne_of_lt hid) h.symm
  obtain ⟨v, hv⟩ : ∃ v, v = (w.log (.unitUpdate id)).setCooldown id
      (((w.log (.unitUpdate id)).heap id).cooldown - 1) := ⟨_, rfl⟩
  have v1 : v.nextUnit = w.nextUnit := by rw [hv]; rfl
  have v2 : v.units = w.units := by rw [hv]; rfl
  have v3 : v.defcon = w.defcon := by rw [hv]; rfl
  have v4 : v.rnd = w.rnd := by rw [hv]; rfl
  have v5 : (v.heap id).type = (w.heap id).type := by
    rw [hv]; simp [World.setCooldown, World.setUnit, World.log]
  have v6 : (v.heap id).faction = (w.heap id).faction := by
    rw [hv]; simp [World.setCooldown, World.setUnit, World.log]
  have v7 : (v.heap id).hangar = (w.heap id).hangar := by
    rw [hv]; simp [World.setCooldown, World.setUnit, World.log]
  have v8 : (v.heap id).cooldown = (w.heap id).cooldown - 1 := by
    rw [hv]; simp [World.setCooldown, World.setUnit, World.log]
  have v9 : (v.heap id).pos = (w.heap id).pos := by
    rw [hv]; simp [World.setCooldown, World.setUnit, World.log]
  obtain ⟨c1, c2, _, _, c5, c6, c7, c8, c9, c10⟩ := carrierLogic_fires env hw hh id v
    (by rw [v1]; exact hid) (by rw [v5]; exact ht) (by rw [v3]; exact hd)
    (by rw [v7]; exact hg) (by rw [v8]; exact hc)
  rw [v1] at c2 c5 c6 c7
  rw [v1, v2] at c1
  rw [v4] at c7
  rw [v6] at c5
  rw [v9] at c6
  rw [v7] at c9
  unfold Unit.update at h
  simp only at h
  rw [if_neg (by simpa [World.log] using hlive), ← hv] at h
  split at h
  · cases h
  · rename_i w3 hm
    obtain ⟨m1, m2, _, _, m5, m6, _, m8, m9⟩ := (movementLogic_evolves env id _ w3 hm).steer
    have hw3 : w' = w3 := by
      unfold Unit.combatLogic at h
      split_ifs at h
      · have t3 : (w3.heap id).type = .CARRIER := m6.trans c8
        have hsilo : Unit.siloLaunch env id w3 = some w3 := by
          unfold Unit.siloLaunch
          rw [if_neg (by rw [t3]; simp)]
        have hsub : Unit.subLaunch env id w3 = some w3 := by
          unfold Unit.subLaunch
          rw [if_neg (by rw [t3]; simp)]
        have hlaser : Unit.laserAttack env id w3 = w3 := by
          unfold Unit.laserAttack
          rw [if_neg]
          rintro ⟨_, hcool⟩
          rw [m9, c10] at hcool
          norm_num at hcool
        have hbomb : Unit.bomberAttack env id w3 = some w3 := by
          unfold Unit.bomberAttack
          rw [if_neg (by rw [t3]; simp)]
        rw [hsilo] at h
        simp only at h
        rw [hsub] at h
        simp only at h
        rw [hlaser, hbomb] at h
        exact (Option.some.inj h).symm
      · exact (Option.some.inj h).symm
    rw [hw3]
    exact ⟨m1.trans c1, m2.trans c2, by rw [m5 _ hne]; exact c5, by rw [m5 _ hne]; exact c6,
      by rw [m5 _ hne]; exact c7, m8.trans c9, m9.trans c10⟩

/-- Claim C22 in the world `carrierReady`, where every draw is `1 / 2`: the
`update()` of the carrier 0 appends one fighter of `NA` at the position of the
carrier and leaves nine aircraft in the hangar. -/
theorem C22_witness :
    ((0 < sampleEnv.width ∧ 0 < sampleEnv.height) ∧ 0 < carrierReady.nextUnit ∧
      (carrierReady.heap 0).dead = false ∧ (carrierReady.heap 0).type = .CARRIER ∧
      carrierReady.defcon = 1 ∧ (carrierReady.heap 0).hangar > 0 ∧
      (carrierReady.heap 0).cooldown - 1 ≤ 0) ∧
    ∃ w', Unit.update sampleEnv 0 carrierReady = some w' ∧
      w'.units = [0, 1] ∧ (w'.heap 1).faction = .NA ∧
      (w'.heap 1).pos = (carrierReady.heap 0).pos ∧ (w'.heap 1).type = .FIGHTER ∧
      (w'.heap 0).hangar = 9 ∧ (w'.heap 0).cooldown = 200 := by
  have hw : 0 < sampleEnv.width := by norm_num [sampleEnv]
  have hh : 0 < sampleEnv.height := by norm_num [sampleEnv]
  have hg : (carrierReady.heap 0).hangar > 0 := by decide
  have hc : (carrierReady.heap 0).cooldown - 1 ≤ 0 := by
    norm_num [carrierReady, Unit.new]
  have h := C22_carrier_spawns_one_aircraft sampleEnv hw hh 0 carrierReady (by decide) rfl rfl
    rfl hg hc
  obtain ⟨w', hw'⟩ := h.1 sampleEnv_random
  obtain ⟨h1, _, h3, h4, h5, h6, h7⟩ := h.2 w' hw'
  refine ⟨⟨⟨hw, hh⟩, by decide, rfl, rfl, rfl, hg, hc⟩, w', hw', h1, h3, h4, ?_, h6, h7⟩
  have h5' : (w'.heap 1).type
      = if sampleEnv.random 0 > 4 / 10 then UnitType.FIGHTER else UnitType.BOMBER := h5
  rw [h5']
  norm_num [sampleEnv]

/-- The `moveTo` of the world is `moveToCore` over the rationals with
`env.sqrt`. -/
theorem moveTo_eq_core (env : Env) (id : ℕ) (targetPos : Pt) (w : World) :
    Unit.moveTo env id targetPos w =
      match moveToCore env.sqrt
        (fun x y => isOnLand env (unproject env x y).lon (unproject env x y).lat)
        (w.heap id).isNaval (w.heap id).speed (w.heap id).pos.x (w.heap id).pos.y
        targetPos.x targetPos.y with
      | .stay => w
      | .blocked => w.setTarget id none
      | .step x y => w.setPos id { x := x, y := y } := by
  unfold Unit.moveTo moveToCore
  simp only
  split_ifs <;> rfl

theorem dist_eq_core (env : Env) (p1 p2 : Pt) :
    dist env p1 p2 = distCore env.sqrt p1.x p1.y p2.x p2.y := rfl

/-- The exact arithmetic of `moveTo`: over the reals with the real square
root, for every position, every target point and every speed in `[0, 1)`. -/
theorem moveToCore_real (onLand : ℝ → ℝ → Bool) (isNaval : Bool) (speed px py tx ty : ℝ)
    (hs0 : 0 ≤ speed) (hs1 : speed < 1) :
    (distCore Real.sqrt px py tx ty ≤ 1 →
      moveToCore Real.sqrt onLand isNaval speed px py tx ty = .stay) ∧
    (1 < distCore Real.sqrt px py tx ty →
      (isNaval = false ∨
        onLand (px + (tx - px) / distCore Real.sqrt px py tx ty * speed)
          (py + (ty - py) / distCore Real.sqrt px py tx ty * speed) = false) →
      ∃ x y, moveToCore Real.sqrt onLand isNaval speed px py tx ty = .step x y ∧
        (x = px + speed / distCore Real.sqrt px py tx ty * (tx - px) ∧
          y = py + speed / distCore Real.sqrt px py tx ty * (ty - py) ∧
          0 ≤ speed / distCore Real.sqrt px py tx ty ∧
          speed / distCore Real.sqrt px py tx ty < 1) ∧
        distCore Real.sqrt px py x y = speed ∧
        distCore Real.sqrt x y tx ty = distCore Real.sqrt px py tx ty - speed ∧
        0 < distCore Real.sqrt px py tx ty - speed) := by
  have harg : (tx - px) * (tx - px) + (ty - py) * (ty - py) = (px - tx) ^ 2 + (py - ty) ^ 2 := by
    ring
  have hS : 0 ≤ (px - tx) ^ 2 + (py - ty) ^ 2 := by positivity
  obtain ⟨d, hd⟩ : ∃ d, d = distCore Real.sqrt px py tx ty := ⟨_, rfl⟩
  have hdd : d * d = (px - tx) ^ 2 + (py - ty) ^ 2 := by
    rw [hd]
    exact Real.mul_self_sqrt hS
  have hcore : moveToCore Real.sqrt onLand isNaval speed px py tx ty =
      if d > 1 then
        (if isNaval = true ∧
            onLand (px + (tx - px) / d * speed) (py + (ty - py) / d * speed) = true
          then .blocked
          else .step (px + (tx - px) / d * speed) (py + (ty - py) / d * speed))
      else .stay := by
    unfold moveToCore
    simp only [harg]
    rw [hd]
    rfl
  rw [← hd]
  refine ⟨fun hle => ?_, fun hlt hcommit => ?_⟩
  · rw [hcore, if_neg (not_lt.mpr hle)]
  · have hdpos : 0 < d := by linarith
    have hdne : d ≠ 0 := ne_of_gt hdpos
    have hnb : ¬ (isNaval = true ∧
        onLand (px + (tx - px) / d * speed) (py + (ty - py) / d * speed) = true) := by
      rintro ⟨h1, h2⟩
      rcases hcommit with h | h
      · rw [h] at h1; cases h1
      · rw [h] at h2; cases h2
    refine ⟨px + (tx - px) / d * speed, py + (ty - py) / d * speed, ?_,
      ⟨by ring, by ring, div_nonneg hs0 hdpos.le, (div_lt_one hdpos).mpr (by linarith)⟩,
      ?_, ?_, by linarith⟩
    · rw [hcore, if_pos hlt, if_neg hnb]
    · have h1 : (px - (px + (tx - px) / d * speed)) ^ 2
          + (py - (py + (ty - py) / d * speed)) ^ 2 = speed * speed := by
        field_simp
        linear_combination (-(speed ^ 2)) * hdd
      unfold distCore
      rw [h1]
      exact Real.sqrt_mul_self hs0
    · have h2 : (px + (tx - px) / d * speed - tx) ^ 2
          + (py + (ty - py) / d * speed - ty) ^ 2 = (d - speed) * (d - speed) := by
        field_simp
        linear_combination (-((d - speed) ^ 2)) * hdd
      unfold distCore
      rw [h2]
      exact Real.sqrt_mul_self (by linarith)

/-- The `moveTo` of the world, for every `env.sqrt` and every target point,
with `d` the value of `dist` from the unit to the target: if `d ≤ 1` nothing
changes; if `d > 1` and the move is committed, the new position is the old one
plus `speed / d` times the vector to the target, and `0 ≤ speed / d < 1` for
a unit with the speed of its archetype. -/
theorem moveTo_world (env : Env) (id : ℕ) (targetPos : Pt) (w : World) :
    (dist env (w.heap id).pos targetPos ≤ 1 → Unit.moveTo env id targetPos w = w) ∧
    (1 < dist env (w.heap id).pos targetPos →
      ((w.heap id).isNaval = false ∨
        isOnLand env
          (unproject env
            ((w.heap id).pos.x + (targetPos.x - (w.heap id).pos.x)
              / dist env (w.heap id).pos targetPos * (w.heap id).speed)
            ((w.heap id).pos.y + (targetPos.y - (w.heap id).pos.y)
              / dist env (w.heap id).pos targetPos * (w.heap id).speed)).lon
          (unproject env
            ((w.heap id).pos.x + (targetPos.x - (w.heap id).pos.x)
              / dist env (w.heap id).pos targetPos * (w.heap id).speed)
            ((w.heap id).pos.y + (targetPos.y - (w.heap id).pos.y)
              / dist env (w.heap id).pos targetPos * (w.heap id).speed)).lat = false) →
      ((Unit.moveTo env id targetPos w).heap id).pos.x
        = (w.heap id).pos.x + (w.heap id).speed / dist env (w.heap id).pos targetPos
          * (targetPos.x - (w.heap id).pos.x) ∧
      ((Unit.moveTo env id targetPos w).heap id).pos.y
        = (w.heap id).pos.y + (w.heap id).speed / dist env (w.heap id).pos targetPos
          * (targetPos.y - (w.heap id).pos.y) ∧
      ((w.heap id).speed = (UNIT_STATS (w.heap id).type).speed →
        0 ≤ (w.heap id).speed / dist env (w.heap id).pos targetPos ∧
        (w.heap id).speed / dist env (w.heap id).pos targetPos < 1)) := by
  have hroot : env.sqrt ((targetPos.x - (w.heap id).pos.x) * (targetPos.x - (w.heap id).pos.x)
      + (targetPos.y - (w.heap id).pos.y) * (targetPos.y - (w.heap id).pos.y))
      = dist env (w.heap id).pos targetPos := by
    unfold dist
    congr 1
    ring
  obtain ⟨d, hd⟩ : ∃ d, d = dist env (w.heap id).pos targetPos := ⟨_, rfl⟩
  rw [← hd] at hroot ⊢
  refine ⟨fun hle => ?_, fun hlt hcommit => ?_⟩
  · unfold Unit.moveTo
    simp only
    rw [hroot, if_neg (not_lt.mpr hle)]
  · have hdpos : 0 < d := by linarith
    have hmove : Unit.moveTo env id targetPos w = w.setPos id
        { x := (w.heap id).pos.x + (targetPos.x - (w.heap id).pos.x) / d * (w.heap id).speed
          y := (w.heap id).pos.y + (targetPos.y - (w.heap id).pos.y) / d * (w.heap id).speed }
        := by
      unfold Unit.moveTo
      simp only
      rw [hroot, if_pos hlt, if_neg]
      rintro ⟨h1, h2⟩
      rcases hcommit with h | h
      · rw [h] at h1; cases h1
      · rw [h] at h2; cases h2
    have hpos : ((Unit.moveTo env id targetPos w).heap id).pos =
        { x := (w.heap id).pos.x + (targetPos.x - (w.heap id).pos.x) / d * (w.heap id).speed
          y := (w.heap id).pos.y + (targetPos.y - (w.heap id).pos.y) / d * (w.heap id).speed }
        := by
      rw [hmove]
      simp [World.setPos, World.setUnit]
    rw [hpos]
    refine ⟨by simp only; ring, by simp only; ring, fun hs => ?_⟩
    have hsp := archetype_speed (w.heap id).type
    rw [← hs] at hsp
    exact ⟨div_nonneg hsp.1 hdpos.le, (div_lt_one hdpos).mpr (by linarith)⟩

/-- Claim C19: the `moveTo` of the world is the arithmetic `moveToCore` over
the rationals with `env.sqrt`.  In the world, for every `env.sqrt`, every unit
and every target point at the computed distance `d`: if `d ≤ 1` nothing
changes; if `d > 1` and the move is committed (the unit is not naval, or the
next point is not on land), the new position is the old one plus `speed / d`
times the vector to the target, with `0 ≤ speed / d < 1` for the speed of an
archetype, so it lies on the segment from the old position to the target.  In
exact arithmetic, that is over the reals with the real square root, for every
position, every target point and the speed of every archetype, the same
holds, the distance of the new position from the old one is exactly `speed`,
and its distance to the target is exactly `d - speed`, which is positive. -/
theorem C19_moveTo_linear_interpolation :
    (∀ (env : Env) (id : ℕ) (targetPos : Pt) (w : World),
      Unit.moveTo env id targetPos w =
        match moveToCore env.sqrt
          (fun x y => isOnLand env (unproject env x y).lon (unproject env x y).lat)
          (w.heap id).isNaval (w.heap id).speed (w.heap id).pos.x (w.heap id).pos.y
          targetPos.x targetPos.y with
        | .stay => w
        | .blocked => w.setTarget id none
        | .step x y => w.setPos id { x := x, y := y }) ∧
    (∀ (env : Env) (id : ℕ) (targetPos : Pt) (w : World),
      (dist env (w.heap id).pos targetPos ≤ 1 → Unit.moveTo env id targetPos w = w) ∧
      (1 < dist env (w.heap id).pos targetPos →
        ((w.heap id).isNaval = false ∨
          isOnLand env
            (unproject env
              ((w.heap id).pos.x + (targetPos.x - (w.heap id).pos.x)
                / dist env (w.heap id).pos targetPos * (w.heap id).speed)
              ((w.heap id).pos.y + (targetPos.y - (w.heap id).pos.y)
                / dist env (w.heap id).pos targetPos * (w.heap id).speed)).lon
            (unproject env
              ((w.heap id).pos.x + (targetPos.x - (w.heap id).pos.x)
                / dist env (w.heap id).pos targetPos * (w.heap id).speed)
              ((w.heap id).pos.y + (targetPos.y - (w.heap id).pos.y)
                / dist env (w.heap id).pos targetPos * (w.heap id).speed)).lat = false) →
        ((Unit.moveTo env id targetPos w).heap id).pos.x
          = (w.heap id).pos.x + (w.heap id).speed / dist env (w.heap id).pos targetPos
            * (targetPos.x - (w.heap id).pos.x) ∧
        ((Unit.moveTo env id targetPos w).heap id).pos.y
          = (w.heap id).pos.y + (w.heap id).speed / dist env (w.heap id).pos targetPos
            * (targetPos.y - (w.heap id).pos.y) ∧
        ((w.heap id).speed = (UNIT_STATS (w.heap id).type).speed →
          0 ≤ (w.heap id).speed / dist env (w.heap id).pos targetPos ∧
          (w.heap id).speed / dist env (w.heap id).pos targetPos < 1))) ∧
    (∀ (t : UnitType) (onLand : ℝ → ℝ → Bool) (isNaval : Bool) (px py tx ty : ℝ),
      (distCore Real.sqrt px py tx ty ≤ 1 →
        moveToCore Real.sqrt onLand isNaval ((UNIT_STATS t).speed : ℝ) px py tx ty = .stay) ∧
      (1 < distCore Real.sqrt px py tx ty →
        (isNaval = false ∨
          onLand (px + (tx - px) / distCore Real.sqrt px py tx ty * ((UNIT_STATS t).speed : ℝ))
            (py + (ty - py) / distCore Real.sqrt px py tx ty * ((UNIT_STATS t).speed : ℝ))
            = false) →
        ∃ x y,
          moveToCore Real.sqrt onLand isNaval ((UNIT_STATS t).speed : ℝ) px py tx ty
            = .step x y ∧
          (x = px + ((UNIT_STATS t).speed : ℝ) / distCore Real.sqrt px py tx ty * (tx - px) ∧
            y = py + ((UNIT_STATS t).speed : ℝ) / distCore Real.sqrt px py tx ty * (ty - py) ∧
            0 ≤ ((UNIT_STATS t).speed : ℝ) / distCore Real.sqrt px py tx ty ∧
            ((UNIT_STATS t).speed : ℝ) / distCore Real.sqrt px py tx ty < 1) ∧
          distCore Real.sqrt px py x y = ((UNIT_STATS t).speed : ℝ) ∧
          distCore Real.sqrt x y tx ty
            = distCore Real.sqrt px py tx ty - ((UNIT_STATS t).speed : ℝ) ∧
          0 < distCore Real.sqrt px py tx ty - ((UNIT_STATS t).speed : ℝ))) := by
  refine ⟨moveTo_eq_core, moveTo_world, fun t onLand isNaval px py tx ty => ?_⟩
  have h0 : (0 : ℝ) ≤ ((UNIT_STATS t).speed : ℝ) := by exact_mod_cast (archetype_speed t).1
  have h1 : ((UNIT_STATS t).speed : ℝ) < 1 := by exact_mod_cast (archetype_speed t).2
  exact moveToCore_real onLand isNaval _ px py tx ty h0 h1

/-- Claim C19 for a bomber at `(310, 50)` and the target point `(312, 51)`
at the irrational distance `√5`: the bomber, of speed `2 / 5`, moves to a
point at distance exactly `2 / 5` from `(310, 50)` and `√5 - 2 / 5` from the
target. -/
theorem C19_witness :
    1 < distCore Real.sqrt 310 50 312 51 ∧
    ∃ x y, moveToCore Real.sqrt (fun _ _ => false) false
        ((UNIT_STATS .BOMBER).speed : ℝ) 310 50 312 51 = .step x y ∧
      distCore Real.sqrt 310 50 x y = 2 / 5 ∧
      distCore Real.sqrt x y 312 51 = Real.sqrt 5 - 2 / 5 := by
  have hd : distCore Real.sqrt 310 50 312 51 = Real.sqrt 5 := by
    unfold distCore
    norm_num
  have hlt : 1 < distCore Real.sqrt 310 50 312 51 := by
    rw [hd]
    exact Real.lt_sqrt_of_sq_lt (by norm_num)
  have hv : (((UNIT_STATS .BOMBER).speed : ℚ) : ℝ) = 2 / 5 := by
    norm_num [UNIT_STATS]
  obtain ⟨x, y, h1, _, h3, h4, _⟩ :=
    (C19_moveTo_linear_interpolation.2.2 .BOMBER (fun _ _ => false) false 310 50 312 51).2
      hlt (Or.inl rfl)
  exact ⟨hlt, x, y, h1, by rw [h3, hv], by rw [h4, hd, hv]⟩

end WarSim
